import Mathlib

/-!
# NachOS address spaces (`code/userprog/addrspace.cc`)

A shallow embedding of the address-space manager: the NOFF header check, the two
constructors of `ProcessAddressSpace` (from an executable, from a parent),
`AllocateSharedMemory`, `DemandAllocation` and `GetNextFreePage`.

Conventions of the embedding.

* 32-bit unsigned values are `Nat` and every C operation that can wrap carries an
  explicit `% 4294967296`; `int` values are `Int` with C's truncating division.
* The frame-issued counter `numPagesAllocated` is a `Nat` that is not wrapped: it
  only moves by increments performed by this module.
* `machine->mainMemory` is a map from byte address to byte; its size is
  `NumPhysPages * PageSize`, and an access outside of it, like an access outside a
  page table, has no defined behaviour (`Outcome.undef`).
* A failed `ASSERT` aborts the simulation: `Outcome.fatal` carries the state the
  kernel is in at the abort.
* The wait-queue insertion and the tick counter touched by the fork constructor
  belong to the scheduler; they are not part of the state modelled here, and the
  constructor is modelled as running to completion.
-/

namespace NachOS

/-- Constants of `machine.h`, `noff.h` and `addrspace.h` that `addrspace.cc` uses.
Their declarations are not part of the translated file, so they are parameters. -/
structure Config where
  PageSize : Nat
  NumPhysPages : Nat
  UserStackSize : Nat
  NOFFMAGIC : Nat
  deriving DecidableEq, Repr

/-- Size in bytes of `machine->mainMemory`: `NumPhysPages * PageSize`. -/
def Config.MemorySize (cfg : Config) : Nat := cfg.NumPhysPages * cfg.PageSize

/-- The constants are C `int` constants: the page size is positive, the memory
size fits an `int`, and the stack size and the magic number are 32-bit values. -/
def Config.wf (cfg : Config) : Prop :=
  0 < cfg.PageSize ∧ cfg.NumPhysPages * cfg.PageSize < 2147483648 ∧
    cfg.UserStackSize < 4294967296 ∧ cfg.NOFFMAGIC < 4294967296

instance (cfg : Config) : Decidable cfg.wf := by
  unfold Config.wf; infer_instance

/-- The constants of the stock NachOS machine: 128-byte pages, 32 frames, a
1024-byte user stack and the NOFF magic number `0xbadfad`. -/
def stockConfig : Config :=
  { PageSize := 128, NumPhysPages := 32, UserStackSize := 1024, NOFFMAGIC := 12246957 }

/-- Modelled from the spec: `WordToHost` is declared outside `addrspace.cc`; the
spec describes it as the 32-bit byte swap that is applied to the magic field and
to every size/address field of the header. -/
def WordToHost (x : Nat) : Nat :=
  (x % 256) * 16777216 + (x / 256 % 256) * 65536 + (x / 65536 % 256) * 256
    + (x / 16777216 % 256)

/-- Segment descriptor of `noff.h`: three 32-bit fields. -/
structure Segment where
  virtualAddr : Nat
  inFileAddr : Nat
  size : Nat
  deriving DecidableEq, Repr

/-- The NOFF header: magic number and three segment descriptors. -/
structure NoffHeader where
  noffMagic : Nat
  code : Segment
  initData : Segment
  uninitData : Segment
  deriving DecidableEq, Repr

/-- Every field of the segment is a 32-bit value. -/
def Segment.wf (s : Segment) : Prop :=
  s.virtualAddr < 4294967296 ∧ s.inFileAddr < 4294967296 ∧ s.size < 4294967296

/-- Every field of the header is a 32-bit value. -/
def NoffHeader.wf (h : NoffHeader) : Prop :=
  h.noffMagic < 4294967296 ∧ h.code.wf ∧ h.initData.wf ∧ h.uninitData.wf

instance (s : Segment) : Decidable s.wf := by
  unfold Segment.wf; infer_instance

instance (h : NoffHeader) : Decidable h.wf := by
  unfold NoffHeader.wf; infer_instance

/-- `SwapHeader` (lines 30-43): applies `WordToHost` to the ten words of the header. -/
def SwapHeader (noffH : NoffHeader) : NoffHeader :=
  { noffMagic := WordToHost noffH.noffMagic
    code :=
      { size := WordToHost noffH.code.size
        virtualAddr := WordToHost noffH.code.virtualAddr
        inFileAddr := WordToHost noffH.code.inFileAddr }
    initData :=
      { size := WordToHost noffH.initData.size
        virtualAddr := WordToHost noffH.initData.virtualAddr
        inFileAddr := WordToHost noffH.initData.inFileAddr }
    uninitData :=
      { size := WordToHost noffH.uninitData.size
        virtualAddr := WordToHost noffH.uninitData.virtualAddr
        inFileAddr := WordToHost noffH.uninitData.inFileAddr } }

/-- The header normalisation that both readers of the header perform (lines 71-73
and 253-256): swap when the magic only matches after `WordToHost`. -/
def normaliseHeader (cfg : Config) (noffH : NoffHeader) : NoffHeader :=
  if noffH.noffMagic ≠ cfg.NOFFMAGIC ∧ WordToHost noffH.noffMagic = cfg.NOFFMAGIC then
    SwapHeader noffH
  else noffH

/-- The condition of `ASSERT(noffH.noffMagic == NOFFMAGIC)` on the normalised header. -/
def magicCheckPasses (cfg : Config) (noffH : NoffHeader) : Prop :=
  (normaliseHeader cfg noffH).noffMagic = cfg.NOFFMAGIC

instance (cfg : Config) (noffH : NoffHeader) : Decidable (magicCheckPasses cfg noffH) := by
  unfold magicCheckPasses; infer_instance

/-- The macro `divRoundUp(n, s)` on unsigned operands:
`((n) / (s)) + ((((n) % (s)) > 0) ? 1 : 0)`. -/
def divRoundUp (n s : Nat) : Nat := n / s + (if n % s > 0 then 1 else 0)

/-- The macro `divRoundUp(n, s)` on `int` operands: C division truncates towards
zero and the remainder has the sign of the dividend. -/
def divRoundUpInt (n s : Int) : Int := Int.tdiv n s + (if Int.tmod n s > 0 then 1 else 0)

/-- Page-table entry of `translate.h` with the `shared` flag of this kernel. -/
structure TranslationEntry where
  virtualPage : Nat
  physicalPage : Int
  valid : Bool
  use : Bool
  dirty : Bool
  readOnly : Bool
  shared : Bool
  deriving DecidableEq, Repr

/-- An open executable: the ten header words as `ReadAt((char *)&noffH,
sizeof(noffH), 0)` delivers them, and the bytes of the file by offset. -/
structure OpenFile where
  noffH : NoffHeader
  data : List Nat
  deriving DecidableEq, Repr

/-- Number of bytes a positioned read of `numBytes` bytes at `position` transfers:
the file supplies nothing past its end. -/
def OpenFile.bytesRead (f : OpenFile) (numBytes position : Nat) : Nat :=
  min numBytes (f.data.length - position)

/-- Modelled from the spec: `OpenFile::ReadAt` is declared outside `addrspace.cc`;
the spec describes it as a positioned read `read(buffer, length, fileOffset)`. The
bytes the file supplies are stored from address `into` on; memory that receives
no byte is unchanged. -/
def OpenFile.ReadAt (f : OpenFile) (mem : Nat → Nat) (into numBytes position : Nat) :
    Nat → Nat :=
  fun a =>
    if into ≤ a ∧ a < into + f.bytesRead numBytes position then
      f.data.getD (position + (a - into)) 0
    else mem a

/-- The library routine `bzero(&mem[start], n)`. -/
def bzero (mem : Nat → Nat) (start n : Nat) : Nat → Nat :=
  fun a => if start ≤ a ∧ a < start + n then 0 else mem a

/-- The CPU/MMU simulation: physical memory, the register file and the published
page table with its length. -/
structure Machine where
  mainMemory : Nat → Nat
  registers : Nat → Int
  KernelPageTable : List TranslationEntry
  KernelPageTableSize : Nat

/-- The globals of `system.h` that `addrspace.cc` reads or writes. -/
structure Kernel where
  machine : Machine
  fileSystem : String → Option OpenFile
  numPagesAllocated : Nat
  pageReplaceAlgo : Int
  pageFaultCount : Nat

/-- Result of running one routine of the module. -/
inductive Outcome (α : Type) where
  | ok (val : α) (k : Kernel)
  | fatal (k : Kernel)
  | undef

/-- The value a routine returned, if it returned. -/
def Outcome.val? {α : Type} : Outcome α → Option α
  | .ok v _ => some v
  | _ => none

/-- The kernel state a routine left: after a return or at a failed assertion. -/
def Outcome.kernel? {α : Type} : Outcome α → Option Kernel
  | .ok _ k => some k
  | .fatal k => some k
  | .undef => none

/-- The run ended in a failed `ASSERT`. -/
def Outcome.isFatal {α : Type} : Outcome α → Bool
  | .fatal _ => true
  | _ => false

/-- The fields of a `ProcessAddressSpace` object. -/
structure ProcessAddressSpace where
  fileName : String
  progExecutable : Option OpenFile
  numVirtualPages : Nat
  KernelPageTable : List TranslationEntry

/-- The loop `for (i = lo; i < hi; i++) body`, where the body can hit an access
without defined behaviour. -/
def forLoop {σ : Type} (lo hi : Nat) (body : σ → Nat → Option σ) (s : σ) : Option σ :=
  (List.range' lo (hi - lo)).foldlM body s

/-- Assignment to fields of `table[i]`: not defined outside the array. -/
def writeEntry (table : List TranslationEntry) (i : Nat)
    (f : TranslationEntry → TranslationEntry) : Option (List TranslationEntry) :=
  match table[i]? with
  | none => none
  | some e => some (table.set i (f e))

/-- The array `new TranslationEntry[n]`: `fresh i` is what the new storage holds at
index `i` before any field is assigned. -/
def newTable (fresh : Nat → TranslationEntry) (n : Nat) : List TranslationEntry :=
  (List.range n).map fresh

/-- `ProcessAddressSpace::GetNextFreePage` (lines 274-281): every value of
`pageReplaceAlgo` takes the `default` branch, `return numPagesAllocated++`. -/
def GetNextFreePage (k : Kernel) (_currentPage : Int) : Nat × Kernel :=
  (k.numPagesAllocated, { k with numPagesAllocated := k.numPagesAllocated + 1 })

/-- Assignment to `machine->mainMemory`. -/
def Kernel.setMemory (k : Kernel) (mem : Nat → Nat) : Kernel :=
  { k with machine := { k.machine with mainMemory := mem } }

/-- Body of the loop of lines 89-97 (eager construction). -/
def eagerEntry (numPagesAllocated : Nat) (table : List TranslationEntry) (i : Nat) :
    Option (List TranslationEntry) :=
  writeEntry table i fun e =>
    { e with
      virtualPage := i
      physicalPage := ((i + numPagesAllocated : Nat) : Int)
      valid := true
      use := false
      dirty := false
      readOnly := false }

/-- Body of the loop of lines 126-134 (demand-paged construction). -/
def demandEntry (table : List TranslationEntry) (i : Nat) : Option (List TranslationEntry) :=
  writeEntry table i fun e =>
    { e with
      virtualPage := i
      physicalPage := -1
      valid := false
      use := false
      dirty := false
      readOnly := false }

/-- The block of lines 103-112, repeated at lines 113-122 for the initialised
data: when the segment is not empty, look up the frame of the page that holds
`virtualAddr` and read `size` bytes of the file at `inFileAddr` to
`mainMemory[pageFrame * PageSize + offset]`. -/
def loadSegment (cfg : Config) (executable : OpenFile)
    (KernelPageTable : List TranslationEntry) (seg : Segment) (mem : Nat → Nat) :
    Option (Nat → Nat) :=
  if seg.size > 0 then
    let vpn := seg.virtualAddr / cfg.PageSize
    let offset := seg.virtualAddr % cfg.PageSize
    match KernelPageTable[vpn]? with
    | none => none
    | some entry =>
      let pageFrame := (entry.physicalPage % 4294967296).toNat
      let into := (pageFrame * cfg.PageSize + offset) % 4294967296
      if executable.bytesRead seg.size seg.inFileAddr = 0 ∨
          into + executable.bytesRead seg.size seg.inFileAddr ≤ cfg.MemorySize then
        some (executable.ReadAt mem into seg.size seg.inFileAddr)
      else none
  else some mem

/-- Number of pages of the image a normalised header describes (lines 76-78):
`divRoundUp` of the 32-bit sum of the three segment sizes and the stack size. -/
def imagePages (cfg : Config) (noffH : NoffHeader) : Nat :=
  divRoundUp ((noffH.code.size + noffH.initData.size + noffH.uninitData.size
    + cfg.UserStackSize) % 4294967296) cfg.PageSize

/-- `ProcessAddressSpace::ProcessAddressSpace(OpenFile *executable)` (lines 60-136).
`fileName` is the value the member `fileName` holds: this constructor does not
assign it. -/
def ProcessAddressSpace.ctorExecutable (cfg : Config) (k : Kernel) (executable : OpenFile)
    (fileName : String) (fresh : Nat → TranslationEntry) : Outcome ProcessAddressSpace :=
  let noffH := normaliseHeader cfg executable.noffH
  if noffH.noffMagic ≠ cfg.NOFFMAGIC then .fatal k
  else
    let numVirtualPages := imagePages cfg noffH
    let size := numVirtualPages * cfg.PageSize % 4294967296
    if ¬ (numVirtualPages + k.numPagesAllocated ≤ cfg.NumPhysPages) then .fatal k
    else if k.pageReplaceAlgo = 0 then
      match forLoop 0 numVirtualPages (eagerEntry k.numPagesAllocated)
          (newTable fresh numVirtualPages) with
      | none => .undef
      | some table =>
        if ¬ (size = 0 ∨ k.numPagesAllocated * cfg.PageSize + size ≤ cfg.MemorySize) then .undef
        else
          let mem1 := bzero k.machine.mainMemory (k.numPagesAllocated * cfg.PageSize) size
          let k1 := { k.setMemory mem1 with
            numPagesAllocated := k.numPagesAllocated + numVirtualPages }
          match loadSegment cfg executable table noffH.code mem1 with
          | none => .undef
          | some mem2 =>
            match loadSegment cfg executable table noffH.initData mem2 with
            | none => .undef
            | some mem3 =>
              .ok { fileName := fileName, progExecutable := some executable,
                    numVirtualPages := numVirtualPages, KernelPageTable := table }
                (k1.setMemory mem3)
    else
      match forLoop 0 numVirtualPages demandEntry (newTable fresh numVirtualPages) with
      | none => .undef
      | some table =>
        .ok { fileName := fileName, progExecutable := some executable,
              numVirtualPages := numVirtualPages, KernelPageTable := table } k

/-- Body of the loop of lines 181-184: one byte of the parent's frame is copied to
the child's frame. -/
def copyByte (cfg : Config) (startAddrChild startAddrParent : Nat) (mem : Nat → Nat)
    (j : Nat) : Option (Nat → Nat) :=
  let dst := (startAddrChild + j) % 4294967296
  let src := (startAddrParent + j) % 4294967296
  if dst < cfg.MemorySize ∧ src < cfg.MemorySize then
    some (Function.update mem dst (mem src))
  else none

/-- Body of the loop of lines 165-194 (fork duplication); the state is the child's
table and the kernel. -/
def forkEntry (cfg : Config) (parentPageTable : List TranslationEntry)
    (s : List TranslationEntry × Kernel) (i : Nat) :
    Option (List TranslationEntry × Kernel) :=
  match parentPageTable[i]? with
  | none => none
  | some p =>
    if p.valid = true ∧ p.shared = false then
      let r := GetNextFreePage s.2 p.physicalPage
      let startAddrParent := (p.physicalPage * (cfg.PageSize : Int) % 4294967296).toNat
      let startAddrChild := r.1 * cfg.PageSize % 4294967296
      match writeEntry s.1 i (fun e =>
          { e with
            virtualPage := i
            use := p.use
            readOnly := p.readOnly
            dirty := p.dirty
            shared := p.shared
            physicalPage := (r.1 : Int)
            valid := true }),
        forLoop 0 cfg.PageSize (copyByte cfg startAddrChild startAddrParent)
          r.2.machine.mainMemory with
      | some table, some mem =>
        some (table, { r.2.setMemory mem with pageFaultCount := r.2.pageFaultCount + 1 })
      | _, _ => none
    else
      match writeEntry s.1 i (fun e =>
          { e with
            virtualPage := i
            use := p.use
            readOnly := p.readOnly
            dirty := p.dirty
            shared := p.shared
            physicalPage := p.physicalPage
            valid := p.valid }) with
      | some table => some (table, s.2)
      | none => none

/-- `ProcessAddressSpace::ProcessAddressSpace(ProcessAddressSpace *parentSpace)`
(lines 143-195). -/
def ProcessAddressSpace.ctorParent (cfg : Config) (k : Kernel)
    (parentSpace : ProcessAddressSpace) (fresh : Nat → TranslationEntry) :
    Outcome ProcessAddressSpace :=
  match k.fileSystem parentSpace.fileName with
  | none => .fatal k
  | some f =>
    let numVirtualPages := parentSpace.numVirtualPages
    if ¬ (numVirtualPages + k.numPagesAllocated ≤ cfg.NumPhysPages) then .fatal k
    else
      match forLoop 0 numVirtualPages (forkEntry cfg parentSpace.KernelPageTable)
          (newTable fresh numVirtualPages, k) with
      | none => .undef
      | some s =>
        .ok { fileName := parentSpace.fileName, progExecutable := some f,
              numVirtualPages := numVirtualPages, KernelPageTable := s.1 } s.2

/-- `ProcessAddressSpace::RestoreContextOnSwitch` (lines 345-349). -/
def ProcessAddressSpace.RestoreContextOnSwitch (sp : ProcessAddressSpace) (k : Kernel) :
    Kernel :=
  { k with machine := { k.machine with
      KernelPageTable := sp.KernelPageTable
      KernelPageTableSize := sp.numVirtualPages } }

/-- Body of the loop of lines 206-215: the seven fields of entry `i` are copied. -/
def copyEntry (KernelPageTable : List TranslationEntry) (newPageTable : List TranslationEntry)
    (i : Nat) : Option (List TranslationEntry) :=
  match KernelPageTable[i]? with
  | none => none
  | some o =>
    writeEntry newPageTable i fun e =>
      { e with
        virtualPage := o.virtualPage
        physicalPage := o.physicalPage
        valid := o.valid
        use := o.use
        dirty := o.dirty
        readOnly := o.readOnly
        shared := o.shared }

/-- Body of the loop of lines 217-226: entry `i` becomes a shared page on a frame
obtained from `GetNextFreePage(-1)`. -/
def sharedEntry (s : List TranslationEntry × Kernel) (i : Nat) :
    Option (List TranslationEntry × Kernel) :=
  let r := GetNextFreePage s.2 (-1)
  match writeEntry s.1 i (fun e =>
      { e with
        virtualPage := i
        physicalPage := (r.1 : Int)
        valid := true
        use := false
        dirty := false
        readOnly := false
        shared := true }) with
  | some table => some (table, r.2)
  | none => none

/-- `ProcessAddressSpace::AllocateSharedMemory(int size)` (lines 197-237): returns the
value of the call and the object after it. -/
def ProcessAddressSpace.AllocateSharedMemory (cfg : Config) (k : Kernel)
    (sp : ProcessAddressSpace) (size : Int) (fresh : Nat → TranslationEntry) :
    Outcome (Nat × ProcessAddressSpace) :=
  let numRequiredPages :=
    (((sp.numVirtualPages : Int) + divRoundUpInt size cfg.PageSize) % 4294967296).toNat
  if ¬ (numRequiredPages ≤ cfg.NumPhysPages) then .fatal k
  else
    match forLoop 0 sp.numVirtualPages (copyEntry sp.KernelPageTable)
        (newTable fresh numRequiredPages) with
    | none => .undef
    | some t1 =>
      match forLoop sp.numVirtualPages numRequiredPages sharedEntry (t1, k) with
      | none => .undef
      | some s =>
        let returnValue := sp.numVirtualPages
        let sp1 := { sp with KernelPageTable := s.1, numVirtualPages := numRequiredPages }
        .ok (returnValue * cfg.PageSize % 4294967296, sp1) (sp1.RestoreContextOnSwitch s.2)

/-- `ProcessAddressSpace::DemandAllocation(int vpaddress)` (lines 239-272): returns
the value of the call and the object after it. The header is read through the
re-opened file before the null test of line 259, so a file that does not open
leaves no defined behaviour. -/
def ProcessAddressSpace.DemandAllocation (cfg : Config) (k : Kernel)
    (sp : ProcessAddressSpace) (vpaddress : Int) : Outcome (Bool × ProcessAddressSpace) :=
  let vpn : Int := Int.tdiv vpaddress cfg.PageSize
  let r := GetNextFreePage k (-1)
  let phyPageNum := r.1
  if ¬ (phyPageNum * cfg.PageSize + cfg.PageSize ≤ cfg.MemorySize) then .undef
  else
    let mem1 := bzero r.2.machine.mainMemory (phyPageNum * cfg.PageSize) cfg.PageSize
    let k1 := r.2.setMemory mem1
    match k.fileSystem sp.fileName with
    | none => .undef
    | some f =>
      let noffH := normaliseHeader cfg f.noffH
      if noffH.noffMagic ≠ cfg.NOFFMAGIC then .fatal k1
      else
        let position :=
          (((noffH.code.inFileAddr : Int) + vpn * cfg.PageSize) % 4294967296).toNat
        let mem2 := f.ReadAt mem1 (phyPageNum * cfg.PageSize) cfg.PageSize position
        if vpn < 0 then .undef
        else
          match writeEntry sp.KernelPageTable vpn.toNat (fun e =>
              { e with valid := true, dirty := false, physicalPage := (phyPageNum : Int) }) with
          | none => .undef
          | some table =>
            .ok (true, { sp with progExecutable := some f, KernelPageTable := table })
              (k1.setMemory mem2)

/-- Register numbers of `machine.h` that `InitUserModeCPURegisters` uses. Their
declarations are not part of the translated file, so they are parameters. -/
structure RegConfig where
  NumTotalRegs : Nat
  StackReg : Nat
  PCReg : Nat
  NextPCReg : Nat
  deriving DecidableEq, Repr

/-- The register numbers are numbers of registers of the file, and the three
special registers are distinct. -/
def RegConfig.wf (rc : RegConfig) : Prop :=
  rc.StackReg < rc.NumTotalRegs ∧ rc.PCReg < rc.NumTotalRegs ∧
    rc.NextPCReg < rc.NumTotalRegs ∧ rc.StackReg ≠ rc.PCReg ∧
    rc.StackReg ≠ rc.NextPCReg ∧ rc.PCReg ≠ rc.NextPCReg

instance (rc : RegConfig) : Decidable rc.wf := by
  unfold RegConfig.wf; infer_instance

/-- The register numbers of the stock NachOS machine: 40 registers, stack pointer
29, program counter 34, next program counter 35. -/
def stockRegs : RegConfig :=
  { NumTotalRegs := 40, StackReg := 29, PCReg := 34, NextPCReg := 35 }

/-- The value an `int` holds after a 32-bit unsigned value is stored in it. -/
def toInt32 (x : Int) : Int := (x + 2147483648) % 4294967296 - 2147483648

/-- Modelled from the spec: `Machine::WriteRegister` is declared outside
`addrspace.cc`; the spec describes the register file as writable and indexed by
register id. -/
def Machine.WriteRegister (m : Machine) (num : Nat) (value : Int) : Machine :=
  { m with registers := Function.update m.registers num value }

/-- Body of the loop of lines 308-309: `machine->WriteRegister(i, 0)`. -/
def zeroRegister (m : Machine) (i : Nat) : Option Machine :=
  some (m.WriteRegister i 0)

/-- `ProcessAddressSpace::InitUserModeCPURegisters` (lines 304-323). The stack
register receives the `unsigned` value `numVirtualPages * PageSize - 16`, converted
to the `int` parameter of `WriteRegister`. -/
def ProcessAddressSpace.InitUserModeCPURegisters (cfg : Config) (rc : RegConfig)
    (sp : ProcessAddressSpace) (k : Kernel) : Outcome Unit :=
  match forLoop 0 rc.NumTotalRegs zeroRegister k.machine with
  | none => .undef
  | some m0 =>
    let m1 := m0.WriteRegister rc.PCReg 0
    let m2 := m1.WriteRegister rc.NextPCReg 4
    let m3 := m2.WriteRegister rc.StackReg
      (toInt32 (((sp.numVirtualPages * cfg.PageSize % 4294967296 : Nat) : Int) - 16))
    .ok () { k with machine := m3 }

/-- `ProcessAddressSpace::SaveContextOnSwitch` (lines 333-335): the body is empty. -/
def ProcessAddressSpace.SaveContextOnSwitch (_sp : ProcessAddressSpace) (k : Kernel) :
    Kernel := k

/-- `ProcessAddressSpace::GetNumPages` (lines 351-355). -/
def ProcessAddressSpace.GetNumPages (sp : ProcessAddressSpace) : Nat := sp.numVirtualPages

/-- `ProcessAddressSpace::GetPageTable` (lines 357-361). -/
def ProcessAddressSpace.GetPageTable (sp : ProcessAddressSpace) : List TranslationEntry :=
  sp.KernelPageTable

/-! ## Vocabulary of the statements -/

/-- The entry is valid and not shared: the fork constructor gives the child a frame
of its own for such an entry. -/
def TranslationEntry.isPrivate (e : TranslationEntry) : Bool := e.valid && !e.shared

/-- Number of valid, not shared entries among the first `i` entries of a table. -/
def privCount (table : List TranslationEntry) (i : Nat) : Nat :=
  (table.take i).countP TranslationEntry.isPrivate

/-- The child's entry `i` after the fork loop has handled the parent's entry `p`:
`frame` is the frame `GetNextFreePage` returns at that step and `e` is what the
child's storage held at index `i`. -/
def forkChild (frame : Nat) (p : TranslationEntry) (i : Nat) (e : TranslationEntry) :
    TranslationEntry :=
  if p.valid = true ∧ p.shared = false then
    { e with
      virtualPage := i
      use := p.use
      readOnly := p.readOnly
      dirty := p.dirty
      shared := p.shared
      physicalPage := (frame : Int)
      valid := true }
  else
    { e with
      virtualPage := i
      use := p.use
      readOnly := p.readOnly
      dirty := p.dirty
      shared := p.shared
      physicalPage := p.physicalPage
      valid := p.valid }

/-- State of the fork loop after `i` iterations over the parent's table
`parentPageTable`, started in kernel state `k` on a fresh child table of `n`
entries. -/
def ForkInv (cfg : Config) (parentPageTable : List TranslationEntry)
    (fresh : Nat → TranslationEntry) (n : Nat) (k : Kernel) (i : Nat)
    (s : List TranslationEntry × Kernel) : Prop :=
  s.1.length = n ∧
  (∀ j, j < i → ∃ p, parentPageTable[j]? = some p ∧
    s.1[j]? = some (forkChild (k.numPagesAllocated + privCount parentPageTable j) p j (fresh j))) ∧
  (∀ j, i ≤ j → s.1[j]? = (newTable fresh n)[j]?) ∧
  s.2.numPagesAllocated = k.numPagesAllocated + privCount parentPageTable i ∧
  s.2.pageFaultCount = k.pageFaultCount + privCount parentPageTable i ∧
  (∀ a, ¬ (k.numPagesAllocated * cfg.PageSize ≤ a ∧
      a < (k.numPagesAllocated + privCount parentPageTable i) * cfg.PageSize) →
    s.2.machine.mainMemory a = k.machine.mainMemory a) ∧
  (∀ j p, j < i → parentPageTable[j]? = some p → p.valid = true → p.shared = false →
    0 ≤ p.physicalPage → p.physicalPage < (k.numPagesAllocated : Int) →
    ∀ b, b < cfg.PageSize →
      s.2.machine.mainMemory
          ((k.numPagesAllocated + privCount parentPageTable j) * cfg.PageSize + b)
        = k.machine.mainMemory (p.physicalPage.toNat * cfg.PageSize + b))

/-- The entry that `AllocateSharedMemory` writes at a new index `i` on frame `frame`. -/
def sharedPage (i frame : Nat) : TranslationEntry :=
  { virtualPage := i, physicalPage := (frame : Int), valid := true, use := false,
    dirty := false, readOnly := false, shared := true }

/-- The value of `numRequiredPages` in `AllocateSharedMemory(size)` (line 199): the
32-bit unsigned sum of `numVirtualPages` and `divRoundUp(size, PageSize)`. -/
def requiredPages (cfg : Config) (numVirtualPages : Nat) (size : Int) : Nat :=
  (((numVirtualPages : Int) + divRoundUpInt size cfg.PageSize) % 4294967296).toNat

/-- The kernel together with the address spaces that exist. -/
structure World where
  kernel : Kernel
  spaces : List ProcessAddressSpace

/-- The operations of the module, as the rest of the kernel invokes them; spaces
are named by their position in `World.spaces`. `configure` sets the global
`pageReplaceAlgo`, which selects eager or demand-paged construction. -/
inductive Op where
  | configure (pageReplaceAlgo : Int)
  | create (executable : OpenFile) (fileName : String) (fresh : Nat → TranslationEntry)
  | fork (parent : Nat) (fresh : Nat → TranslationEntry)
  | allocateShared (space : Nat) (size : Int) (fresh : Nat → TranslationEntry)
  | demand (space : Nat) (vpaddress : Int)

/-- One operation; `none` when the operation fails (a failed assertion, an access
without defined behaviour, or a space that does not exist). -/
def step (cfg : Config) (w : World) : Op → Option World
  | .configure a => some { w with kernel := { w.kernel with pageReplaceAlgo := a } }
  | .create executable fileName fresh =>
    match ProcessAddressSpace.ctorExecutable cfg w.kernel executable fileName fresh with
    | .ok sp k => some { kernel := k, spaces := w.spaces ++ [sp] }
    | _ => none
  | .fork parent fresh =>
    match w.spaces[parent]? with
    | none => none
    | some parentSpace =>
      match ProcessAddressSpace.ctorParent cfg w.kernel parentSpace fresh with
      | .ok child k => some { kernel := k, spaces := w.spaces ++ [child] }
      | _ => none
  | .allocateShared space size fresh =>
    match w.spaces[space]? with
    | none => none
    | some sp =>
      match sp.AllocateSharedMemory cfg w.kernel size fresh with
      | .ok r k => some { kernel := k, spaces := w.spaces.set space r.2 }
      | _ => none
  | .demand space vpaddress =>
    match w.spaces[space]? with
    | none => none
    | some sp =>
      match sp.DemandAllocation cfg w.kernel vpaddress with
      | .ok r k => some { kernel := k, spaces := w.spaces.set space r.2 }
      | _ => none

/-- A sequence of operations in which none fails. -/
def run (cfg : Config) (w : World) (ops : List Op) : Option World :=
  ops.foldlM (step cfg) w

/-- Entry `e` is entry `i` of space `a`, and it is valid and not marked shared. -/
def World.PrivateSlot (w : World) (a i : Nat) (e : TranslationEntry) : Prop :=
  ∃ sp, w.spaces[a]? = some sp ∧ sp.KernelPageTable[i]? = some e ∧
    e.valid = true ∧ e.shared = false

/-- No two distinct valid, not shared entries hold the same `physicalPage`. -/
def World.NoPrivateAliasing (w : World) : Prop :=
  ∀ a i e b j e', w.PrivateSlot a i e → w.PrivateSlot b j e' →
    e.physicalPage = e'.physicalPage → a = b ∧ i = j

/-- Every valid, not shared entry holds a frame that has been issued. -/
def World.FramesIssued (w : World) : Prop :=
  ∀ a i e, w.PrivateSlot a i e →
    0 ≤ e.physicalPage ∧ e.physicalPage < (w.kernel.numPagesAllocated : Int)

/-- Successive calls of `GetNextFreePage`, one for each hint of the list: the frames
returned, in order, and the kernel after the last call. -/
def issueFrames (k : Kernel) : List Int → List Nat × Kernel
  | [] => ([], k)
  | hint :: rest =>
    ((GetNextFreePage k hint).1 :: (issueFrames (GetNextFreePage k hint).2 rest).1,
      (issueFrames (GetNextFreePage k hint).2 rest).2)

/-- The positions at which eager construction indexes `KernelPageTable`: the loop
of lines 89-97, then `KernelPageTable[vpn]` at line 109 when the code segment is
not empty and at line 119 when the initialised-data segment is not empty. -/
def eagerTableIndexes (cfg : Config) (noffH : NoffHeader) : List Nat :=
  List.range (imagePages cfg noffH)
    ++ (if noffH.code.size > 0 then [noffH.code.virtualAddr / cfg.PageSize] else [])
    ++ (if noffH.initData.size > 0 then [noffH.initData.virtualAddr / cfg.PageSize] else [])

/-- Offset `a` of the image lies in the segment. -/
def Segment.covers (seg : Segment) (a : Nat) : Prop :=
  seg.virtualAddr ≤ a ∧ a < seg.virtualAddr + seg.size

instance (seg : Segment) (a : Nat) : Decidable (seg.covers a) := by
  unfold Segment.covers; infer_instance

/-! ## Concrete machines and executables -/

/-- The four bytes of a 32-bit word, least significant first. -/
def wordBytes (w : Nat) : List Nat :=
  [w % 256, w / 256 % 256, w / 65536 % 256, w / 16777216 % 256]

/-- The forty bytes of a header as a little-endian host stores them. -/
def headerBytes (h : NoffHeader) : List Nat :=
  wordBytes h.noffMagic
    ++ wordBytes h.code.virtualAddr ++ wordBytes h.code.inFileAddr ++ wordBytes h.code.size
    ++ wordBytes h.initData.virtualAddr ++ wordBytes h.initData.inFileAddr
    ++ wordBytes h.initData.size
    ++ wordBytes h.uninitData.virtualAddr ++ wordBytes h.uninitData.inFileAddr
    ++ wordBytes h.uninitData.size

/-- An entry of storage that was never assigned: all fields zero. -/
def zeroEntry : TranslationEntry :=
  { virtualPage := 0, physicalPage := 0, valid := false, use := false, dirty := false,
    readOnly := false, shared := false }

/-- Fresh storage with every field zero. -/
def zeroFresh : Nat → TranslationEntry := fun _ => zeroEntry

/-- Header of a small program: 16 bytes of code, 8 bytes of initialised data and 4
bytes of uninitialised data. -/
def smallHeader : NoffHeader :=
  { noffMagic := 12246957
    code := { virtualAddr := 0, inFileAddr := 40, size := 16 }
    initData := { virtualAddr := 16, inFileAddr := 56, size := 8 }
    uninitData := { virtualAddr := 24, inFileAddr := 0, size := 4 } }

/-- The small program: its header and 24 bytes of segment contents. -/
def smallExe : OpenFile :=
  { noffH := smallHeader
    data := headerBytes smallHeader ++
      [101, 102, 103, 104, 105, 106, 107, 108, 109, 110, 111, 112, 113, 114, 115, 116,
       201, 202, 203, 204, 205, 206, 207, 208] }

/-- A header whose three segment sizes add up to `4294967296 + 128` before the stack
is added: each size is a positive 31-bit value. -/
def wrapHeader : NoffHeader :=
  { noffMagic := 12246957
    code := { virtualAddr := 0, inFileAddr := 40, size := 2147483136 }
    initData := { virtualAddr := 0, inFileAddr := 40, size := 2147483136 }
    uninitData := { virtualAddr := 0, inFileAddr := 0, size := 128 } }

/-- A file that holds `wrapHeader` and nothing else. -/
def wrapExe : OpenFile :=
  { noffH := wrapHeader, data := headerBytes wrapHeader }

/-- The small program with a code segment placed at file offset `2^32 - 128`. -/
def offsetHeader : NoffHeader :=
  { smallHeader with code := { virtualAddr := 0, inFileAddr := 4294967168, size := 16 } }

/-- A file that holds `offsetHeader` and the segment contents of the small program. -/
def offsetExe : OpenFile :=
  { noffH := offsetHeader
    data := headerBytes offsetHeader ++
      [101, 102, 103, 104, 105, 106, 107, 108, 109, 110, 111, 112, 113, 114, 115, 116,
       201, 202, 203, 204, 205, 206, 207, 208] }

/-- A header whose magic number is no NOFF magic in either byte order. -/
def badHeader : NoffHeader := { smallHeader with noffMagic := 1 }

/-- A file with a bad header. -/
def badExe : OpenFile := { noffH := badHeader, data := headerBytes badHeader }

/-- The file system of the examples. -/
def exampleFileSystem : String → Option OpenFile := fun name =>
  if name = "small" then some smallExe
  else if name = "wrap" then some wrapExe
  else if name = "offset" then some offsetExe
  else if name = "bad" then some badExe
  else none

/-- The kernel after boot: zeroed memory and registers, no frame issued, eager
loading selected. -/
def bootKernel : Kernel :=
  { machine :=
      { mainMemory := fun _ => 0, registers := fun _ => 0, KernelPageTable := [],
        KernelPageTableSize := 0 }
    fileSystem := exampleFileSystem
    numPagesAllocated := 0
    pageReplaceAlgo := 0
    pageFaultCount := 0 }

/-- The address space of the small program, built eagerly after boot. -/
def smallSpace : ProcessAddressSpace :=
  { fileName := "small", progExecutable := some smallExe, numVirtualPages := 9
    KernelPageTable := (List.range 9).map fun i =>
      { zeroEntry with virtualPage := i, physicalPage := (i : Int), valid := true } }

/-- The kernel after the small program has been loaded eagerly after boot. -/
def smallKernel : Kernel :=
  { bootKernel with
    machine := { bootKernel.machine with
      mainMemory := smallExe.ReadAt (smallExe.ReadAt (bzero (fun _ => 0) 0 1152) 0 16 40) 16 8 56 }
    numPagesAllocated := 9 }

/-- The outcome of forking the small address space right after it was loaded. -/
def forkOutcome : Outcome ProcessAddressSpace :=
  ProcessAddressSpace.ctorParent stockConfig smallKernel smallSpace zeroFresh

/-- The child of the small address space. -/
def childSpace : ProcessAddressSpace :=
  match forkOutcome with
  | .ok sp _ => sp
  | _ => smallSpace

/-- The kernel after the small address space has been forked. -/
def childKernel : Kernel :=
  match forkOutcome with
  | .ok _ k => k
  | _ => smallKernel

/-- The small address space after `AllocateSharedMemory(200)`: two shared pages on
frames 9 and 10 follow the nine pages of the image. -/
def sharedSpace : ProcessAddressSpace :=
  { smallSpace with
    numVirtualPages := 11
    KernelPageTable := smallSpace.KernelPageTable ++ [sharedPage 9 9, sharedPage 10 10] }

/-- The kernel after the small address space has grown by 200 shared bytes. -/
def sharedKernel : Kernel :=
  { smallKernel with
    machine := { smallKernel.machine with
      KernelPageTable := sharedSpace.KernelPageTable
      KernelPageTableSize := 11 }
    numPagesAllocated := 11 }

/-- The kernel after boot with demand paging selected. -/
def demandBoot : Kernel := { bootKernel with pageReplaceAlgo := 1 }

/-- The address space of the small program, built in demand-paged mode. -/
def demandSpace : ProcessAddressSpace :=
  { fileName := "small", progExecutable := some smallExe, numVirtualPages := 9
    KernelPageTable := (List.range 9).map fun i =>
      { zeroEntry with virtualPage := i, physicalPage := -1 } }

/-- The address space of `offsetExe`, built in demand-paged mode. -/
def offsetSpace : ProcessAddressSpace :=
  { fileName := "offset", progExecutable := some offsetExe, numVirtualPages := 9
    KernelPageTable := (List.range 9).map fun i =>
      { zeroEntry with virtualPage := i, physicalPage := -1 } }

/-- A demand-paging kernel in which all 32 frames have been issued. -/
def fullKernel : Kernel := { demandBoot with numPagesAllocated := 32 }

/-- An eager-loading kernel in which 30 of the 32 frames have been issued. -/
def busyKernel : Kernel := { smallKernel with numPagesAllocated := 30 }

/-- An eager-loading kernel in which all 32 frames have been issued; the small
address space holds the frames 0 to 8. -/
def exhaustedKernel : Kernel := { smallKernel with numPagesAllocated := 32 }

/-- The small address space after `AllocateSharedMemory(128)` in `exhaustedKernel`:
the new page is bound to frame 32. -/
def overgrownSpace : ProcessAddressSpace :=
  { smallSpace with
    numVirtualPages := 10
    KernelPageTable := smallSpace.KernelPageTable ++ [sharedPage 9 32] }

/-- The kernel after `AllocateSharedMemory(128)` in `exhaustedKernel`. -/
def overgrownKernel : Kernel :=
  { exhaustedKernel with
    machine := { exhaustedKernel.machine with
      KernelPageTable := overgrownSpace.KernelPageTable
      KernelPageTableSize := 10 }
    numPagesAllocated := 33 }

/-- A header stored in the other byte order: every word of `smallHeader` swapped. -/
def swappedHeader : NoffHeader := SwapHeader smallHeader

/-- A demand-paged space whose `fileName` names the file with the bad header. -/
def badSpace : ProcessAddressSpace := { demandSpace with fileName := "bad" }

/-- The outcome of forking the grown small address space. -/
def sharedForkOutcome : Outcome ProcessAddressSpace :=
  ProcessAddressSpace.ctorParent stockConfig sharedKernel sharedSpace zeroFresh

/-- The child of the grown small address space. -/
def sharedChild : ProcessAddressSpace :=
  match sharedForkOutcome with
  | .ok sp _ => sp
  | _ => sharedSpace

/-- The kernel after the grown small address space has been forked. -/
def sharedChildKernel : Kernel :=
  match sharedForkOutcome with
  | .ok _ k => k
  | _ => sharedKernel

/-- A run after boot: the small program is loaded eagerly, grows by 200 shared
bytes and is forked; demand paging is selected, the small program is loaded again
and the page of address 5 of that space is faulted in. -/
def exampleOps : List Op :=
  [ .create smallExe "small" zeroFresh,
    .allocateShared 0 200 zeroFresh,
    .fork 0 zeroFresh,
    .configure 1,
    .create smallExe "small" zeroFresh,
    .demand 2 5 ]

/-- The world at the end of `exampleOps`. -/
def exampleWorld : World :=
  match run stockConfig { kernel := bootKernel, spaces := [] } exampleOps with
  | some w => w
  | none => { kernel := bootKernel, spaces := [] }

/-- A run after boot that issues all 32 frames: the small program is loaded eagerly
three times (27 frames) and the second space grows by 640 shared bytes (5 frames). -/
def fillOps : List Op :=
  [ .create smallExe "small" zeroFresh,
    .create smallExe "small" zeroFresh,
    .create smallExe "small" zeroFresh,
    .allocateShared 1 640 zeroFresh ]

/-- A run in demand-paged mode that issues all 32 frames: the small program is
loaded and its page 0 is faulted in 32 times. -/
def faultOps : List Op :=
  .create smallExe "small" zeroFresh :: List.replicate 32 (.demand 0 0)

/-- The small program built in demand-paged mode while its member `fileName` names
no file of the file system. -/
def namelessSpace : ProcessAddressSpace := { demandSpace with fileName := "nowhere" }

/-- The address space of the small program loaded eagerly a second time, on the
frames 9 to 17. -/
def secondSpace : ProcessAddressSpace :=
  { fileName := "small", progExecutable := some smallExe, numVirtualPages := 9
    KernelPageTable := (List.range 9).map fun i =>
      { zeroEntry with virtualPage := i, physicalPage := ((i + 9 : Nat) : Int), valid := true } }

/-- The kernel after the small program has been loaded eagerly a second time. -/
def secondKernel : Kernel :=
  { smallKernel with
    machine := { smallKernel.machine with
      mainMemory :=
        smallExe.ReadAt
          (smallExe.ReadAt (bzero smallKernel.machine.mainMemory 1152 1152) 1152 16 40)
          1168 8 56 }
    numPagesAllocated := 18 }


/-- The demand-paged small address space after the fault on address 5: page 0 is
bound to frame 0, the other eight pages are still invalid. -/
def faultedSpace : ProcessAddressSpace :=
  { fileName := "small", progExecutable := some smallExe, numVirtualPages := 9
    KernelPageTable := (List.range 9).map fun i =>
      if i = 0 then { zeroEntry with virtualPage := 0, physicalPage := 0, valid := true }
      else { zeroEntry with virtualPage := i, physicalPage := -1 } }

/-- The demand-paging kernel after the fault on address 5: frame 0 holds the first
128 bytes of the code segment's file range and one frame has been issued. -/
def faultedKernel : Kernel :=
  { demandBoot with
    machine := { demandBoot.machine with
      mainMemory := smallExe.ReadAt (bzero (fun _ => 0) 0 128) 0 128 40 }
    numPagesAllocated := 1 }

/-! ## Headers on disk -/

/-- Modelled from the spec: the 32-bit word that the host reads from four stored
bytes, the first byte being the least significant. -/
def hostWord (bytes : List Nat) : Nat :=
  bytes.getD 0 0 + bytes.getD 1 0 * 256 + bytes.getD 2 0 * 65536 + bytes.getD 3 0 * 16777216

/-- Modelled from the spec: the word read back when the 32-bit field `w` was stored
in native order (`byteSwapped = false`) or with its four bytes in the opposite order
(`byteSwapped = true`). -/
def storedWord (byteSwapped : Bool) (w : Nat) : Nat :=
  hostWord (if byteSwapped then (wordBytes w).reverse else wordBytes w)

/-- Modelled from the spec: the segment descriptor read back from disk, every field
stored in the given byte order. -/
def Segment.stored (byteSwapped : Bool) (s : Segment) : Segment :=
  { virtualAddr := storedWord byteSwapped s.virtualAddr
    inFileAddr := storedWord byteSwapped s.inFileAddr
    size := storedWord byteSwapped s.size }

/-- Modelled from the spec: the header read back from disk when the header `h` was
stored with every 32-bit field in native order, or with every 32-bit field
byte-swapped. -/
def NoffHeader.stored (byteSwapped : Bool) (h : NoffHeader) : NoffHeader :=
  { noffMagic := storedWord byteSwapped h.noffMagic
    code := h.code.stored byteSwapped
    initData := h.initData.stored byteSwapped
    uninitData := h.uninitData.stored byteSwapped }

/-- The words read from the header of the small program when the file was written
with every field byte-swapped: `0xbadfad` reads as `0xaddfba00`, 40 as `0x28000000`. -/
def foreignHeader : NoffHeader :=
  { noffMagic := 2917120512
    code := { virtualAddr := 0, inFileAddr := 671088640, size := 268435456 }
    initData := { virtualAddr := 268435456, inFileAddr := 939524096, size := 134217728 }
    uninitData := { virtualAddr := 402653184, inFileAddr := 0, size := 67108864 } }
/-! ## Loops -/

theorem forLoop_self {σ : Type} (lo : Nat) (body : σ → Nat → Option σ) (s : σ) :
    forLoop lo lo body s = some s := by
  simp [forLoop]

theorem forLoop_succ {σ : Type} (lo hi : Nat) (body : σ → Nat → Option σ) (s : σ)
    (hle : lo ≤ hi) :
    forLoop lo (hi + 1) body s = (forLoop lo hi body s).bind fun t => body t hi := by
  unfold forLoop
  have e : hi + 1 - lo = (hi - lo) + 1 := by omega
  rw [e, List.range'_concat, List.foldlM_append]
  have e2 : lo + 1 * (hi - lo) = hi := by omega
  rw [e2]
  cases h : List.foldlM body s (List.range' lo (hi - lo)) with
  | none => rfl
  | some t =>
    show (List.foldlM body t [hi]) = body t hi
    rw [List.foldlM_cons]
    cases body t hi <;> rfl

/-- Hoare rule for `forLoop`: an invariant that every defined step preserves holds
when the loop ends. -/
theorem forLoop_inv {σ : Type} (Inv : Nat → σ → Prop) (lo hi : Nat)
    (body : σ → Nat → Option σ) (s : σ) (hle : lo ≤ hi) (h0 : Inv lo s)
    (hstep : ∀ i t t', lo ≤ i → i < hi → Inv i t → body t i = some t' → Inv (i + 1) t')
    (s' : σ) (h : forLoop lo hi body s = some s') : Inv hi s' := by
  induction hi generalizing s' with
  | zero =>
    have : lo = 0 := by omega
    subst this
    rw [forLoop_self] at h
    cases h; exact h0
  | succ n ih =>
    rcases Nat.eq_or_lt_of_le hle with heq | hlt
    · subst heq
      rw [forLoop_self] at h
      cases h; exact h0
    · have hle' : lo ≤ n := by omega
      rw [forLoop_succ lo n body s hle'] at h
      cases hm : forLoop lo n body s with
      | none => rw [hm] at h; cases h
      | some t =>
        rw [hm] at h
        have hi := ih hle' (fun i t t' h1 h2 => hstep i t t' h1 (by omega)) t hm
        exact hstep n t s' hle' (by omega) hi h

/-- Total-correctness rule for `forLoop`: when every step is defined under the
invariant, the loop ends and the invariant holds at the end. -/
theorem forLoop_total {σ : Type} (Inv : Nat → σ → Prop) (lo hi : Nat)
    (body : σ → Nat → Option σ) (s : σ) (hle : lo ≤ hi) (h0 : Inv lo s)
    (hstep : ∀ i t, lo ≤ i → i < hi → Inv i t → ∃ t', body t i = some t' ∧ Inv (i + 1) t') :
    ∃ s', forLoop lo hi body s = some s' ∧ Inv hi s' := by
  induction hi with
  | zero =>
    have : lo = 0 := by omega
    subst this
    exact ⟨s, forLoop_self _ _ _, h0⟩
  | succ n ih =>
    rcases Nat.eq_or_lt_of_le hle with heq | hlt
    · subst heq
      exact ⟨s, forLoop_self _ _ _, h0⟩
    · have hle' : lo ≤ n := by omega
      obtain ⟨t, ht, hinv⟩ := ih hle' (fun i t h1 h2 => hstep i t h1 (by omega))
      obtain ⟨t', ht', hinv'⟩ := hstep n t hle' (by omega) hinv
      refine ⟨t', ?_, hinv'⟩
      rw [forLoop_succ lo n body s hle', ht]
      exact ht'

/-- A loop whose bounds are not increasing does not run. -/
theorem forLoop_ge {σ : Type} (lo hi : Nat) (body : σ → Nat → Option σ) (s : σ)
    (h : hi ≤ lo) : forLoop lo hi body s = some s := by
  unfold forLoop
  have : hi - lo = 0 := by omega
  rw [this]; rfl

theorem writeEntry_eq_some {table : List TranslationEntry} {i : Nat}
    {f : TranslationEntry → TranslationEntry} {t' : List TranslationEntry}
    (h : writeEntry table i f = some t') :
    ∃ e, table[i]? = some e ∧ t' = table.set i (f e) := by
  unfold writeEntry at h
  cases he : table[i]? with
  | none => rw [he] at h; cases h
  | some e =>
    rw [he] at h
    exact ⟨e, rfl, by cases h; rfl⟩

theorem writeEntry_of_getElem? {table : List TranslationEntry} {i : Nat}
    (f : TranslationEntry → TranslationEntry) {e : TranslationEntry}
    (h : table[i]? = some e) : writeEntry table i f = some (table.set i (f e)) := by
  unfold writeEntry
  rw [h]

theorem getElem?_lt_length {table : List TranslationEntry} {i : Nat} {e : TranslationEntry}
    (h : table[i]? = some e) : i < table.length := by
  rcases List.getElem?_eq_some.mp h with ⟨hl, _⟩
  exact hl

theorem newTable_length (fresh : Nat → TranslationEntry) (n : Nat) :
    (newTable fresh n).length = n := by
  simp [newTable]

theorem newTable_getElem? (fresh : Nat → TranslationEntry) (n j : Nat) (h : j < n) :
    (newTable fresh n)[j]? = some (fresh j) := by
  simp [newTable, List.getElem?_map, List.getElem?_range h]

/-! ## Arithmetic of `divRoundUp` -/

theorem tmod_gt_neg (n s : Int) (hs : 0 < s) : -s < Int.tmod n s := by
  rcases le_or_lt 0 n with h | h
  · have := Int.tmod_nonneg s h
    omega
  · have h1 : Int.tmod n s = -(Int.tmod (-n) s) := by
      rw [Int.tmod_def, Int.tmod_def, Int.neg_tdiv]
      ring
    have h2 := Int.tmod_lt_of_pos (-n) hs
    omega

theorem divRoundUpInt_eq_ceil (n : Int) (s : Int) (hs : 0 < s) :
    divRoundUpInt n s = ⌈(n : ℚ) / (s : ℚ)⌉ := by
  symm
  rw [Int.ceil_eq_iff]
  have hsq : (0 : ℚ) < (s : ℚ) := by exact_mod_cast hs
  have hdm : s * Int.tdiv n s + Int.tmod n s = n := Int.tdiv_add_tmod n s
  have hq : (n : ℚ) = (s : ℚ) * (Int.tdiv n s : ℚ) + (Int.tmod n s : ℚ) := by
    exact_mod_cast hdm.symm
  have hlt1 : Int.tmod n s < s := Int.tmod_lt_of_pos n hs
  have hlt2 : -s < Int.tmod n s := tmod_gt_neg n s hs
  unfold divRoundUpInt
  rw [lt_div_iff₀ hsq, div_le_iff₀ hsq]
  by_cases hpos : Int.tmod n s > 0
  · simp only [hpos, if_true]
    push_cast
    have h1 : (Int.tmod n s : ℚ) < s := by exact_mod_cast hlt1
    have h2 : (0 : ℚ) < (Int.tmod n s : ℚ) := by exact_mod_cast hpos
    constructor <;> nlinarith
  · simp only [hpos, if_false]
    push_cast
    have h1 : (Int.tmod n s : ℚ) ≤ 0 := by exact_mod_cast (not_lt.mp hpos)
    have h2 : -(s : ℚ) < (Int.tmod n s : ℚ) := by exact_mod_cast hlt2
    constructor <;> nlinarith

theorem divRoundUp_cast (n s : Nat) :
    ((divRoundUp n s : Nat) : Int) = divRoundUpInt (n : Int) (s : Int) := by
  unfold divRoundUp divRoundUpInt
  have e1 : Int.tdiv (n : Int) (s : Int) = ((n / s : Nat) : Int) := (Int.ofNat_tdiv n s).symm
  have e2 : Int.tmod (n : Int) (s : Int) = ((n % s : Nat) : Int) := (Int.ofNat_tmod n s).symm
  rw [e1, e2]
  by_cases hp : n % s > 0
  · have h2 : ((n % s : Nat) : Int) > 0 := by exact_mod_cast hp
    rw [if_pos hp, if_pos h2]
    rfl
  · have h2 : ¬ ((n % s : Nat) : Int) > 0 := by
      intro hh; apply hp; exact_mod_cast hh
    rw [if_neg hp, if_neg h2]
    rfl

theorem divRoundUp_eq_ceil (n s : Nat) (hs : 0 < s) :
    ((divRoundUp n s : Nat) : Int) = ⌈(n : ℚ) / (s : ℚ)⌉ := by
  rw [divRoundUp_cast, divRoundUpInt_eq_ceil (n : Int) (s : Int) (by exact_mod_cast hs)]
  push_cast
  rfl

/-- The page count of an `int` byte size lies between `-2^31` and `2^31`. -/
theorem divRoundUpInt_bounds (n s : Int) (hs : 0 < s)
    (hn : -2147483648 ≤ n ∧ n < 2147483648) :
    -2147483648 ≤ divRoundUpInt n s ∧ divRoundUpInt n s ≤ 2147483648 := by
  rw [divRoundUpInt_eq_ceil n s hs]
  have hsq : (0 : ℚ) < (s : ℚ) := by exact_mod_cast hs
  have hs1 : (1 : ℚ) ≤ (s : ℚ) := by exact_mod_cast hs
  have hn1 : (-2147483648 : ℚ) ≤ (n : ℚ) := by exact_mod_cast hn.1
  have hn2 : (n : ℚ) < 2147483648 := by exact_mod_cast hn.2
  constructor
  · have h1 : (-2147483648 : ℚ) ≤ (n : ℚ) / (s : ℚ) := by
      rw [le_div_iff₀ hsq]; nlinarith
    have h2 : (n : ℚ) / (s : ℚ) ≤ ((⌈(n : ℚ) / (s : ℚ)⌉ : ℤ) : ℚ) := Int.le_ceil _
    have h3 : ((-2147483648 : ℤ) : ℚ) ≤ ((⌈(n : ℚ) / (s : ℚ)⌉ : ℤ) : ℚ) := by
      push_cast; linarith
    exact_mod_cast h3
  · rw [Int.ceil_le]
    rw [div_le_iff₀ hsq]
    push_cast
    nlinarith

/-- When the assertion of `AllocateSharedMemory` passes and the old table fits the
new one, the 32-bit sum `numRequiredPages` did not wrap. -/
theorem requiredPages_eq (cfg : Config) (hcfg : cfg.wf) (P : Nat) (n : Int)
    (hn : -2147483648 ≤ n ∧ n < 2147483648)
    (h1 : P ≤ requiredPages cfg P n) (h2 : requiredPages cfg P n ≤ cfg.NumPhysPages) :
    (requiredPages cfg P n : ℤ) = (P : ℤ) + divRoundUpInt n cfg.PageSize := by
  have hPS : 0 < cfg.PageSize := hcfg.1
  have hM : cfg.NumPhysPages * cfg.PageSize < 2147483648 := hcfg.2.1
  have hN : cfg.NumPhysPages ≤ cfg.NumPhysPages * cfg.PageSize :=
    Nat.le_mul_of_pos_right _ hPS
  obtain ⟨hd1, hd2⟩ := divRoundUpInt_bounds n (cfg.PageSize : Int) (by exact_mod_cast hPS) hn
  unfold requiredPages at h1 h2 ⊢
  generalize divRoundUpInt n (cfg.PageSize : Int) = d at *
  omega

/-! ## Loops that fill a page table -/

/-- A loop that assigns entry `i` at step `i` leaves `g j` applied to the entries
below the bound and the other entries as they were. -/
theorem fillLoop_inv (g : Nat → TranslationEntry → TranslationEntry)
    (t0 : List TranslationEntry) (hi : Nat) (t : List TranslationEntry)
    (h : forLoop 0 hi (fun t i => writeEntry t i (g i)) t0 = some t) :
    t.length = t0.length ∧ ∀ j, t[j]? = if j < hi then t0[j]?.map (g j) else t0[j]? := by
  refine forLoop_inv
    (fun i t => t.length = t0.length ∧
      ∀ j, t[j]? = if j < i then t0[j]?.map (g j) else t0[j]?)
    0 hi _ t0 (Nat.zero_le _) ⟨rfl, fun j => by simp⟩ ?_ t h
  intro i t t' _ _ hinv hb
  obtain ⟨hlen, hget⟩ := hinv
  obtain ⟨e, he, rfl⟩ := writeEntry_eq_some hb
  have hil : i < t.length := getElem?_lt_length he
  refine ⟨by simp [hlen], fun j => ?_⟩
  rw [List.getElem?_set]
  by_cases hji : i = j
  · subst hji
    have h0 : t0[i]? = some e := by
      have := hget i
      simp at this
      rw [← this]; exact he
    simp [hil, h0]
  · have hj := hget j
    simp only [hji, if_false]
    rw [hj]
    by_cases hlt : j < i
    · have : j < i + 1 := by omega
      simp [hlt, this]
    · have : ¬ j < i + 1 := by omega
      simp [hlt, this]

/-- The filling loop is defined when the table is long enough. -/
theorem fillLoop_total (g : Nat → TranslationEntry → TranslationEntry)
    (t0 : List TranslationEntry) (hi : Nat) (hlen : hi ≤ t0.length) :
    ∃ t, forLoop 0 hi (fun t i => writeEntry t i (g i)) t0 = some t := by
  obtain ⟨t, ht, _⟩ := forLoop_total (fun _ t => t.length = t0.length) 0 hi
    (fun t i => writeEntry t i (g i)) t0 (Nat.zero_le _) rfl (by
      intro i t _ hlt hinv
      have hil : i < t.length := by omega
      refine ⟨t.set i (g i t[i]), ?_, by simp [hinv]⟩
      exact writeEntry_of_getElem? _ (List.getElem?_eq_getElem hil))
  exact ⟨t, ht⟩

/-- The filling loop over a fresh array of exactly `n` entries. -/
theorem fillLoop_newTable (g : Nat → TranslationEntry → TranslationEntry)
    (fresh : Nat → TranslationEntry) (n : Nat) (t : List TranslationEntry)
    (h : forLoop 0 n (fun t i => writeEntry t i (g i)) (newTable fresh n) = some t) :
    t.length = n ∧ ∀ j, j < n → t[j]? = some (g j (fresh j)) := by
  obtain ⟨hlen, hget⟩ := fillLoop_inv g _ n t h
  refine ⟨by rw [hlen, newTable_length], fun j hj => ?_⟩
  rw [hget j, if_pos hj, newTable_getElem? fresh n j hj]
  rfl

/-! ## Construction from an executable -/

/-- Construction from an executable ends in the failed magic assertion, with the
kernel untouched, when the magic check does not pass. -/
theorem ctorExecutable_fatal_magic (cfg : Config) (k : Kernel) (executable : OpenFile)
    (fileName : String) (fresh : Nat → TranslationEntry)
    (h : ¬ magicCheckPasses cfg executable.noffH) :
    ProcessAddressSpace.ctorExecutable cfg k executable fileName fresh = .fatal k := by
  unfold magicCheckPasses at h
  unfold ProcessAddressSpace.ctorExecutable
  simp only [ne_eq, h, not_false_eq_true, if_true]

/-- Inversion of a successful eager construction. -/
theorem ctorExecutable_eager_ok (cfg : Config) (k : Kernel) (executable : OpenFile)
    (fileName : String) (fresh : Nat → TranslationEntry) (sp : ProcessAddressSpace)
    (k' : Kernel) (halgo : k.pageReplaceAlgo = 0)
    (h : ProcessAddressSpace.ctorExecutable cfg k executable fileName fresh = .ok sp k') :
    magicCheckPasses cfg executable.noffH ∧
    imagePages cfg (normaliseHeader cfg executable.noffH) + k.numPagesAllocated
      ≤ cfg.NumPhysPages ∧
    ∃ table mem2 mem3,
      forLoop 0 (imagePages cfg (normaliseHeader cfg executable.noffH))
        (eagerEntry k.numPagesAllocated)
        (newTable fresh (imagePages cfg (normaliseHeader cfg executable.noffH))) = some table ∧
      loadSegment cfg executable table (normaliseHeader cfg executable.noffH).code
        (bzero k.machine.mainMemory (k.numPagesAllocated * cfg.PageSize)
          (imagePages cfg (normaliseHeader cfg executable.noffH) * cfg.PageSize % 4294967296))
        = some mem2 ∧
      loadSegment cfg executable table (normaliseHeader cfg executable.noffH).initData mem2
        = some mem3 ∧
      sp = { fileName := fileName, progExecutable := some executable,
             numVirtualPages := imagePages cfg (normaliseHeader cfg executable.noffH),
             KernelPageTable := table } ∧
      k' = { k with
        machine := { k.machine with mainMemory := mem3 }
        numPagesAllocated := k.numPagesAllocated
          + imagePages cfg (normaliseHeader cfg executable.noffH) } := by
  unfold ProcessAddressSpace.ctorExecutable at h
  simp only [] at h
  split at h
  · cases h
  · rename_i hm
    split at h
    · cases h
    · rename_i hcap
      try rw [if_pos halgo] at h
      split at h
      · cases h
      · rename_i table htable
        split at h
        · cases h
        · split at h
          · cases h
          · rename_i mem2 hmem2
            split at h
            · cases h
            · rename_i mem3 hmem3
              refine ⟨by simpa [magicCheckPasses] using hm, by simpa using hcap,
                table, mem2, mem3, htable, hmem2, hmem3, ?_⟩
              injection h with h1 h2
              exact ⟨h1.symm, h2.symm⟩
/-! ## The byte-copy loop of the fork constructor -/

theorem copyByte_eq_some {cfg : Config} {dst src : Nat} {m m' : Nat → Nat} {j : Nat}
    (h : copyByte cfg dst src m j = some m') :
    (dst + j) % 4294967296 < cfg.MemorySize ∧ (src + j) % 4294967296 < cfg.MemorySize ∧
    m' = Function.update m ((dst + j) % 4294967296) (m ((src + j) % 4294967296)) := by
  unfold copyByte at h
  simp only [] at h
  split at h
  · rename_i hc
    exact ⟨hc.1, hc.2, by cases h; rfl⟩
  · cases h

/-- Every byte access of a copy loop that ran to its end was inside memory. -/
theorem copyLoop_bounds (cfg : Config) (dst src n : Nat) (m m' : Nat → Nat)
    (h : forLoop 0 n (copyByte cfg dst src) m = some m') :
    ∀ j, j < n →
      (dst + j) % 4294967296 < cfg.MemorySize ∧ (src + j) % 4294967296 < cfg.MemorySize := by
  refine forLoop_inv
    (fun i _ => ∀ j, j < i →
      (dst + j) % 4294967296 < cfg.MemorySize ∧ (src + j) % 4294967296 < cfg.MemorySize)
    0 n _ m (Nat.zero_le _) (fun j hj => absurd hj (Nat.not_lt_zero j)) ?_ m' h
  intro i t t' _ _ hinv hb j hj
  obtain ⟨h1, h2, _⟩ := copyByte_eq_some hb
  rcases Nat.lt_succ_iff_lt_or_eq.mp hj with hlt | heq
  · exact hinv j hlt
  · subst heq; exact ⟨h1, h2⟩

/-- Effect of a copy loop whose two ranges do not wrap: memory outside the
destination range is unchanged, and when the source range lies below the
destination range the destination receives the source bytes. -/
theorem copyLoop_effect (cfg : Config) (dst src n : Nat) (m m' : Nat → Nat)
    (hd : dst + n ≤ 4294967296) (hs : src + n ≤ 4294967296)
    (h : forLoop 0 n (copyByte cfg dst src) m = some m') :
    (∀ a, ¬ (dst ≤ a ∧ a < dst + n) → m' a = m a) ∧
    (src + n ≤ dst → ∀ b, b < n → m' (dst + b) = m (src + b)) := by
  have key := forLoop_inv
    (fun i t => i ≤ n →
      (∀ a, ¬ (dst ≤ a ∧ a < dst + i) → t a = m a) ∧
      (src + n ≤ dst → ∀ b, b < i → t (dst + b) = m (src + b)))
    0 n _ m (Nat.zero_le _)
    (fun _ => ⟨fun _ _ => rfl, fun _ b hb => absurd hb (Nat.not_lt_zero b)⟩) ?_ m' h
  · exact key (Nat.le_refl n)
  intro i t t' _ hin hinv hb _
  obtain ⟨hout, hcopy⟩ := hinv (Nat.le_of_lt hin)
  obtain ⟨_, _, rfl⟩ := copyByte_eq_some hb
  have e1 : (dst + i) % 4294967296 = dst + i := Nat.mod_eq_of_lt (by omega)
  have e2 : (src + i) % 4294967296 = src + i := Nat.mod_eq_of_lt (by omega)
  rw [e1, e2]
  constructor
  · intro a ha
    have hne : a ≠ dst + i := by omega
    rw [Function.update_noteq hne]
    exact hout a (by omega)
  · intro hsd b hb
    by_cases hbi : b = i
    · subst hbi
      rw [Function.update_same]
      exact hout (src + b) (by omega)
    · have hne : dst + b ≠ dst + i := by omega
      rw [Function.update_noteq hne]
      exact hcopy hsd b (by omega)

/-- The copy loop is defined when both ranges are inside memory. -/
theorem copyLoop_total (cfg : Config) (dst src n : Nat) (m : Nat → Nat)
    (hM : cfg.MemorySize ≤ 4294967296)
    (hd : dst + n ≤ cfg.MemorySize) (hs : src + n ≤ cfg.MemorySize) :
    ∃ m', forLoop 0 n (copyByte cfg dst src) m = some m' := by
  obtain ⟨m', hm', _⟩ := forLoop_total (fun _ _ => True) 0 n (copyByte cfg dst src) m
    (Nat.zero_le _) trivial (by
      intro i t _ hin _
      have e1 : (dst + i) % 4294967296 = dst + i := Nat.mod_eq_of_lt (by omega)
      have e2 : (src + i) % 4294967296 = src + i := Nat.mod_eq_of_lt (by omega)
      refine ⟨Function.update t (dst + i) (t (src + i)), ?_, trivial⟩
      unfold copyByte
      simp only [e1, e2]
      rw [if_pos ⟨by omega, by omega⟩])
  exact ⟨m', hm'⟩

/-! ## Fork duplication -/

theorem privCount_zero (table : List TranslationEntry) : privCount table 0 = 0 := by
  simp [privCount]

theorem privCount_succ (table : List TranslationEntry) (i : Nat) (p : TranslationEntry)
    (h : table[i]? = some p) :
    privCount table (i + 1) = privCount table i + (if p.isPrivate = true then 1 else 0) := by
  unfold privCount
  rw [List.take_succ, h, List.countP_append]
  simp [List.countP_cons]

theorem privCount_le (table : List TranslationEntry) (i : Nat) : privCount table i ≤ i := by
  unfold privCount
  calc List.countP TranslationEntry.isPrivate (List.take i table)
      ≤ (List.take i table).length := List.countP_le_length _
    _ ≤ i := by simp [List.length_take]

theorem privCount_mono (table : List TranslationEntry) {i j : Nat} (h : i ≤ j) :
    privCount table i ≤ privCount table j := by
  induction j with
  | zero =>
    have : i = 0 := by omega
    subst this; exact Nat.le_refl _
  | succ m ih =>
    rcases Nat.eq_or_lt_of_le h with heq | hlt
    · subst heq; exact Nat.le_refl _
    · have h1 := ih (by omega)
      cases hp : table[m]? with
      | none =>
        have hlen : table.length ≤ m := by
          rcases Nat.lt_or_ge m table.length with hl | hl
          · rw [List.getElem?_eq_getElem hl] at hp; cases hp
          · exact hl
        have e : privCount table (m + 1) = privCount table m := by
          unfold privCount
          rw [List.take_of_length_le (by omega), List.take_of_length_le hlen]
        omega
      | some p =>
        rw [privCount_succ table m p hp]
        omega

theorem isPrivate_iff (p : TranslationEntry) :
    p.isPrivate = true ↔ (p.valid = true ∧ p.shared = false) := by
  unfold TranslationEntry.isPrivate
  cases p.valid <;> cases p.shared <;> simp

/-- Inversion of one defined step of the fork loop. -/
theorem forkEntry_eq_some {cfg : Config} {P : List TranslationEntry}
    {s s' : List TranslationEntry × Kernel} {i : Nat}
    (h : forkEntry cfg P s i = some s') :
    ∃ p e, P[i]? = some p ∧ s.1[i]? = some e ∧
      s'.1 = s.1.set i (forkChild s.2.numPagesAllocated p i e) ∧
      (((p.valid = true ∧ p.shared = false) ∧
        ∃ mem, forLoop 0 cfg.PageSize
            (copyByte cfg (s.2.numPagesAllocated * cfg.PageSize % 4294967296)
              (p.physicalPage * (cfg.PageSize : Int) % 4294967296).toNat)
            s.2.machine.mainMemory = some mem ∧
          s'.2 = { s.2 with
            machine := { s.2.machine with mainMemory := mem }
            numPagesAllocated := s.2.numPagesAllocated + 1
            pageFaultCount := s.2.pageFaultCount + 1 })
      ∨ (¬ (p.valid = true ∧ p.shared = false) ∧ s'.2 = s.2)) := by
  unfold forkEntry at h
  cases hp : P[i]? with
  | none => rw [hp] at h; cases h
  | some p =>
    rw [hp] at h
    simp only [] at h
    by_cases hc : p.valid = true ∧ p.shared = false
    · rw [if_pos hc] at h
      split at h
      · rename_i table mem hw hl
        obtain ⟨e, he, rfl⟩ := writeEntry_eq_some hw
        cases h
        refine ⟨p, e, rfl, he, ?_, Or.inl ⟨hc, mem, hl, rfl⟩⟩
        simp [forkChild, hc, GetNextFreePage]
      · cases h
    · rw [if_neg hc] at h
      split at h
      · rename_i table hw
        obtain ⟨e, he, rfl⟩ := writeEntry_eq_some hw
        cases h
        refine ⟨p, e, rfl, he, ?_, Or.inr ⟨hc, rfl⟩⟩
        simp [forkChild, hc]
      · cases h

theorem mul_succ_le_of_lt {a b s : Nat} (h : a < b) : a * s + s ≤ b * s := by
  have := Nat.mul_le_mul_right s (Nat.succ_le_of_lt h)
  rw [Nat.succ_mul] at this
  exact this

/-- The byte address of the frame of a private parent entry: the 32-bit product
is the plain product when the frame was issued before. -/
theorem startAddrParent_eq (cfg : Config) (hcfg : cfg.wf) (pp : Int) (B : Nat)
    (h0 : 0 ≤ pp) (hB : pp < (B : Int)) (hBM : B ≤ cfg.NumPhysPages) :
    (pp * (cfg.PageSize : Int) % 4294967296).toNat = pp.toNat * cfg.PageSize := by
  obtain ⟨q, rfl⟩ := Int.eq_ofNat_of_zero_le h0
  have hq : q < B := by exact_mod_cast hB
  have h1 : q * cfg.PageSize + cfg.PageSize ≤ B * cfg.PageSize := mul_succ_le_of_lt hq
  have h2 : B * cfg.PageSize ≤ cfg.NumPhysPages * cfg.PageSize := Nat.mul_le_mul_right _ hBM
  have h3 := hcfg.2.1
  have e : ((q : Int) * (cfg.PageSize : Int)) = ((q * cfg.PageSize : Nat) : Int) := by
    push_cast; rfl
  rw [e, Int.toNat_ofNat]
  have : ((q * cfg.PageSize : Nat) : Int) % 4294967296
      = (((q * cfg.PageSize) % 4294967296 : Nat) : Int) := by
    push_cast; rfl
  rw [this, Int.toNat_ofNat]
  exact Nat.mod_eq_of_lt (by omega)

/-- The invariant of the fork loop holds when the loop has run to its end. -/
theorem forkLoop_inv (cfg : Config) (hcfg : cfg.wf) (P : List TranslationEntry)
    (fresh : Nat → TranslationEntry) (n : Nat) (k : Kernel)
    (hcap : n + k.numPagesAllocated ≤ cfg.NumPhysPages)
    (s : List TranslationEntry × Kernel)
    (h : forLoop 0 n (forkEntry cfg P) (newTable fresh n, k) = some s) :
    ForkInv cfg P fresh n k n s := by
  refine forLoop_inv (fun i s => ForkInv cfg P fresh n k i s) 0 n _ _ (Nat.zero_le _)
    ?_ ?_ s h
  · refine ⟨newTable_length fresh n, fun j hj => absurd hj (Nat.not_lt_zero j),
      fun j _ => rfl, by simp [privCount_zero], by simp [privCount_zero],
      fun a _ => rfl, fun j p hj => absurd hj (Nat.not_lt_zero j)⟩
  · intro i t t' _ hin hinv hb
    obtain ⟨hlen, hdone, hrest, hcnt, hpfc, hframe, hcopy⟩ := hinv
    obtain ⟨p, e, hp, he, ht1, hk⟩ := forkEntry_eq_some hb
    have hil : i < t.1.length := by rw [hlen]; exact hin
    have hefresh : e = fresh i := by
      have := hrest i (Nat.le_refl i)
      rw [he, newTable_getElem? fresh n i hin] at this
      exact Option.some.inj this
    subst hefresh
    have hsucc := privCount_succ P i p hp
    have hci : privCount P i ≤ i := privCount_le P i
    -- table clauses, common to both branches
    have hT1 : t'.1.length = n := by rw [ht1, List.length_set, hlen]
    have hT2 : ∀ j, j < i + 1 → ∃ q, P[j]? = some q ∧
        t'.1[j]? = some (forkChild (k.numPagesAllocated + privCount P j) q j (fresh j)) := by
      intro j hj
      rcases Nat.lt_succ_iff_lt_or_eq.mp hj with hlt | heq
      · obtain ⟨q, hq1, hq2⟩ := hdone j hlt
        refine ⟨q, hq1, ?_⟩
        rw [ht1, List.getElem?_set_ne (by omega)]
        exact hq2
      · subst heq
        refine ⟨p, hp, ?_⟩
        rw [ht1, List.getElem?_set_self hil, hcnt]
    have hT3 : ∀ j, i + 1 ≤ j → t'.1[j]? = (newTable fresh n)[j]? := by
      intro j hj
      rw [ht1, List.getElem?_set_ne (by omega)]
      exact hrest j (by omega)
    rcases hk with ⟨hc, mem, hmem, hk2⟩ | ⟨hc, hk2⟩
    · -- a private page: a frame is issued and the bytes are copied
      have hpriv : p.isPrivate = true := (isPrivate_iff p).mpr hc
      rw [if_pos hpriv] at hsucc
      have hfr : k.numPagesAllocated + privCount P i < cfg.NumPhysPages := by omega
      have hdstM : (k.numPagesAllocated + privCount P i) * cfg.PageSize + cfg.PageSize
          ≤ cfg.MemorySize := mul_succ_le_of_lt hfr
      have hM : cfg.MemorySize < 2147483648 := hcfg.2.1
      have hPS : 0 < cfg.PageSize := hcfg.1
      rw [hcnt] at hmem
      have edst : (k.numPagesAllocated + privCount P i) * cfg.PageSize % 4294967296
          = (k.numPagesAllocated + privCount P i) * cfg.PageSize :=
        Nat.mod_eq_of_lt (by omega)
      rw [edst] at hmem
      generalize hsrc : (p.physicalPage * (cfg.PageSize : Int) % 4294967296).toNat = src at hmem
      have hsrcW : src < 4294967296 := by
        rw [← hsrc]
        have h1 : 0 ≤ p.physicalPage * (cfg.PageSize : Int) % 4294967296 :=
          Int.emod_nonneg _ (by norm_num)
        have h2 : p.physicalPage * (cfg.PageSize : Int) % 4294967296 < 4294967296 :=
          Int.emod_lt_of_pos _ (by norm_num)
        omega
      have hb0 := (copyLoop_bounds cfg _ _ _ _ _ hmem 0 hPS).2
      have hb1 := (copyLoop_bounds cfg _ _ _ _ _ hmem (cfg.PageSize - 1) (by omega)).2
      have hs0 : src < cfg.MemorySize := by
        rw [Nat.add_zero, Nat.mod_eq_of_lt hsrcW] at hb0; exact hb0
      have hs1 : src + cfg.PageSize ≤ cfg.MemorySize := by
        rw [Nat.mod_eq_of_lt (by omega)] at hb1; omega
      obtain ⟨hout, hin'⟩ := copyLoop_effect cfg _ src cfg.PageSize _ mem (by omega)
        (by omega) hmem
      have hmem' : t'.2.machine.mainMemory = mem := by rw [hk2]
      have hmulc : (k.numPagesAllocated + (privCount P i + 1)) * cfg.PageSize
          = (k.numPagesAllocated + privCount P i) * cfg.PageSize + cfg.PageSize := by ring
      have hBle : k.numPagesAllocated * cfg.PageSize
          ≤ (k.numPagesAllocated + privCount P i) * cfg.PageSize :=
        Nat.mul_le_mul_right _ (by omega)
      refine ⟨hT1, hT2, hT3, ?_, ?_, ?_, ?_⟩
      · rw [hk2, hsucc]; simp only; omega
      · rw [hk2, hsucc]; simp only; omega
      · intro a ha
        rw [hmem']
        rw [hsucc, hmulc] at ha
        rw [hout a (by omega)]
        exact hframe a (by omega)
      · intro j q hj hq hqv hqs hq0 hqB b hbyte
        rw [hmem']
        rcases Nat.lt_succ_iff_lt_or_eq.mp hj with hlt | heq
        · have hqp : q.isPrivate = true := (isPrivate_iff q).mpr ⟨hqv, hqs⟩
          have hjs := privCount_succ P j q hq
          rw [if_pos hqp] at hjs
          have hmono := privCount_mono P (show j + 1 ≤ i by omega)
          have hlt2 : k.numPagesAllocated + privCount P j
              < k.numPagesAllocated + privCount P i := by omega
          have := mul_succ_le_of_lt (s := cfg.PageSize) hlt2
          rw [hout ((k.numPagesAllocated + privCount P j) * cfg.PageSize + b) (by omega)]
          exact hcopy j q hlt hq hqv hqs hq0 hqB b hbyte
        · subst heq
          rw [hp] at hq
          cases hq
          have esrc := startAddrParent_eq cfg hcfg p.physicalPage k.numPagesAllocated hq0 hqB
            (by omega)
          rw [hsrc] at esrc
          have hppB : p.physicalPage.toNat < k.numPagesAllocated := by omega
          have hsB : p.physicalPage.toNat * cfg.PageSize + cfg.PageSize
              ≤ k.numPagesAllocated * cfg.PageSize := mul_succ_le_of_lt hppB
          rw [hin' (by omega) b hbyte, esrc]
          exact hframe (p.physicalPage.toNat * cfg.PageSize + b) (by omega)
    · -- a shared or invalid page: the entry is aliased
      have hpriv : ¬ p.isPrivate = true := fun hh => hc ((isPrivate_iff p).mp hh)
      rw [if_neg hpriv, Nat.add_zero] at hsucc
      refine ⟨hT1, hT2, hT3, ?_, ?_, ?_, ?_⟩
      · rw [hk2, hsucc]; exact hcnt
      · rw [hk2, hsucc]; exact hpfc
      · intro a ha
        rw [hk2]; rw [hsucc] at ha
        exact hframe a ha
      · intro j q hj hq hqv hqs hq0 hqB b hbyte
        rw [hk2]
        rcases Nat.lt_succ_iff_lt_or_eq.mp hj with hlt | heq
        · exact hcopy j q hlt hq hqv hqs hq0 hqB b hbyte
        · subst heq
          rw [hp] at hq
          cases hq
          exact absurd ⟨hqv, hqs⟩ hc

/-- Inversion of a successful fork duplication. -/
theorem ctorParent_ok (cfg : Config) (k : Kernel) (parentSpace : ProcessAddressSpace)
    (fresh : Nat → TranslationEntry) (child : ProcessAddressSpace) (k' : Kernel)
    (h : ProcessAddressSpace.ctorParent cfg k parentSpace fresh = .ok child k') :
    ∃ f, k.fileSystem parentSpace.fileName = some f ∧
      parentSpace.numVirtualPages + k.numPagesAllocated ≤ cfg.NumPhysPages ∧
      forLoop 0 parentSpace.numVirtualPages (forkEntry cfg parentSpace.KernelPageTable)
        (newTable fresh parentSpace.numVirtualPages, k) = some (child.KernelPageTable, k') ∧
      child.numVirtualPages = parentSpace.numVirtualPages ∧
      child.fileName = parentSpace.fileName ∧ child.progExecutable = some f := by
  unfold ProcessAddressSpace.ctorParent at h
  split at h
  · cases h
  · rename_i f hf
    simp only [] at h
    split at h
    · cases h
    · rename_i hcap
      split at h
      · cases h
      · rename_i s hs
        injection h with h1 h2
        subst h1 h2
        exact ⟨f, hf, by simpa using hcap, hs, rfl, rfl, rfl⟩

/-- A successful fork duplication leaves the fork invariant at the end of the table. -/
theorem ctorParent_inv (cfg : Config) (hcfg : cfg.wf) (k : Kernel)
    (parentSpace : ProcessAddressSpace) (fresh : Nat → TranslationEntry)
    (child : ProcessAddressSpace) (k' : Kernel)
    (h : ProcessAddressSpace.ctorParent cfg k parentSpace fresh = .ok child k') :
    child.numVirtualPages = parentSpace.numVirtualPages ∧
    parentSpace.numVirtualPages + k.numPagesAllocated ≤ cfg.NumPhysPages ∧
    ForkInv cfg parentSpace.KernelPageTable fresh parentSpace.numVirtualPages k
      parentSpace.numVirtualPages (child.KernelPageTable, k') := by
  obtain ⟨f, _, hcap, hloop, hn, _, _⟩ := ctorParent_ok cfg k parentSpace fresh child k' h
  exact ⟨hn, hcap, forkLoop_inv cfg hcfg _ fresh _ k hcap _ hloop⟩

/-! ## Shared-memory growth -/

theorem copyEntry_eq_some {old t t' : List TranslationEntry} {i : Nat}
    (h : copyEntry old t i = some t') :
    ∃ o, old[i]? = some o ∧ i < t.length ∧ t' = t.set i o := by
  unfold copyEntry at h
  cases ho : old[i]? with
  | none => rw [ho] at h; cases h
  | some o =>
    rw [ho] at h
    obtain ⟨e, he, rfl⟩ := writeEntry_eq_some h
    exact ⟨o, rfl, getElem?_lt_length he, rfl⟩

/-- The first loop of `AllocateSharedMemory`: when it runs to its end, the old
table had `P` entries, the new one has room for them, and they were copied. -/
theorem copyLoop_table (old t0 : List TranslationEntry) (P : Nat) (t : List TranslationEntry)
    (h : forLoop 0 P (copyEntry old) t0 = some t) :
    t.length = t0.length ∧ P ≤ t0.length ∧ P ≤ old.length ∧
    (∀ j, j < P → t[j]? = old[j]?) ∧ (∀ j, P ≤ j → t[j]? = t0[j]?) := by
  have key := forLoop_inv
    (fun i t => t.length = t0.length ∧ i ≤ t0.length ∧ i ≤ old.length ∧
      (∀ j, j < i → t[j]? = old[j]?) ∧ (∀ j, i ≤ j → t[j]? = t0[j]?))
    0 P _ t0 (Nat.zero_le _)
    ⟨rfl, Nat.zero_le _, Nat.zero_le _, fun j hj => absurd hj (Nat.not_lt_zero j),
      fun _ _ => rfl⟩ ?_ t h
  · exact key
  intro i t t' _ _ hinv hb
  obtain ⟨hlen, _, _, hlow, hhigh⟩ := hinv
  obtain ⟨o, ho, hil, rfl⟩ := copyEntry_eq_some hb
  have hio : i < old.length := getElem?_lt_length ho
  refine ⟨by rw [List.length_set, hlen], by omega, by omega, ?_, ?_⟩
  · intro j hj
    rcases Nat.lt_succ_iff_lt_or_eq.mp hj with hlt | heq
    · rw [List.getElem?_set_ne (by omega)]; exact hlow j hlt
    · subst heq
      rw [List.getElem?_set_self hil, ho]
  · intro j hj
    rw [List.getElem?_set_ne (by omega)]
    exact hhigh j (by omega)

theorem sharedEntry_eq_some {s s' : List TranslationEntry × Kernel} {i : Nat}
    (h : sharedEntry s i = some s') :
    i < s.1.length ∧ s'.1 = s.1.set i (sharedPage i s.2.numPagesAllocated) ∧
    s'.2 = { s.2 with numPagesAllocated := s.2.numPagesAllocated + 1 } := by
  unfold sharedEntry at h
  simp only [] at h
  split at h
  · rename_i table hw
    obtain ⟨e, he, rfl⟩ := writeEntry_eq_some hw
    cases h
    exact ⟨getElem?_lt_length he, rfl, rfl⟩
  · cases h

/-- The second loop of `AllocateSharedMemory`: entry `j` of the new range is a
shared page on frame `numPagesAllocated + (j - P)`; nothing but the counter
changes in the kernel. -/
theorem sharedLoop_table (t1 : List TranslationEntry) (k : Kernel) (P R : Nat) (hPR : P ≤ R)
    (s : List TranslationEntry × Kernel)
    (h : forLoop P R sharedEntry (t1, k) = some s) :
    s.1.length = t1.length ∧
    (∀ j, P ≤ j → j < R → s.1[j]? = some (sharedPage j (k.numPagesAllocated + (j - P)))) ∧
    (∀ j, (j < P ∨ R ≤ j) → s.1[j]? = t1[j]?) ∧
    s.2 = { k with numPagesAllocated := k.numPagesAllocated + (R - P) } := by
  have key := forLoop_inv
    (fun i s => s.1.length = t1.length ∧
      (∀ j, P ≤ j → j < i →
        s.1[j]? = some (sharedPage j (k.numPagesAllocated + (j - P)))) ∧
      (∀ j, (j < P ∨ i ≤ j) → s.1[j]? = t1[j]?) ∧
      s.2 = { k with numPagesAllocated := k.numPagesAllocated + (i - P) })
    P R _ (t1, k) hPR
    ⟨rfl, fun j h1 h2 => absurd h2 (by omega), fun _ _ => rfl, by simp⟩ ?_ s h
  · exact key
  intro i t t' hPi _ hinv hb
  obtain ⟨hlen, hnew, hold, hk⟩ := hinv
  obtain ⟨hil, ht, hk'⟩ := sharedEntry_eq_some hb
  refine ⟨by rw [ht, List.length_set, hlen], ?_, ?_, ?_⟩
  · intro j hPj hj
    rcases Nat.lt_succ_iff_lt_or_eq.mp hj with hlt | heq
    · rw [ht, List.getElem?_set_ne (by omega)]; exact hnew j hPj hlt
    · subst heq
      rw [ht, List.getElem?_set_self hil, hk]
  · intro j hj
    rw [ht, List.getElem?_set_ne (by omega)]
    exact hold j (by omega)
  · rw [hk', hk]
    have : i + 1 - P = i - P + 1 := by omega
    simp only [this, Nat.add_assoc]

/-- Inversion of a successful `AllocateSharedMemory`. -/
theorem AllocateSharedMemory_ok (cfg : Config) (k : Kernel) (sp : ProcessAddressSpace)
    (size : Int) (fresh : Nat → TranslationEntry) (ret : Nat) (sp' : ProcessAddressSpace)
    (k' : Kernel)
    (h : sp.AllocateSharedMemory cfg k size fresh = .ok (ret, sp') k') :
    requiredPages cfg sp.numVirtualPages size ≤ cfg.NumPhysPages ∧
    sp.numVirtualPages ≤ requiredPages cfg sp.numVirtualPages size ∧
    sp.numVirtualPages ≤ sp.KernelPageTable.length ∧
    ret = sp.numVirtualPages * cfg.PageSize % 4294967296 ∧
    sp'.numVirtualPages = requiredPages cfg sp.numVirtualPages size ∧
    sp'.fileName = sp.fileName ∧ sp'.progExecutable = sp.progExecutable ∧
    sp'.KernelPageTable.length = requiredPages cfg sp.numVirtualPages size ∧
    (∀ j, j < sp.numVirtualPages → sp'.KernelPageTable[j]? = sp.KernelPageTable[j]?) ∧
    (∀ j, sp.numVirtualPages ≤ j → j < requiredPages cfg sp.numVirtualPages size →
      sp'.KernelPageTable[j]? =
        some (sharedPage j (k.numPagesAllocated + (j - sp.numVirtualPages)))) ∧
    k' = { k with
      machine := { k.machine with
        KernelPageTable := sp'.KernelPageTable
        KernelPageTableSize := sp'.numVirtualPages }
      numPagesAllocated := k.numPagesAllocated
        + (requiredPages cfg sp.numVirtualPages size - sp.numVirtualPages) } := by
  unfold ProcessAddressSpace.AllocateSharedMemory at h
  simp only [] at h
  split at h
  · cases h
  · rename_i hcap
    split at h
    · cases h
    · rename_i t1 ht1
      split at h
      · cases h
      · rename_i s hs
        obtain ⟨hl1, hPR, hPold, hlow, hhigh⟩ := copyLoop_table _ _ _ _ ht1
        rw [newTable_length] at hl1 hPR
        obtain ⟨hl2, hnew, hold, hk⟩ := sharedLoop_table t1 k _ _ hPR s hs
        injection h with h1 h2
        injection h1 with h3 h4
        subst h3 h4 h2
        refine ⟨by simpa [requiredPages] using hcap, hPR, hPold, rfl, rfl, rfl, rfl,
          by simp only [requiredPages]; rw [hl2, hl1], ?_, ?_, ?_⟩
        · intro j hj
          simp only
          rw [hold j (Or.inl hj), hlow j hj]
        · intro j h1 h2
          exact hnew j h1 h2
        · simp only [ProcessAddressSpace.RestoreContextOnSwitch, hk, requiredPages]

/-! ## Demand-paged construction and fault resolution -/

/-- Inversion of a successful demand-paged construction. -/
theorem ctorExecutable_demand_ok (cfg : Config) (k : Kernel) (executable : OpenFile)
    (fileName : String) (fresh : Nat → TranslationEntry) (sp : ProcessAddressSpace)
    (k' : Kernel) (halgo : k.pageReplaceAlgo ≠ 0)
    (h : ProcessAddressSpace.ctorExecutable cfg k executable fileName fresh = .ok sp k') :
    magicCheckPasses cfg executable.noffH ∧
    imagePages cfg (normaliseHeader cfg executable.noffH) + k.numPagesAllocated
      ≤ cfg.NumPhysPages ∧
    k' = k ∧ sp.fileName = fileName ∧ sp.progExecutable = some executable ∧
    sp.numVirtualPages = imagePages cfg (normaliseHeader cfg executable.noffH) ∧
    sp.KernelPageTable.length = sp.numVirtualPages ∧
    ∀ j, j < sp.numVirtualPages → sp.KernelPageTable[j]? =
      some { fresh j with
        virtualPage := j
        physicalPage := -1
        valid := false
        use := false
        dirty := false
        readOnly := false } := by
  unfold ProcessAddressSpace.ctorExecutable at h
  simp only [] at h
  split at h
  · cases h
  · rename_i hm
    split at h
    · cases h
    · rename_i hcap
      try rw [if_neg halgo] at h
      split at h
      · cases h
      · rename_i table htable
        injection h with h1 h2
        subst h1 h2
        obtain ⟨hlen, hget⟩ := fillLoop_newTable _ fresh _ table htable
        exact ⟨by simpa [magicCheckPasses] using hm, by simpa using hcap, rfl, rfl, rfl, rfl,
          hlen, hget⟩

/-- `DemandAllocation` on a page of the table, with a frame left in memory and an
executable that re-opens with a valid magic number: the call returns `TRUE`. -/
theorem DemandAllocation_eq (cfg : Config) (k : Kernel) (sp : ProcessAddressSpace)
    (vpaddress : Int) (f : OpenFile) (e : TranslationEntry)
    (hpool : k.numPagesAllocated < cfg.NumPhysPages)
    (hopen : k.fileSystem sp.fileName = some f)
    (hmagic : magicCheckPasses cfg f.noffH)
    (hvpn : 0 ≤ Int.tdiv vpaddress cfg.PageSize)
    (he : sp.KernelPageTable[(Int.tdiv vpaddress cfg.PageSize).toNat]? = some e) :
    sp.DemandAllocation cfg k vpaddress =
      .ok (true, { sp with
          progExecutable := some f
          KernelPageTable := sp.KernelPageTable.set (Int.tdiv vpaddress cfg.PageSize).toNat
            { e with valid := true, dirty := false,
                     physicalPage := (k.numPagesAllocated : Int) } })
        { k with
          machine := { k.machine with
            mainMemory := f.ReadAt
              (bzero k.machine.mainMemory (k.numPagesAllocated * cfg.PageSize) cfg.PageSize)
              (k.numPagesAllocated * cfg.PageSize) cfg.PageSize
              ((((normaliseHeader cfg f.noffH).code.inFileAddr : Int)
                + Int.tdiv vpaddress cfg.PageSize * cfg.PageSize) % 4294967296).toNat }
          numPagesAllocated := k.numPagesAllocated + 1 } := by
  have hmem : k.numPagesAllocated * cfg.PageSize + cfg.PageSize ≤ cfg.MemorySize :=
    mul_succ_le_of_lt hpool
  unfold magicCheckPasses at hmagic
  unfold ProcessAddressSpace.DemandAllocation
  simp only [GetNextFreePage, hmem, not_true_eq_false, if_false, hopen, hmagic, ne_eq,
    not_lt.mpr hvpn, writeEntry_of_getElem? _ he, Kernel.setMemory]

/-- Inversion of a `DemandAllocation` that returned. -/
theorem DemandAllocation_ok (cfg : Config) (k : Kernel) (sp : ProcessAddressSpace)
    (vpaddress : Int) (ret : Bool) (sp' : ProcessAddressSpace) (k' : Kernel)
    (h : sp.DemandAllocation cfg k vpaddress = .ok (ret, sp') k') :
    ∃ f e, k.numPagesAllocated * cfg.PageSize + cfg.PageSize ≤ cfg.MemorySize ∧
      k.fileSystem sp.fileName = some f ∧ magicCheckPasses cfg f.noffH ∧
      0 ≤ Int.tdiv vpaddress cfg.PageSize ∧
      sp.KernelPageTable[(Int.tdiv vpaddress cfg.PageSize).toNat]? = some e ∧
      ret = true ∧
      sp' = { sp with
          progExecutable := some f
          KernelPageTable := sp.KernelPageTable.set (Int.tdiv vpaddress cfg.PageSize).toNat
            { e with valid := true, dirty := false,
                     physicalPage := (k.numPagesAllocated : Int) } } ∧
      k'.numPagesAllocated = k.numPagesAllocated + 1 := by
  unfold ProcessAddressSpace.DemandAllocation at h
  simp only [] at h
  split at h
  · cases h
  · rename_i hmem
    split at h
    · cases h
    · rename_i f hf
      split at h
      · cases h
      · rename_i hm
        split at h
        · cases h
        · rename_i hv
          split at h
          · cases h
          · rename_i table hw
            obtain ⟨e, he, rfl⟩ := writeEntry_eq_some hw
            injection h with h1 h2
            injection h1 with h3 h4
            subst h3 h4 h2
            exact ⟨f, e, by simpa [GetNextFreePage] using hmem, hf,
              by simpa [magicCheckPasses] using hm, by omega, he, rfl, rfl, rfl⟩

/-! ## Conditions under which the routines return -/

/-- Fork duplication returns when the executable re-opens, the capacity assertion
holds, the parent's table has `numVirtualPages` entries and every valid, not shared
entry of the parent holds a frame of physical memory. -/
theorem ctorParent_returns (cfg : Config) (hcfg : cfg.wf) (k : Kernel)
    (parentSpace : ProcessAddressSpace) (fresh : Nat → TranslationEntry) (f : OpenFile)
    (hopen : k.fileSystem parentSpace.fileName = some f)
    (hcap : parentSpace.numVirtualPages + k.numPagesAllocated ≤ cfg.NumPhysPages)
    (hlen : parentSpace.numVirtualPages ≤ parentSpace.KernelPageTable.length)
    (hfr : ∀ (i : ℕ) (p : TranslationEntry), i < parentSpace.numVirtualPages →
      parentSpace.KernelPageTable[i]? = some p → p.valid = true → p.shared = false →
      0 ≤ p.physicalPage ∧ p.physicalPage < (cfg.NumPhysPages : ℤ)) :
    ∃ child k', ProcessAddressSpace.ctorParent cfg k parentSpace fresh = .ok child k' := by
  have hloop := forLoop_total
    (fun i (s : List TranslationEntry × Kernel) =>
      s.1.length = parentSpace.numVirtualPages ∧
      s.2.numPagesAllocated = k.numPagesAllocated + privCount parentSpace.KernelPageTable i)
    0 parentSpace.numVirtualPages (forkEntry cfg parentSpace.KernelPageTable)
    (newTable fresh parentSpace.numVirtualPages, k) (Nat.zero_le _)
    ⟨newTable_length _ _, by simp [privCount_zero]⟩ (by
      intro i s _ hin hinv
      obtain ⟨hl, hcnt⟩ := hinv
      have hil : i < s.1.length := by omega
      have hiP : i < parentSpace.KernelPageTable.length := by omega
      have hp : parentSpace.KernelPageTable[i]? = some parentSpace.KernelPageTable[i] :=
        List.getElem?_eq_getElem hiP
      have he : s.1[i]? = some s.1[i] := List.getElem?_eq_getElem hil
      have hsucc := privCount_succ _ i _ hp
      have hci := privCount_le parentSpace.KernelPageTable i
      unfold forkEntry
      rw [hp]
      simp only []
      by_cases hc : parentSpace.KernelPageTable[i].valid = true ∧
          parentSpace.KernelPageTable[i].shared = false
      · rw [if_pos hc, writeEntry_of_getElem? _ he]
        have hpriv := (isPrivate_iff _).mpr hc
        rw [if_pos hpriv] at hsucc
        obtain ⟨h0, hN⟩ := hfr i _ hin hp hc.1 hc.2
        have hsrc := startAddrParent_eq cfg hcfg _ cfg.NumPhysPages h0 hN (Nat.le_refl _)
        have hppN : parentSpace.KernelPageTable[i].physicalPage.toNat < cfg.NumPhysPages := by
          omega
        have hsM : parentSpace.KernelPageTable[i].physicalPage.toNat * cfg.PageSize
            + cfg.PageSize ≤ cfg.MemorySize := mul_succ_le_of_lt hppN
        have hfrm : s.2.numPagesAllocated < cfg.NumPhysPages := by omega
        have hdM : s.2.numPagesAllocated * cfg.PageSize + cfg.PageSize ≤ cfg.MemorySize :=
          mul_succ_le_of_lt hfrm
        have hM : cfg.MemorySize < 2147483648 := hcfg.2.1
        have edst : s.2.numPagesAllocated * cfg.PageSize % 4294967296
            = s.2.numPagesAllocated * cfg.PageSize := Nat.mod_eq_of_lt (by omega)
        obtain ⟨mem, hmem⟩ := copyLoop_total cfg (s.2.numPagesAllocated * cfg.PageSize)
          (parentSpace.KernelPageTable[i].physicalPage.toNat * cfg.PageSize) cfg.PageSize
          s.2.machine.mainMemory (by omega) hdM hsM
        simp only [GetNextFreePage, hsrc, edst, hmem]
        exact ⟨_, rfl, by simp [hl], by simp [Kernel.setMemory, hcnt, hsucc]; omega⟩
      · rw [if_neg hc, writeEntry_of_getElem? _ he]
        have hpriv : ¬ parentSpace.KernelPageTable[i].isPrivate = true :=
          fun hh => hc ((isPrivate_iff _).mp hh)
        rw [if_neg hpriv, Nat.add_zero] at hsucc
        exact ⟨_, rfl, by simp [hl], by rw [hsucc]; exact hcnt⟩)
  obtain ⟨s, hs, _⟩ := hloop
  have hrun : ProcessAddressSpace.ctorParent cfg k parentSpace fresh =
      .ok { fileName := parentSpace.fileName, progExecutable := some f,
            numVirtualPages := parentSpace.numVirtualPages, KernelPageTable := s.1 } s.2 := by
    unfold ProcessAddressSpace.ctorParent
    rw [hopen]
    simp only []
    rw [if_neg (by omega), hs]
  exact ⟨_, _, hrun⟩

/-- `AllocateSharedMemory` returns when the assertion holds, the table has
`numVirtualPages` entries and the 32-bit sum `numRequiredPages` is not below
`numVirtualPages`. -/
theorem AllocateSharedMemory_returns (cfg : Config) (k : Kernel) (sp : ProcessAddressSpace)
    (size : Int) (fresh : Nat → TranslationEntry)
    (hcap : requiredPages cfg sp.numVirtualPages size ≤ cfg.NumPhysPages)
    (hPR : sp.numVirtualPages ≤ requiredPages cfg sp.numVirtualPages size)
    (hlen : sp.numVirtualPages ≤ sp.KernelPageTable.length) :
    ∃ ret sp' k', sp.AllocateSharedMemory cfg k size fresh = .ok (ret, sp') k' := by
  obtain ⟨t1, ht1, hl1⟩ := forLoop_total
    (fun _ (t : List TranslationEntry) =>
      t.length = requiredPages cfg sp.numVirtualPages size)
    0 sp.numVirtualPages (copyEntry sp.KernelPageTable)
    (newTable fresh (requiredPages cfg sp.numVirtualPages size)) (Nat.zero_le _)
    (newTable_length _ _) (by
      intro i t _ hin hl
      have hiP : i < sp.KernelPageTable.length := by omega
      have hil : i < t.length := by omega
      unfold copyEntry
      rw [List.getElem?_eq_getElem hiP]
      simp only []
      rw [writeEntry_of_getElem? _ (List.getElem?_eq_getElem hil)]
      exact ⟨_, rfl, by simp [hl]⟩)
  obtain ⟨s, hs, _⟩ := forLoop_total
    (fun _ (s : List TranslationEntry × Kernel) =>
      s.1.length = requiredPages cfg sp.numVirtualPages size)
    sp.numVirtualPages (requiredPages cfg sp.numVirtualPages size) sharedEntry (t1, k) hPR
    hl1 (by
      intro i s _ hin hl
      have hil : i < s.1.length := by omega
      unfold sharedEntry
      simp only []
      rw [writeEntry_of_getElem? _ (List.getElem?_eq_getElem hil)]
      exact ⟨_, rfl, by simp [hl]⟩)
  have hcap' : (((sp.numVirtualPages : Int) + divRoundUpInt size cfg.PageSize)
      % 4294967296).toNat ≤ cfg.NumPhysPages := hcap
  unfold requiredPages at ht1 hs
  cases hF : sp.AllocateSharedMemory cfg k size fresh with
  | ok r k' => exact ⟨r.1, r.2, k', rfl⟩
  | fatal k' =>
    exfalso
    unfold ProcessAddressSpace.AllocateSharedMemory at hF
    simp only [] at hF
    rw [if_neg (by omega), ht1] at hF
    simp only [] at hF
    rw [hs] at hF
    cases hF
  | undef =>
    exfalso
    unfold ProcessAddressSpace.AllocateSharedMemory at hF
    simp only [] at hF
    rw [if_neg (by omega), ht1] at hF
    simp only [] at hF
    rw [hs] at hF
    cases hF

/-- A segment is loaded when it is empty, or starts on a page of the table and the
bytes the file supplies for it end inside the image. -/
theorem loadSegment_returns (cfg : Config) (hcfg : cfg.wf) (executable : OpenFile)
    (table : List TranslationEntry) (n B : Nat) (seg : Segment) (mem : Nat → Nat)
    (hcap : n + B ≤ cfg.NumPhysPages)
    (hget : ∀ j, j < n → ∃ e, table[j]? = some e ∧ e.physicalPage = ((j + B : ℕ) : ℤ))
    (hfit : seg.size = 0 ∨
      seg.virtualAddr + executable.bytesRead seg.size seg.inFileAddr ≤ n * cfg.PageSize ∧
        seg.virtualAddr < n * cfg.PageSize) :
    ∃ mem', loadSegment cfg executable table seg mem = some mem' := by
  unfold loadSegment
  by_cases hs : seg.size > 0
  · rw [if_pos hs]
    rcases hfit with h0 | ⟨hend, hstart⟩
    · omega
    · have hPS := hcfg.1
      have hvpn : seg.virtualAddr / cfg.PageSize < n :=
        Nat.div_lt_of_lt_mul (by rw [Nat.mul_comm]; exact hstart)
      obtain ⟨e, he, hpp⟩ := hget _ hvpn
      simp only [he, hpp]
      have hM : cfg.NumPhysPages * cfg.PageSize < 2147483648 := hcfg.2.1
      have h1 : (n + B) * cfg.PageSize ≤ cfg.NumPhysPages * cfg.PageSize :=
        Nat.mul_le_mul_right _ hcap
      have h2 : (n + B) * cfg.PageSize = n * cfg.PageSize + B * cfg.PageSize := Nat.add_mul _ _ _
      have h3 : (seg.virtualAddr / cfg.PageSize + B) * cfg.PageSize
          = seg.virtualAddr / cfg.PageSize * cfg.PageSize + B * cfg.PageSize :=
        Nat.add_mul _ _ _
      have h4 : cfg.PageSize * (seg.virtualAddr / cfg.PageSize)
          + seg.virtualAddr % cfg.PageSize = seg.virtualAddr := Nat.div_add_mod _ _
      have h5 : seg.virtualAddr / cfg.PageSize * cfg.PageSize
          = cfg.PageSize * (seg.virtualAddr / cfg.PageSize) := Nat.mul_comm _ _
      have h6 : seg.virtualAddr / cfg.PageSize + B < 4294967296 := by
        have : seg.virtualAddr / cfg.PageSize + B ≤ cfg.NumPhysPages := by omega
        have : cfg.NumPhysPages ≤ cfg.NumPhysPages * cfg.PageSize :=
          Nat.le_mul_of_pos_right _ hPS
        omega
      have e1 : (((seg.virtualAddr / cfg.PageSize + B : ℕ) : ℤ) % 4294967296).toNat
          = seg.virtualAddr / cfg.PageSize + B := by
        have e0 : ((seg.virtualAddr / cfg.PageSize + B : ℕ) : ℤ) % 4294967296
            = ((seg.virtualAddr / cfg.PageSize + B : ℕ) : ℤ) :=
          Int.emod_eq_of_lt (Int.natCast_nonneg _) (by exact_mod_cast h6)
        rw [e0, Int.toNat_ofNat]
      rw [e1, Nat.mod_eq_of_lt (by omega)]
      rw [if_pos (Or.inr (by unfold Config.MemorySize; omega))]
      exact ⟨_, rfl⟩
  · rw [if_neg hs]
    exact ⟨_, rfl⟩

/-- Eager construction returns when the magic check and the capacity assertion pass
and the code and initialised-data segments lie inside the image. -/
theorem ctorExecutable_eager_returns (cfg : Config) (hcfg : cfg.wf) (k : Kernel)
    (executable : OpenFile) (fileName : String) (fresh : Nat → TranslationEntry)
    (halgo : k.pageReplaceAlgo = 0) (hmagic : magicCheckPasses cfg executable.noffH)
    (hcap : imagePages cfg (normaliseHeader cfg executable.noffH) + k.numPagesAllocated
      ≤ cfg.NumPhysPages)
    (hcode : (normaliseHeader cfg executable.noffH).code.size = 0 ∨
      (normaliseHeader cfg executable.noffH).code.virtualAddr
          + executable.bytesRead (normaliseHeader cfg executable.noffH).code.size
              (normaliseHeader cfg executable.noffH).code.inFileAddr
        ≤ imagePages cfg (normaliseHeader cfg executable.noffH) * cfg.PageSize ∧
      (normaliseHeader cfg executable.noffH).code.virtualAddr
        < imagePages cfg (normaliseHeader cfg executable.noffH) * cfg.PageSize)
    (hdata : (normaliseHeader cfg executable.noffH).initData.size = 0 ∨
      (normaliseHeader cfg executable.noffH).initData.virtualAddr
          + executable.bytesRead (normaliseHeader cfg executable.noffH).initData.size
              (normaliseHeader cfg executable.noffH).initData.inFileAddr
        ≤ imagePages cfg (normaliseHeader cfg executable.noffH) * cfg.PageSize ∧
      (normaliseHeader cfg executable.noffH).initData.virtualAddr
        < imagePages cfg (normaliseHeader cfg executable.noffH) * cfg.PageSize) :
    ∃ sp k', ProcessAddressSpace.ctorExecutable cfg k executable fileName fresh
      = .ok sp k' := by
  obtain ⟨table, htable⟩ := fillLoop_total
    (fun i e =>
      { e with
        virtualPage := i
        physicalPage := ((i + k.numPagesAllocated : Nat) : Int)
        valid := true
        use := false
        dirty := false
        readOnly := false })
    (newTable fresh (imagePages cfg (normaliseHeader cfg executable.noffH)))
    (imagePages cfg (normaliseHeader cfg executable.noffH))
    (by rw [newTable_length])
  obtain ⟨_, hget⟩ := fillLoop_newTable _ fresh _ table htable
  have hget' : ∀ j, j < imagePages cfg (normaliseHeader cfg executable.noffH) →
      ∃ e, table[j]? = some e ∧ e.physicalPage = ((j + k.numPagesAllocated : ℕ) : ℤ) :=
    fun j hj => ⟨_, hget j hj, rfl⟩
  obtain ⟨mem2, hmem2⟩ := loadSegment_returns cfg hcfg executable table _ _
    (normaliseHeader cfg executable.noffH).code
    (bzero k.machine.mainMemory (k.numPagesAllocated * cfg.PageSize)
      (imagePages cfg (normaliseHeader cfg executable.noffH) * cfg.PageSize % 4294967296))
    hcap hget' hcode
  obtain ⟨mem3, hmem3⟩ := loadSegment_returns cfg hcfg executable table _ _
    (normaliseHeader cfg executable.noffH).initData mem2 hcap hget' hdata
  have hM : cfg.NumPhysPages * cfg.PageSize < 2147483648 := hcfg.2.1
  have h1 : (imagePages cfg (normaliseHeader cfg executable.noffH) + k.numPagesAllocated)
      * cfg.PageSize ≤ cfg.NumPhysPages * cfg.PageSize := Nat.mul_le_mul_right _ hcap
  have h2 : (imagePages cfg (normaliseHeader cfg executable.noffH) + k.numPagesAllocated)
      * cfg.PageSize = imagePages cfg (normaliseHeader cfg executable.noffH) * cfg.PageSize
        + k.numPagesAllocated * cfg.PageSize := Nat.add_mul _ _ _
  have hz : imagePages cfg (normaliseHeader cfg executable.noffH) * cfg.PageSize % 4294967296
      = imagePages cfg (normaliseHeader cfg executable.noffH) * cfg.PageSize :=
    Nat.mod_eq_of_lt (by omega)
  unfold magicCheckPasses at hmagic
  have htable' : forLoop 0 (imagePages cfg (normaliseHeader cfg executable.noffH))
      (eagerEntry k.numPagesAllocated)
      (newTable fresh (imagePages cfg (normaliseHeader cfg executable.noffH))) = some table :=
    htable
  have hbz : ¬ ¬ (imagePages cfg (normaliseHeader cfg executable.noffH) * cfg.PageSize
        % 4294967296 = 0 ∨
      k.numPagesAllocated * cfg.PageSize
        + imagePages cfg (normaliseHeader cfg executable.noffH) * cfg.PageSize % 4294967296
        ≤ cfg.MemorySize) := by
    intro hc
    apply hc
    right
    rw [hz]
    unfold Config.MemorySize
    omega
  have hrun : ProcessAddressSpace.ctorExecutable cfg k executable fileName fresh =
      .ok { fileName := fileName, progExecutable := some executable,
            numVirtualPages := imagePages cfg (normaliseHeader cfg executable.noffH),
            KernelPageTable := table }
        (Kernel.setMemory
          { k.setMemory (bzero k.machine.mainMemory (k.numPagesAllocated * cfg.PageSize)
              (imagePages cfg (normaliseHeader cfg executable.noffH) * cfg.PageSize
                % 4294967296)) with
            numPagesAllocated := k.numPagesAllocated
              + imagePages cfg (normaliseHeader cfg executable.noffH) } mem3) := by
    unfold ProcessAddressSpace.ctorExecutable
    simp only []
    rw [if_neg (by rw [hmagic]; exact fun hc => hc rfl), if_neg (by omega), if_pos halgo,
      htable']
    simp only []
    rw [if_neg hbz, hmem2]
    simp only []
    rw [hmem3]
  exact ⟨_, _, hrun⟩

/-! ## Claims -/

/-- C1 (amended). When eager construction (`pageReplaceAlgo == 0`) from an executable
succeeds with `B` frames issued before, `numVirtualPages` is the ceiling of the
32-bit sum `(code.size + initData.size + uninitData.size + UserStackSize) mod 2^32`
divided by `PageSize`, the table has that many entries, entry `i` has
`physicalPage == B + i`, and so the frames are pairwise distinct and lie in
`[B, B + numVirtualPages)`. -/
theorem C1_eager_pages_and_frames (cfg : Config) (k : Kernel) (executable : OpenFile)
    (fileName : String) (fresh : Nat → TranslationEntry) (sp : ProcessAddressSpace)
    (k' : Kernel) (hcfg : cfg.wf) (halgo : k.pageReplaceAlgo = 0)
    (h : ProcessAddressSpace.ctorExecutable cfg k executable fileName fresh = .ok sp k') :
    (sp.numVirtualPages : ℤ) =
      ⌈((((normaliseHeader cfg executable.noffH).code.size
          + (normaliseHeader cfg executable.noffH).initData.size
          + (normaliseHeader cfg executable.noffH).uninitData.size
          + cfg.UserStackSize) % 4294967296 : ℕ) : ℚ) / (cfg.PageSize : ℚ)⌉ ∧
    sp.KernelPageTable.length = sp.numVirtualPages ∧
    (∀ (i : ℕ) (e : TranslationEntry), sp.KernelPageTable[i]? = some e →
      e.physicalPage = (k.numPagesAllocated : ℤ) + (i : ℤ)) ∧
    (∀ (i j : ℕ) (ei ej : TranslationEntry), i ≠ j → sp.KernelPageTable[i]? = some ei →
      sp.KernelPageTable[j]? = some ej → ei.physicalPage ≠ ej.physicalPage) ∧
    (∀ (i : ℕ) (e : TranslationEntry), sp.KernelPageTable[i]? = some e →
      (k.numPagesAllocated : ℤ) ≤ e.physicalPage ∧
      e.physicalPage < (k.numPagesAllocated : ℤ) + (sp.numVirtualPages : ℤ)) := by
  obtain ⟨_, _, table, mem2, mem3, htable, _, _, rfl, rfl⟩ :=
    ctorExecutable_eager_ok cfg k executable fileName fresh sp k' halgo h
  obtain ⟨hlen, hget⟩ := fillLoop_newTable _ fresh _ table htable
  have hphys : ∀ (i : ℕ) (e : TranslationEntry), table[i]? = some e →
      e.physicalPage = (k.numPagesAllocated : ℤ) + (i : ℤ) := by
    intro i e he
    have hi : i < imagePages cfg (normaliseHeader cfg executable.noffH) := by
      rw [← hlen]; exact getElem?_lt_length he
    rw [hget i hi] at he
    cases he
    simp only
    push_cast
    ring
  refine ⟨?_, hlen, hphys, ?_, ?_⟩
  · exact divRoundUp_eq_ceil _ _ hcfg.1
  · intro i j ei ej hij hi hj
    rw [hphys i ei hi, hphys j ej hj]
    intro hc
    apply hij
    have : (i : ℤ) = (j : ℤ) := by linarith
    exact_mod_cast this
  · intro i e he
    have hi : i < imagePages cfg (normaliseHeader cfg executable.noffH) := by
      rw [← hlen]; exact getElem?_lt_length he
    rw [hphys i e he]
    have : (i : ℤ) < (imagePages cfg (normaliseHeader cfg executable.noffH) : ℤ) := by
      exact_mod_cast hi
    constructor
    · have : (0 : ℤ) ≤ (i : ℤ) := Int.natCast_nonneg i
      linarith
    · simp only
      linarith

/-- Witness of C1: the small program loaded eagerly after boot. -/
theorem C1_eager_pages_and_frames_witness :
    (stockConfig.wf ∧ bootKernel.pageReplaceAlgo = 0 ∧
      ProcessAddressSpace.ctorExecutable stockConfig bootKernel smallExe "small" zeroFresh
        = .ok smallSpace smallKernel) ∧
    ((smallSpace.numVirtualPages : ℤ) =
      ⌈((((normaliseHeader stockConfig smallExe.noffH).code.size
          + (normaliseHeader stockConfig smallExe.noffH).initData.size
          + (normaliseHeader stockConfig smallExe.noffH).uninitData.size
          + stockConfig.UserStackSize) % 4294967296 : ℕ) : ℚ) / (stockConfig.PageSize : ℚ)⌉ ∧
    smallSpace.KernelPageTable.length = smallSpace.numVirtualPages ∧
    (∀ (i : ℕ) (e : TranslationEntry), smallSpace.KernelPageTable[i]? = some e →
      e.physicalPage = (bootKernel.numPagesAllocated : ℤ) + (i : ℤ)) ∧
    (∀ (i j : ℕ) (ei ej : TranslationEntry), i ≠ j → smallSpace.KernelPageTable[i]? = some ei →
      smallSpace.KernelPageTable[j]? = some ej → ei.physicalPage ≠ ej.physicalPage) ∧
    (∀ (i : ℕ) (e : TranslationEntry), smallSpace.KernelPageTable[i]? = some e →
      (bootKernel.numPagesAllocated : ℤ) ≤ e.physicalPage ∧
      e.physicalPage < (bootKernel.numPagesAllocated : ℤ) + (smallSpace.numVirtualPages : ℤ))) :=
  have h : ProcessAddressSpace.ctorExecutable stockConfig bootKernel smallExe "small" zeroFresh
      = .ok smallSpace smallKernel := rfl
  ⟨⟨by decide, rfl, h⟩,
    C1_eager_pages_and_frames stockConfig bootKernel smallExe "small" zeroFresh smallSpace
      smallKernel (by decide) rfl h⟩

/-- C1 fails as stated: the segment sizes of `wrapExe` add up, with the stack, to
`4294967296 + 128`; eager construction succeeds with a single page, while the
ceiling of the sum divided by `PageSize` is 33554433. -/
theorem C1_counterexample :
    magicCheckPasses stockConfig wrapExe.noffH ∧ bootKernel.pageReplaceAlgo = 0 ∧
    ((ProcessAddressSpace.ctorExecutable stockConfig bootKernel wrapExe "wrap" zeroFresh).val?.map
      fun sp => sp.numVirtualPages) = some 1 ∧
    ⌈(((normaliseHeader stockConfig wrapExe.noffH).code.size
        + (normaliseHeader stockConfig wrapExe.noffH).initData.size
        + (normaliseHeader stockConfig wrapExe.noffH).uninitData.size
        + stockConfig.UserStackSize : ℕ) : ℚ) / (stockConfig.PageSize : ℚ)⌉ = 33554433 := by
  refine ⟨by decide, rfl, by decide, ?_⟩
  rw [← divRoundUp_eq_ceil _ _ (by decide)]
  decide

/-- C2. Let every entry of the parent be valid and not shared and hold a frame
issued earlier (`0 <= physicalPage < numPagesAllocated`). A successful fork
duplication yields a child with the parent's `numVirtualPages`, whose entry `i` has
the parent's `use`, `readOnly`, `dirty`, `shared` and `valid`, a `physicalPage` that
differs from every `physicalPage` of the parent, and a frame whose `PageSize` bytes
are the bytes the parent's frame `i` held when the fork started. -/
theorem C2_fork_private_pages (cfg : Config) (k : Kernel) (parentSpace : ProcessAddressSpace)
    (fresh : Nat → TranslationEntry) (child : ProcessAddressSpace) (k' : Kernel)
    (hcfg : cfg.wf)
    (hall : ∀ (i : ℕ) (p : TranslationEntry), i < parentSpace.numVirtualPages →
      parentSpace.KernelPageTable[i]? = some p →
      p.valid = true ∧ p.shared = false ∧ 0 ≤ p.physicalPage ∧
        p.physicalPage < (k.numPagesAllocated : ℤ))
    (h : ProcessAddressSpace.ctorParent cfg k parentSpace fresh = .ok child k') :
    child.numVirtualPages = parentSpace.numVirtualPages ∧
    child.KernelPageTable.length = parentSpace.numVirtualPages ∧
    ∀ i, i < parentSpace.numVirtualPages →
      ∃ p c, parentSpace.KernelPageTable[i]? = some p ∧ child.KernelPageTable[i]? = some c ∧
        c.use = p.use ∧ c.readOnly = p.readOnly ∧ c.dirty = p.dirty ∧ c.shared = p.shared ∧
        c.valid = p.valid ∧ 0 ≤ c.physicalPage ∧
        (∀ (j : ℕ) (q : TranslationEntry), j < parentSpace.numVirtualPages →
          parentSpace.KernelPageTable[j]? = some q → c.physicalPage ≠ q.physicalPage) ∧
        (∀ b, b < cfg.PageSize →
          k'.machine.mainMemory (c.physicalPage.toNat * cfg.PageSize + b)
            = k.machine.mainMemory (p.physicalPage.toNat * cfg.PageSize + b)) := by
  obtain ⟨hn, _, hlen, hdone, _, _, _, _, hcopy⟩ :=
    ctorParent_inv cfg hcfg k parentSpace fresh child k' h
  refine ⟨hn, hlen, fun i hi => ?_⟩
  obtain ⟨p, hp, hc⟩ := hdone i hi
  obtain ⟨hv, hs, h0, hB⟩ := hall i p hi hp
  have hfc : forkChild (k.numPagesAllocated + privCount parentSpace.KernelPageTable i) p i
      (fresh i) =
      { fresh i with
        virtualPage := i
        use := p.use
        readOnly := p.readOnly
        dirty := p.dirty
        shared := p.shared
        physicalPage := ((k.numPagesAllocated + privCount parentSpace.KernelPageTable i : ℕ) : ℤ)
        valid := true } := by
    unfold forkChild
    rw [if_pos ⟨hv, hs⟩]
  rw [hfc] at hc
  refine ⟨p, _, hp, hc, rfl, rfl, rfl, rfl, hv.symm, Int.natCast_nonneg _, ?_, ?_⟩
  · intro j q hj hq
    obtain ⟨_, _, _, hqB⟩ := hall j q hj hq
    simp only
    intro heq
    rw [← heq] at hqB
    have : ((k.numPagesAllocated : ℕ) : ℤ) ≤
        ((k.numPagesAllocated + privCount parentSpace.KernelPageTable i : ℕ) : ℤ) := by
      exact_mod_cast Nat.le_add_right _ _
    omega
  · intro b hb
    simp only [Int.toNat_ofNat]
    exact hcopy i p hi hp hv hs h0 hB b hb

/-- Witness of C2: the small address space, loaded eagerly after boot, is forked. -/
theorem C2_fork_private_pages_witness :
    (stockConfig.wf ∧
      (∀ (i : ℕ) (p : TranslationEntry), i < smallSpace.numVirtualPages →
        smallSpace.KernelPageTable[i]? = some p →
        p.valid = true ∧ p.shared = false ∧ 0 ≤ p.physicalPage ∧
          p.physicalPage < (smallKernel.numPagesAllocated : ℤ)) ∧
      ProcessAddressSpace.ctorParent stockConfig smallKernel smallSpace zeroFresh
        = .ok childSpace childKernel) ∧
    (childSpace.numVirtualPages = smallSpace.numVirtualPages ∧
    childSpace.KernelPageTable.length = smallSpace.numVirtualPages ∧
    ∀ i, i < smallSpace.numVirtualPages →
      ∃ p c, smallSpace.KernelPageTable[i]? = some p ∧
        childSpace.KernelPageTable[i]? = some c ∧
        c.use = p.use ∧ c.readOnly = p.readOnly ∧ c.dirty = p.dirty ∧ c.shared = p.shared ∧
        c.valid = p.valid ∧ 0 ≤ c.physicalPage ∧
        (∀ (j : ℕ) (q : TranslationEntry), j < smallSpace.numVirtualPages →
          smallSpace.KernelPageTable[j]? = some q → c.physicalPage ≠ q.physicalPage) ∧
        (∀ b, b < stockConfig.PageSize →
          childKernel.machine.mainMemory (c.physicalPage.toNat * stockConfig.PageSize + b)
            = smallKernel.machine.mainMemory
                (p.physicalPage.toNat * stockConfig.PageSize + b))) :=
  have h : ProcessAddressSpace.ctorParent stockConfig smallKernel smallSpace zeroFresh
      = .ok childSpace childKernel := rfl
  have hall : ∀ (i : ℕ) (p : TranslationEntry), i < smallSpace.numVirtualPages →
      smallSpace.KernelPageTable[i]? = some p →
      p.valid = true ∧ p.shared = false ∧ 0 ≤ p.physicalPage ∧
        p.physicalPage < (smallKernel.numPagesAllocated : ℤ) := by
    intro i p hi hp
    have hi9 : i < 9 := hi
    interval_cases i <;> cases hp <;> decide
  ⟨⟨by decide, hall, h⟩,
    C2_fork_private_pages stockConfig smallKernel smallSpace zeroFresh childSpace
      childKernel (by decide) hall h⟩

/-- C3. At every index `i` where the parent's entry is shared or invalid, the child
of a successful fork duplication has an entry with the parent's `physicalPage`,
`valid`, `use`, `readOnly`, `dirty` and `shared`; the step of the loop that handles
index `i` leaves the kernel as it finds it, so no frame is issued and no byte is
copied for that entry. -/
theorem C3_fork_aliases_shared_or_invalid (cfg : Config) (k : Kernel)
    (parentSpace : ProcessAddressSpace) (fresh : Nat → TranslationEntry)
    (child : ProcessAddressSpace) (k' : Kernel) (i : ℕ) (p : TranslationEntry)
    (hcfg : cfg.wf) (hi : i < parentSpace.numVirtualPages)
    (hp : parentSpace.KernelPageTable[i]? = some p)
    (hsh : p.shared = true ∨ p.valid = false)
    (h : ProcessAddressSpace.ctorParent cfg k parentSpace fresh = .ok child k') :
    (∃ c, child.KernelPageTable[i]? = some c ∧ c.physicalPage = p.physicalPage ∧
      c.valid = p.valid ∧ c.use = p.use ∧ c.readOnly = p.readOnly ∧ c.dirty = p.dirty ∧
      c.shared = p.shared) ∧
    (∀ s s', forkEntry cfg parentSpace.KernelPageTable s i = some s' → s'.2 = s.2) := by
  have hnp : ¬ (p.valid = true ∧ p.shared = false) := by
    rintro ⟨hv, hs⟩
    rcases hsh with h1 | h1
    · rw [hs] at h1; cases h1
    · rw [hv] at h1; cases h1
  constructor
  · obtain ⟨_, _, _, hdone, _⟩ := ctorParent_inv cfg hcfg k parentSpace fresh child k' h
    obtain ⟨q, hq, hc⟩ := hdone i hi
    rw [hp] at hq
    cases hq
    refine ⟨_, hc, ?_⟩
    unfold forkChild
    rw [if_neg hnp]
    exact ⟨rfl, rfl, rfl, rfl, rfl, rfl⟩
  · intro s s' hs
    obtain ⟨q, _, hq, _, _, hk⟩ := forkEntry_eq_some hs
    rw [hp] at hq
    cases hq
    rcases hk with ⟨hc, _⟩ | ⟨_, hk⟩
    · exact absurd hc hnp
    · exact hk

/-- Witness of C3: the grown small address space is forked; its entry 9 is a shared
page on frame 9. -/
theorem C3_fork_aliases_shared_or_invalid_witness :
    (stockConfig.wf ∧ 9 < sharedSpace.numVirtualPages ∧
      sharedSpace.KernelPageTable[9]? = some (sharedPage 9 9) ∧
      ((sharedPage 9 9).shared = true ∨ (sharedPage 9 9).valid = false) ∧
      ProcessAddressSpace.ctorParent stockConfig sharedKernel sharedSpace zeroFresh
        = .ok sharedChild sharedChildKernel) ∧
    ((∃ c, sharedChild.KernelPageTable[9]? = some c ∧
      c.physicalPage = (sharedPage 9 9).physicalPage ∧
      c.valid = (sharedPage 9 9).valid ∧ c.use = (sharedPage 9 9).use ∧
      c.readOnly = (sharedPage 9 9).readOnly ∧ c.dirty = (sharedPage 9 9).dirty ∧
      c.shared = (sharedPage 9 9).shared) ∧
    (∀ s s', forkEntry stockConfig sharedSpace.KernelPageTable s 9 = some s' → s'.2 = s.2)) :=
  have h : ProcessAddressSpace.ctorParent stockConfig sharedKernel sharedSpace zeroFresh
      = .ok sharedChild sharedChildKernel := rfl
  ⟨⟨by decide, by decide, rfl, Or.inl rfl, h⟩,
    C3_fork_aliases_shared_or_invalid stockConfig sharedKernel sharedSpace zeroFresh
      sharedChild sharedChildKernel 9 (sharedPage 9 9) (by decide) (by decide) rfl
      (Or.inl rfl) h⟩

/-- C4. When `AllocateSharedMemory(n)` succeeds on a space with `numVirtualPages = P`,
the call returns `P * PageSize`, afterwards `numVirtualPages` is
`P + ceil(n / PageSize)`, and every entry at an index `i` of
`[P, P + ceil(n / PageSize))` has `virtualPage == i`, is valid and shared, and is
neither read-only, used nor dirty. -/
theorem C4_shared_memory_growth (cfg : Config) (k : Kernel) (sp : ProcessAddressSpace)
    (n : Int) (fresh : Nat → TranslationEntry) (ret : Nat) (sp' : ProcessAddressSpace)
    (k' : Kernel) (hcfg : cfg.wf) (hn : -2147483648 ≤ n ∧ n < 2147483648)
    (h : sp.AllocateSharedMemory cfg k n fresh = .ok (ret, sp') k') :
    ret = sp.numVirtualPages * cfg.PageSize ∧
    (sp'.numVirtualPages : ℤ) = (sp.numVirtualPages : ℤ) + ⌈(n : ℚ) / (cfg.PageSize : ℚ)⌉ ∧
    ∀ (i : ℕ), sp.numVirtualPages ≤ i →
      (i : ℤ) < (sp.numVirtualPages : ℤ) + ⌈(n : ℚ) / (cfg.PageSize : ℚ)⌉ →
      ∃ e, sp'.KernelPageTable[i]? = some e ∧ e.virtualPage = i ∧ e.valid = true ∧
        e.shared = true ∧ e.readOnly = false ∧ e.use = false ∧ e.dirty = false := by
  obtain ⟨hcap, hPR, _, hret, hnvp, _, _, _, _, hnew, _⟩ :=
    AllocateSharedMemory_ok cfg k sp n fresh ret sp' k' h
  have hR := requiredPages_eq cfg hcfg sp.numVirtualPages n hn hPR hcap
  have hceil : divRoundUpInt n (cfg.PageSize : Int) = ⌈(n : ℚ) / (cfg.PageSize : ℚ)⌉ := by
    have := divRoundUpInt_eq_ceil n (cfg.PageSize : Int) (by exact_mod_cast hcfg.1)
    rw [this]; push_cast; rfl
  rw [hceil] at hR
  refine ⟨?_, by rw [hnvp, hR], ?_⟩
  · rw [hret]
    apply Nat.mod_eq_of_lt
    have h1 : sp.numVirtualPages * cfg.PageSize ≤ cfg.NumPhysPages * cfg.PageSize :=
      Nat.mul_le_mul_right _ (by omega)
    have := hcfg.2.1
    omega
  · intro i hi1 hi2
    rw [← hR] at hi2
    have hi3 : i < requiredPages cfg sp.numVirtualPages n := by exact_mod_cast hi2
    exact ⟨_, hnew i hi1 hi3, rfl, rfl, rfl, rfl, rfl, rfl⟩

/-- Witness of C4: the small address space grows by 200 shared bytes. -/
theorem C4_shared_memory_growth_witness :
    (smallSpace.AllocateSharedMemory stockConfig smallKernel 200 zeroFresh
      = .ok (1152, sharedSpace) sharedKernel) ∧
    (1152 = smallSpace.numVirtualPages * stockConfig.PageSize ∧
    (sharedSpace.numVirtualPages : ℤ) =
      (smallSpace.numVirtualPages : ℤ) + ⌈((200 : ℤ) : ℚ) / (stockConfig.PageSize : ℚ)⌉ ∧
    ∀ (i : ℕ), smallSpace.numVirtualPages ≤ i →
      (i : ℤ) < (smallSpace.numVirtualPages : ℤ)
        + ⌈((200 : ℤ) : ℚ) / (stockConfig.PageSize : ℚ)⌉ →
      ∃ e, sharedSpace.KernelPageTable[i]? = some e ∧ e.virtualPage = i ∧ e.valid = true ∧
        e.shared = true ∧ e.readOnly = false ∧ e.use = false ∧ e.dirty = false) :=
  have h : smallSpace.AllocateSharedMemory stockConfig smallKernel 200 zeroFresh
      = .ok (1152, sharedSpace) sharedKernel := rfl
  ⟨h, C4_shared_memory_growth stockConfig smallKernel smallSpace 200 zeroFresh 1152
    sharedSpace sharedKernel (by decide) (by decide) h⟩

/-- C5 (amended). Let `sp0` be an address space built in demand-paged mode from
`executable`, and let `sp` be that space at any later time: the same `fileName` and
`numVirtualPages` and a page table of the same length, whose entries may hold
anything (pages faulted in earlier are valid and bound to frames). Let the call be
made in a kernel state in which a frame is left (`numPagesAllocated < NumPhysPages`)
and the file system re-opens `executable` under the space's `fileName`. For every
`addr` with `0 <= addr < numVirtualPages * PageSize`, `DemandAllocation(addr)`
returns `TRUE`; the entry at index `addr / PageSize` becomes valid, clean and bound
to the frame the counter named before the call, its other fields kept, and it was
invalid before the call when it is still as the constructor left it; every other
entry of the table is unchanged, whatever it holds; and byte `b` of the new frame is
the byte of the file at offset
`(code.inFileAddr + (addr / PageSize) * PageSize) mod 2^32 + b`, or zero when the
file has no such byte. -/
theorem C5_demand_allocation (cfg : Config) (k0 : Kernel) (executable : OpenFile)
    (fileName : String) (fresh : Nat → TranslationEntry) (sp0 : ProcessAddressSpace)
    (k1 : Kernel) (sp : ProcessAddressSpace) (k : Kernel) (addr : ℤ) (hcfg : cfg.wf)
    (halgo : k0.pageReplaceAlgo ≠ 0)
    (hbuilt : ProcessAddressSpace.ctorExecutable cfg k0 executable fileName fresh = .ok sp0 k1)
    (hlater : sp.fileName = sp0.fileName ∧ sp.numVirtualPages = sp0.numVirtualPages ∧
      sp.KernelPageTable.length = sp0.KernelPageTable.length)
    (hopen : k.fileSystem sp.fileName = some executable)
    (hpool : k.numPagesAllocated < cfg.NumPhysPages)
    (haddr : 0 ≤ addr ∧ addr < (sp.numVirtualPages : ℤ) * (cfg.PageSize : ℤ)) :
    ∃ sp' k', sp.DemandAllocation cfg k addr = .ok (true, sp') k' ∧
      sp'.numVirtualPages = sp.numVirtualPages ∧
      sp'.KernelPageTable.length = sp.KernelPageTable.length ∧
      k'.numPagesAllocated = k.numPagesAllocated + 1 ∧
      (∃ e e', sp.KernelPageTable[(addr / (cfg.PageSize : ℤ)).toNat]? = some e ∧
        (sp.KernelPageTable[(addr / (cfg.PageSize : ℤ)).toNat]?
            = sp0.KernelPageTable[(addr / (cfg.PageSize : ℤ)).toNat]? → e.valid = false) ∧
        sp'.KernelPageTable[(addr / (cfg.PageSize : ℤ)).toNat]? = some e' ∧
        e'.valid = true ∧ e'.dirty = false ∧
        e'.physicalPage = (k.numPagesAllocated : ℤ) ∧
        e'.virtualPage = e.virtualPage ∧ e'.use = e.use ∧ e'.readOnly = e.readOnly ∧
        e'.shared = e.shared) ∧
      (∀ j, j ≠ (addr / (cfg.PageSize : ℤ)).toNat →
        sp'.KernelPageTable[j]? = sp.KernelPageTable[j]?) ∧
      (∀ b, b < cfg.PageSize →
        k'.machine.mainMemory (k.numPagesAllocated * cfg.PageSize + b) =
          executable.data.getD
            (((((normaliseHeader cfg executable.noffH).code.inFileAddr : ℤ)
              + addr / (cfg.PageSize : ℤ) * (cfg.PageSize : ℤ)) % 4294967296).toNat + b) 0) := by
  obtain ⟨hmagic, _, _, _, _, hnvp0, hlen0, hget⟩ :=
    ctorExecutable_demand_ok cfg k0 executable fileName fresh sp0 k1 halgo hbuilt
  obtain ⟨_, hnvp, hlen⟩ := hlater
  have hPS : (0 : ℤ) < (cfg.PageSize : ℤ) := by exact_mod_cast hcfg.1
  have htd : Int.tdiv addr (cfg.PageSize : ℤ) = addr / (cfg.PageSize : ℤ) :=
    Int.tdiv_eq_ediv haddr.1 (le_of_lt hPS)
  have hq0 : 0 ≤ addr / (cfg.PageSize : ℤ) := Int.ediv_nonneg haddr.1 (le_of_lt hPS)
  have hq1 : addr / (cfg.PageSize : ℤ) < (sp.numVirtualPages : ℤ) :=
    Int.ediv_lt_of_lt_mul hPS haddr.2
  have hvpn : (addr / (cfg.PageSize : ℤ)).toNat < sp.numVirtualPages := by omega
  have hvpn' : (addr / (cfg.PageSize : ℤ)).toNat < sp.KernelPageTable.length := by
    rw [hlen, hlen0, ← hnvp]; exact hvpn
  have he : sp.KernelPageTable[(addr / (cfg.PageSize : ℤ)).toNat]?
      = some (sp.KernelPageTable.get ⟨_, hvpn'⟩) := List.getElem?_eq_getElem hvpn'
  have hcall := DemandAllocation_eq cfg k sp addr executable _ hpool hopen hmagic
    (by rw [htd]; exact hq0) (by rw [htd]; exact he)
  rw [htd] at hcall
  refine ⟨_, _, hcall, rfl, ?_, rfl,
    ⟨_, { sp.KernelPageTable.get ⟨_, hvpn'⟩ with
          valid := true, dirty := false, physicalPage := (k.numPagesAllocated : ℤ) },
      he, ?_, ?_, rfl, rfl, rfl, rfl, rfl, rfl, rfl⟩, ?_, ?_⟩
  · simp only [List.length_set]
  · intro hsame
    rw [he, hget _ (by rw [← hnvp]; exact hvpn)] at hsame
    injection hsame with hsame
    rw [hsame]
  · simp only
    rw [List.getElem?_set_self hvpn']
  · intro j hj
    simp only
    rw [List.getElem?_set_ne (Ne.symm hj)]
  · intro b hb
    simp only [OpenFile.ReadAt, bzero]
    generalize ((((normaliseHeader cfg executable.noffH).code.inFileAddr : ℤ)
      + addr / (cfg.PageSize : ℤ) * (cfg.PageSize : ℤ)) % 4294967296).toNat = position
    by_cases hin : b < executable.bytesRead cfg.PageSize position
    · rw [if_pos ⟨by omega, by omega⟩]
      congr 1
      omega
    · rw [if_neg (by omega), if_pos ⟨by omega, by omega⟩]
      symm
      rw [List.getD_eq_getElem?_getD, List.getElem?_eq_none]
      · rfl
      · unfold OpenFile.bytesRead at hin
        omega

/-- Witness of C5: the small program is built in demand-paged mode after boot and
page 0 is faulted in; then address 130 faults. Page 0 is valid and bound to frame 0
before the call and is among the entries that the call leaves unchanged. -/
theorem C5_demand_allocation_witness :
    demandBoot.pageReplaceAlgo ≠ 0 ∧
    ProcessAddressSpace.ctorExecutable stockConfig demandBoot smallExe "small" zeroFresh
      = .ok demandSpace demandBoot ∧
    demandSpace.DemandAllocation stockConfig demandBoot 5
      = .ok (true, faultedSpace) faultedKernel ∧
    (faultedSpace.KernelPageTable[0]?.map fun e => (e.valid, e.physicalPage))
      = some (true, 0) ∧
    (faultedSpace.fileName = demandSpace.fileName ∧
      faultedSpace.numVirtualPages = demandSpace.numVirtualPages ∧
      faultedSpace.KernelPageTable.length = demandSpace.KernelPageTable.length) ∧
    faultedKernel.fileSystem faultedSpace.fileName = some smallExe ∧
    faultedKernel.numPagesAllocated < stockConfig.NumPhysPages ∧
    (∃ sp' k', faultedSpace.DemandAllocation stockConfig faultedKernel 130 = .ok (true, sp') k' ∧
      sp'.numVirtualPages = faultedSpace.numVirtualPages ∧
      sp'.KernelPageTable.length = faultedSpace.KernelPageTable.length ∧
      k'.numPagesAllocated = faultedKernel.numPagesAllocated + 1 ∧
      (∃ e e',
        faultedSpace.KernelPageTable[((130 : ℤ) / (stockConfig.PageSize : ℤ)).toNat]? = some e ∧
        (faultedSpace.KernelPageTable[((130 : ℤ) / (stockConfig.PageSize : ℤ)).toNat]?
            = demandSpace.KernelPageTable[((130 : ℤ) / (stockConfig.PageSize : ℤ)).toNat]? →
          e.valid = false) ∧
        sp'.KernelPageTable[((130 : ℤ) / (stockConfig.PageSize : ℤ)).toNat]? = some e' ∧
        e'.valid = true ∧ e'.dirty = false ∧
        e'.physicalPage = (faultedKernel.numPagesAllocated : ℤ) ∧
        e'.virtualPage = e.virtualPage ∧ e'.use = e.use ∧ e'.readOnly = e.readOnly ∧
        e'.shared = e.shared) ∧
      (∀ j, j ≠ ((130 : ℤ) / (stockConfig.PageSize : ℤ)).toNat →
        sp'.KernelPageTable[j]? = faultedSpace.KernelPageTable[j]?) ∧
      (∀ b, b < stockConfig.PageSize →
        k'.machine.mainMemory (faultedKernel.numPagesAllocated * stockConfig.PageSize + b) =
          smallExe.data.getD
            (((((normaliseHeader stockConfig smallExe.noffH).code.inFileAddr : ℤ)
              + (130 : ℤ) / (stockConfig.PageSize : ℤ) * (stockConfig.PageSize : ℤ))
                % 4294967296).toNat + b) 0)) :=
  have hb : ProcessAddressSpace.ctorExecutable stockConfig demandBoot smallExe "small" zeroFresh
      = .ok demandSpace demandBoot := rfl
  ⟨by decide, hb, rfl, by decide, by decide, rfl, by decide,
    C5_demand_allocation stockConfig demandBoot smallExe "small" zeroFresh demandSpace
      demandBoot faultedSpace faultedKernel 130 (by decide) (by decide) hb (by decide) rfl
      (by decide) (by decide)⟩

/-- C5 fails as stated, at three inputs. (1) With all 32 frames issued, a state
that 32 faults reach from boot, `DemandAllocation(0)` on the small demand-paged
space zeroes `mainMemory[32 * 128 ..]`, past the end of the memory array: the call
has no defined result. (2) With the code segment at file offset `2^32 - 128`,
`DemandAllocation(128)` computes the 32-bit offset 0 and fills the frame with the
first bytes of the file (173 is the low byte of the magic number), while the file
has no byte at offset `2^32`. (3) The constructor does not assign `fileName`; when it
names no file, the header is read through a null handle. -/
theorem C5_counterexample :
    (ProcessAddressSpace.ctorExecutable stockConfig demandBoot smallExe "small" zeroFresh
        = .ok demandSpace demandBoot ∧
      ((run stockConfig { kernel := demandBoot, spaces := [] } faultOps).map
        fun w => (w.kernel.numPagesAllocated, w.spaces.map fun sp => sp.numVirtualPages))
        = some (fullKernel.numPagesAllocated, [demandSpace.numVirtualPages]) ∧
      fullKernel.fileSystem demandSpace.fileName = some smallExe ∧
      ((0 : ℤ) < (demandSpace.numVirtualPages : ℤ) * (stockConfig.PageSize : ℤ)) ∧
      demandSpace.DemandAllocation stockConfig fullKernel 0 = .undef) ∧
    (ProcessAddressSpace.ctorExecutable stockConfig demandBoot offsetExe "offset" zeroFresh
        = .ok offsetSpace demandBoot ∧
      demandBoot.fileSystem offsetSpace.fileName = some offsetExe ∧
      ((128 : ℤ) < (offsetSpace.numVirtualPages : ℤ) * (stockConfig.PageSize : ℤ)) ∧
      ((offsetSpace.DemandAllocation stockConfig demandBoot 128).kernel?.map
        fun k => k.machine.mainMemory (0 * 128 + 0)) = some 173 ∧
      offsetExe.data.getD
        ((normaliseHeader stockConfig offsetExe.noffH).code.inFileAddr + 128 / 128 * 128 + 0) 0
        = 0) ∧
    (ProcessAddressSpace.ctorExecutable stockConfig demandBoot smallExe "nowhere" zeroFresh
        = .ok namelessSpace demandBoot ∧
      namelessSpace.DemandAllocation stockConfig demandBoot 0 = .undef) :=
  ⟨⟨rfl, by decide, rfl, by decide, rfl⟩, ⟨rfl, rfl, by decide, by decide, by decide⟩,
    ⟨rfl, rfl⟩⟩

/-- C6. Construction from an executable, in either mode, and fork duplication end
in a failed assertion whenever `numVirtualPages + numPagesAllocated > NumPhysPages`,
and the kernel at the abort is the kernel before the call: the frame-issued counter
and physical memory are untouched. -/
theorem C6_capacity_assertion (cfg : Config) (k : Kernel) (executable : OpenFile)
    (fileName : String) (fresh : Nat → TranslationEntry) (parentSpace : ProcessAddressSpace) :
    (imagePages cfg (normaliseHeader cfg executable.noffH) + k.numPagesAllocated
        > cfg.NumPhysPages →
      ProcessAddressSpace.ctorExecutable cfg k executable fileName fresh = .fatal k) ∧
    (parentSpace.numVirtualPages + k.numPagesAllocated > cfg.NumPhysPages →
      ProcessAddressSpace.ctorParent cfg k parentSpace fresh = .fatal k) := by
  constructor
  · intro hcap
    unfold ProcessAddressSpace.ctorExecutable
    simp only []
    split
    · rfl
    · rw [if_pos (by omega)]
  · intro hcap
    unfold ProcessAddressSpace.ctorParent
    split
    · rfl
    · simp only []
      rw [if_pos (by omega)]

/-- Witness of C6: with 30 of 32 frames issued, neither the small program (9 pages)
nor a fork of the small address space fits. -/
theorem C6_capacity_assertion_witness :
    (imagePages stockConfig (normaliseHeader stockConfig smallExe.noffH)
        + busyKernel.numPagesAllocated > stockConfig.NumPhysPages ∧
      smallSpace.numVirtualPages + busyKernel.numPagesAllocated > stockConfig.NumPhysPages) ∧
    (ProcessAddressSpace.ctorExecutable stockConfig busyKernel smallExe "small" zeroFresh
        = .fatal busyKernel ∧
      ProcessAddressSpace.ctorParent stockConfig busyKernel smallSpace zeroFresh
        = .fatal busyKernel) :=
  have hthm := C6_capacity_assertion stockConfig busyKernel smallExe "small" zeroFresh
    smallSpace
  ⟨⟨by decide, by decide⟩, hthm.1 (by decide), hthm.2 (by decide)⟩

/-- C7, the code at the failing input. With all 32 frames issued and a space of 9
pages, `AllocateSharedMemory(128)` passes its assertion (`9 + 1 <= 32`), returns,
binds the new page to frame 32 and leaves the counter at 33. The state is reached
from boot by `fillOps`, and the run goes on through the call. -/
theorem C7_growth_past_capacity :
    exhaustedKernel.numPagesAllocated + 1 > stockConfig.NumPhysPages ∧
    smallSpace.AllocateSharedMemory stockConfig exhaustedKernel 128 zeroFresh
      = .ok (1152, overgrownSpace) overgrownKernel ∧
    overgrownSpace.numVirtualPages = 10 ∧
    overgrownSpace.KernelPageTable[9]? = some (sharedPage 9 32) ∧
    overgrownKernel.numPagesAllocated = 33 ∧
    ((run stockConfig { kernel := bootKernel, spaces := [] } fillOps).map
      fun w => (w.kernel.numPagesAllocated, w.spaces[0]?.map fun sp => sp.numVirtualPages))
      = some (32, some 9) ∧
    ((run stockConfig { kernel := bootKernel, spaces := [] }
        (fillOps ++ [.allocateShared 0 128 zeroFresh])).map
      fun w => (w.kernel.numPagesAllocated,
        (w.spaces[0]?.bind fun sp => sp.KernelPageTable[9]?).map fun e => e.physicalPage))
      = some (33, some 32) :=
  ⟨by decide, rfl, rfl, rfl, rfl, by decide, by decide⟩

theorem WordToHost_lt (x : Nat) : WordToHost x < 4294967296 := by
  unfold WordToHost; omega

theorem WordToHost_bytes (b0 b1 b2 b3 : Nat) (h0 : b0 < 256) (h1 : b1 < 256) (h2 : b2 < 256)
    (h3 : b3 < 256) :
    WordToHost (b0 * 16777216 + b1 * 65536 + b2 * 256 + b3)
      = b3 * 16777216 + b2 * 65536 + b1 * 256 + b0 := by
  unfold WordToHost
  omega

theorem WordToHost_WordToHost (x : Nat) (hx : x < 4294967296) :
    WordToHost (WordToHost x) = x := by
  have h : WordToHost x = (x % 256) * 16777216 + (x / 256 % 256) * 65536
      + (x / 65536 % 256) * 256 + (x / 16777216 % 256) := rfl
  rw [h, WordToHost_bytes _ _ _ _ (Nat.mod_lt _ (by norm_num)) (Nat.mod_lt _ (by norm_num))
    (Nat.mod_lt _ (by norm_num)) (Nat.mod_lt _ (by norm_num))]
  have e1 : x / 65536 = x / 256 / 256 := by rw [Nat.div_div_eq_div_mul]
  have e2 : x / 16777216 = x / 256 / 256 / 256 := by
    rw [Nat.div_div_eq_div_mul, Nat.div_div_eq_div_mul]
  rw [e1, e2]
  omega

theorem SwapHeader_SwapHeader (h : NoffHeader) (hwf : h.wf) : SwapHeader (SwapHeader h) = h := by
  obtain ⟨hm, ⟨c1, c2, c3⟩, ⟨i1, i2, i3⟩, ⟨u1, u2, u3⟩⟩ := hwf
  unfold SwapHeader
  simp only [WordToHost_WordToHost _ hm, WordToHost_WordToHost _ c1,
    WordToHost_WordToHost _ c2, WordToHost_WordToHost _ c3, WordToHost_WordToHost _ i1,
    WordToHost_WordToHost _ i2, WordToHost_WordToHost _ i3, WordToHost_WordToHost _ u1,
    WordToHost_WordToHost _ u2, WordToHost_WordToHost _ u3]

/-- A word stored with its bytes in the opposite order reads as its `WordToHost`. -/
theorem storedWord_true (w : Nat) : storedWord true w = WordToHost w := by
  simp only [storedWord, hostWord, wordBytes, WordToHost, if_true, List.reverse_cons,
    List.reverse_nil, List.nil_append, List.cons_append, List.getD_cons_zero,
    List.getD_cons_succ]
  omega

/-- A 32-bit word stored in native order reads as itself. -/
theorem storedWord_false (w : Nat) (hw : w < 4294967296) : storedWord false w = w := by
  simp only [storedWord, hostWord, wordBytes, Bool.false_eq_true, if_false,
    List.getD_cons_zero, List.getD_cons_succ]
  omega

/-- A header of 32-bit words stored in native order reads as itself. -/
theorem stored_false (h : NoffHeader) (hwf : h.wf) : h.stored false = h := by
  obtain ⟨hm, ⟨c1, c2, c3⟩, ⟨i1, i2, i3⟩, ⟨u1, u2, u3⟩⟩ := hwf
  simp only [NoffHeader.stored, Segment.stored, storedWord_false _ hm, storedWord_false _ c1,
    storedWord_false _ c2, storedWord_false _ c3, storedWord_false _ i1,
    storedWord_false _ i2, storedWord_false _ i3, storedWord_false _ u1,
    storedWord_false _ u2, storedWord_false _ u3]

/-- What `SwapHeader` makes of a header that was stored byte-swapped and whose magic
only matches after the swap. -/
theorem normaliseHeader_stored_true (cfg : Config) (H : NoffHeader)
    (hasym : storedWord true cfg.NOFFMAGIC ≠ cfg.NOFFMAGIC) (hH : H.wf)
    (hmagic : H.noffMagic = cfg.NOFFMAGIC) :
    normaliseHeader cfg (H.stored true) = H := by
  obtain ⟨hm, ⟨c1, c2, c3⟩, ⟨i1, i2, i3⟩, ⟨u1, u2, u3⟩⟩ := hH
  have hm1 : (H.stored true).noffMagic = WordToHost cfg.NOFFMAGIC := by
    rw [← hmagic, ← storedWord_true]; rfl
  rw [storedWord_true] at hasym
  unfold normaliseHeader
  rw [if_pos ⟨by rw [hm1]; exact hasym, by
    rw [hm1, WordToHost_WordToHost _ (by rw [← hmagic]; exact hm)]⟩]
  simp only [SwapHeader, NoffHeader.stored, Segment.stored, storedWord_true,
    WordToHost_WordToHost _ hm, WordToHost_WordToHost _ c1,
    WordToHost_WordToHost _ c2, WordToHost_WordToHost _ c3, WordToHost_WordToHost _ i1,
    WordToHost_WordToHost _ i2, WordToHost_WordToHost _ i3, WordToHost_WordToHost _ u1,
    WordToHost_WordToHost _ u2, WordToHost_WordToHost _ u3]

/-- C8. Let the magic number differ from the word that its four bytes give in the
opposite order, as `0xbadfad` does. For every header `H` of 32-bit words whose magic
is `NOFFMAGIC`: the words read from `H` stored in native order are `H` itself, and
both the header read from `H` stored in native order and the header read from `H`
stored with the four bytes of every 32-bit field in the opposite order normalise to
`H`, hence to the same three segment descriptors, field by field; and `SwapHeader`
applied twice to any header of 32-bit words gives that header back. The stored
forms are given byte by byte, without `SwapHeader` or `WordToHost`. -/
theorem C8_byte_order_normalisation (cfg : Config) (H : NoffHeader)
    (hasym : storedWord true cfg.NOFFMAGIC ≠ cfg.NOFFMAGIC) (hH : H.wf)
    (hmagic : H.noffMagic = cfg.NOFFMAGIC) :
    H.stored false = H ∧
    (∀ byteSwapped : Bool, normaliseHeader cfg (H.stored byteSwapped) = H) ∧
    ((normaliseHeader cfg (H.stored true)).code.size = H.code.size ∧
      (normaliseHeader cfg (H.stored true)).code.virtualAddr = H.code.virtualAddr ∧
      (normaliseHeader cfg (H.stored true)).code.inFileAddr = H.code.inFileAddr ∧
      (normaliseHeader cfg (H.stored true)).initData.size = H.initData.size ∧
      (normaliseHeader cfg (H.stored true)).initData.virtualAddr = H.initData.virtualAddr ∧
      (normaliseHeader cfg (H.stored true)).initData.inFileAddr = H.initData.inFileAddr ∧
      (normaliseHeader cfg (H.stored true)).uninitData.size = H.uninitData.size ∧
      (normaliseHeader cfg (H.stored true)).uninitData.virtualAddr
        = H.uninitData.virtualAddr ∧
      (normaliseHeader cfg (H.stored true)).uninitData.inFileAddr
        = H.uninitData.inFileAddr) ∧
    ((normaliseHeader cfg (H.stored true)).code
        = (normaliseHeader cfg (H.stored false)).code ∧
      (normaliseHeader cfg (H.stored true)).initData
        = (normaliseHeader cfg (H.stored false)).initData ∧
      (normaliseHeader cfg (H.stored true)).uninitData
        = (normaliseHeader cfg (H.stored false)).uninitData) ∧
    ∀ h : NoffHeader, h.wf → SwapHeader (SwapHeader h) = h := by
  have h0 : H.stored false = H := stored_false H hH
  have h1 : normaliseHeader cfg (H.stored false) = H := by
    rw [h0]
    unfold normaliseHeader
    rw [if_neg (fun hc => hc.1 hmagic)]
  have h2 : normaliseHeader cfg (H.stored true) = H :=
    normaliseHeader_stored_true cfg H hasym hH hmagic
  refine ⟨h0, ?_, ?_, ?_, SwapHeader_SwapHeader⟩
  · intro byteSwapped
    cases byteSwapped
    · exact h1
    · exact h2
  · rw [h2]
    exact ⟨rfl, rfl, rfl, rfl, rfl, rfl, rfl, rfl, rfl⟩
  · rw [h1, h2]
    exact ⟨rfl, rfl, rfl⟩

/-- Witness of C8: the header of the small program under the stock constants; stored
byte-swapped it reads as `foreignHeader`, whose magic word is `0xaddfba00`. -/
theorem C8_byte_order_normalisation_witness :
    (storedWord true stockConfig.NOFFMAGIC ≠ stockConfig.NOFFMAGIC ∧ smallHeader.wf ∧
      smallHeader.noffMagic = stockConfig.NOFFMAGIC) ∧
    (smallHeader.stored true = foreignHeader ∧ foreignHeader ≠ smallHeader ∧
      normaliseHeader stockConfig foreignHeader = smallHeader) ∧
    (smallHeader.stored false = smallHeader ∧
      (∀ byteSwapped : Bool,
        normaliseHeader stockConfig (smallHeader.stored byteSwapped) = smallHeader) ∧
      ((normaliseHeader stockConfig (smallHeader.stored true)).code.size
          = smallHeader.code.size ∧
        (normaliseHeader stockConfig (smallHeader.stored true)).code.virtualAddr
          = smallHeader.code.virtualAddr ∧
        (normaliseHeader stockConfig (smallHeader.stored true)).code.inFileAddr
          = smallHeader.code.inFileAddr ∧
        (normaliseHeader stockConfig (smallHeader.stored true)).initData.size
          = smallHeader.initData.size ∧
        (normaliseHeader stockConfig (smallHeader.stored true)).initData.virtualAddr
          = smallHeader.initData.virtualAddr ∧
        (normaliseHeader stockConfig (smallHeader.stored true)).initData.inFileAddr
          = smallHeader.initData.inFileAddr ∧
        (normaliseHeader stockConfig (smallHeader.stored true)).uninitData.size
          = smallHeader.uninitData.size ∧
        (normaliseHeader stockConfig (smallHeader.stored true)).uninitData.virtualAddr
          = smallHeader.uninitData.virtualAddr ∧
        (normaliseHeader stockConfig (smallHeader.stored true)).uninitData.inFileAddr
          = smallHeader.uninitData.inFileAddr) ∧
      ((normaliseHeader stockConfig (smallHeader.stored true)).code
          = (normaliseHeader stockConfig (smallHeader.stored false)).code ∧
        (normaliseHeader stockConfig (smallHeader.stored true)).initData
          = (normaliseHeader stockConfig (smallHeader.stored false)).initData ∧
        (normaliseHeader stockConfig (smallHeader.stored true)).uninitData
          = (normaliseHeader stockConfig (smallHeader.stored false)).uninitData) ∧
      ∀ h : NoffHeader, h.wf → SwapHeader (SwapHeader h) = h) :=
  ⟨⟨by decide, by decide, rfl⟩, ⟨by decide, by decide, by decide⟩,
    C8_byte_order_normalisation stockConfig smallHeader (by decide) (by decide) rfl⟩

/-- `DemandAllocation` ends in the failed magic assertion when it reaches the header
read (a frame is left, the file opens) and the magic matches in neither form. -/
theorem DemandAllocation_fatal_magic (cfg : Config) (k : Kernel) (sp : ProcessAddressSpace)
    (vpaddress : Int) (f : OpenFile)
    (hpool : k.numPagesAllocated < cfg.NumPhysPages)
    (hopen : k.fileSystem sp.fileName = some f)
    (hmagic : ¬ magicCheckPasses cfg f.noffH) :
    (sp.DemandAllocation cfg k vpaddress).isFatal = true := by
  have hmem : k.numPagesAllocated * cfg.PageSize + cfg.PageSize ≤ cfg.MemorySize :=
    mul_succ_le_of_lt hpool
  unfold magicCheckPasses at hmagic
  unfold ProcessAddressSpace.DemandAllocation
  simp only [GetNextFreePage, hmem, not_true_eq_false, if_false, hopen, hmagic, ne_eq,
    not_false_eq_true, if_true, Outcome.isFatal]

/-- C9. The magic check passes exactly when the magic field read from the file
equals `NOFFMAGIC` directly or after `WordToHost`. When it matches only after the
swap, the header in use is the swapped header: each of the nine size and address
fields is the `WordToHost` of the field read. When it matches in neither form,
construction from the executable ends in the failed assertion with the kernel
untouched, and a `DemandAllocation` that reaches the header read (a frame is left
for `bzero`, and the executable opens) ends in the failed assertion too. -/
theorem C9_magic_check (cfg : Config) (h : NoffHeader) :
    (magicCheckPasses cfg h ↔
      (h.noffMagic = cfg.NOFFMAGIC ∨ WordToHost h.noffMagic = cfg.NOFFMAGIC)) ∧
    ((h.noffMagic ≠ cfg.NOFFMAGIC ∧ WordToHost h.noffMagic = cfg.NOFFMAGIC) →
      normaliseHeader cfg h = SwapHeader h ∧
      (normaliseHeader cfg h).code.size = WordToHost h.code.size ∧
      (normaliseHeader cfg h).code.virtualAddr = WordToHost h.code.virtualAddr ∧
      (normaliseHeader cfg h).code.inFileAddr = WordToHost h.code.inFileAddr ∧
      (normaliseHeader cfg h).initData.size = WordToHost h.initData.size ∧
      (normaliseHeader cfg h).initData.virtualAddr = WordToHost h.initData.virtualAddr ∧
      (normaliseHeader cfg h).initData.inFileAddr = WordToHost h.initData.inFileAddr ∧
      (normaliseHeader cfg h).uninitData.size = WordToHost h.uninitData.size ∧
      (normaliseHeader cfg h).uninitData.virtualAddr = WordToHost h.uninitData.virtualAddr ∧
      (normaliseHeader cfg h).uninitData.inFileAddr = WordToHost h.uninitData.inFileAddr) ∧
    (¬ (h.noffMagic = cfg.NOFFMAGIC ∨ WordToHost h.noffMagic = cfg.NOFFMAGIC) →
      ∀ (k : Kernel) (executable : OpenFile) (fileName : String)
        (fresh : Nat → TranslationEntry) (sp : ProcessAddressSpace) (vpaddress : ℤ),
        executable.noffH = h →
        ProcessAddressSpace.ctorExecutable cfg k executable fileName fresh = .fatal k ∧
        (k.numPagesAllocated < cfg.NumPhysPages →
          k.fileSystem sp.fileName = some executable →
          (sp.DemandAllocation cfg k vpaddress).isFatal = true)) := by
  have hiff : magicCheckPasses cfg h ↔
      (h.noffMagic = cfg.NOFFMAGIC ∨ WordToHost h.noffMagic = cfg.NOFFMAGIC) := by
    unfold magicCheckPasses normaliseHeader
    by_cases h1 : h.noffMagic = cfg.NOFFMAGIC
    · rw [if_neg (fun hc => hc.1 h1)]
      exact ⟨fun _ => Or.inl h1, fun _ => h1⟩
    · by_cases h2 : WordToHost h.noffMagic = cfg.NOFFMAGIC
      · rw [if_pos ⟨h1, h2⟩]
        exact ⟨fun _ => Or.inr h2, fun _ => h2⟩
      · rw [if_neg (fun hc => h2 hc.2)]
        exact ⟨fun hc => absurd hc h1, fun hc => hc.elim (absurd · h1) (absurd · h2)⟩
  refine ⟨hiff, ?_, ?_⟩
  · intro hsw
    have e : normaliseHeader cfg h = SwapHeader h := by
      unfold normaliseHeader
      rw [if_pos hsw]
    rw [e]
    exact ⟨rfl, rfl, rfl, rfl, rfl, rfl, rfl, rfl, rfl, rfl⟩
  · intro hno k executable fileName fresh sp vpaddress hh
    subst hh
    have hfail : ¬ magicCheckPasses cfg executable.noffH := fun hc => hno (hiff.mp hc)
    exact ⟨ctorExecutable_fatal_magic cfg k executable fileName fresh hfail,
      fun hpool hopen => DemandAllocation_fatal_magic cfg k sp vpaddress executable hpool hopen
        hfail⟩

/-- Witness of C9: the byte-swapped header of the small program matches only after
the swap, and the header with magic number 1 matches in neither form. -/
theorem C9_magic_check_witness :
    ((swappedHeader.noffMagic ≠ stockConfig.NOFFMAGIC ∧
        WordToHost swappedHeader.noffMagic = stockConfig.NOFFMAGIC) ∧
      magicCheckPasses stockConfig swappedHeader ∧
      normaliseHeader stockConfig swappedHeader = SwapHeader swappedHeader) ∧
    (¬ (badHeader.noffMagic = stockConfig.NOFFMAGIC ∨
        WordToHost badHeader.noffMagic = stockConfig.NOFFMAGIC) ∧
      badExe.noffH = badHeader ∧
      demandBoot.numPagesAllocated < stockConfig.NumPhysPages ∧
      demandBoot.fileSystem badSpace.fileName = some badExe ∧
      ProcessAddressSpace.ctorExecutable stockConfig demandBoot badExe "bad" zeroFresh
        = .fatal demandBoot ∧
      (badSpace.DemandAllocation stockConfig demandBoot 0).isFatal = true) :=
  have hsw : swappedHeader.noffMagic ≠ stockConfig.NOFFMAGIC ∧
      WordToHost swappedHeader.noffMagic = stockConfig.NOFFMAGIC := by decide
  have hbad : ¬ (badHeader.noffMagic = stockConfig.NOFFMAGIC ∨
      WordToHost badHeader.noffMagic = stockConfig.NOFFMAGIC) := by decide
  have h1 := C9_magic_check stockConfig swappedHeader
  have h2 := (C9_magic_check stockConfig badHeader).2.2 hbad demandBoot badExe "bad" zeroFresh
    badSpace 0 rfl
  ⟨⟨hsw, h1.1.mpr (Or.inr hsw.2), (h1.2.1 hsw).1⟩,
    ⟨hbad, rfl, by decide, rfl, h2.1, h2.2 (by decide) rfl⟩⟩

/-! ## The frame-ownership invariant -/

/-- Transfer of the invariant: every private slot of the new world is a private
slot of the old world or holds a frame issued in between, and the new frames are
held by one slot each. -/
theorem inv_transfer (w w' : World) (hI : w.FramesIssued) (hN : w.NoPrivateAliasing)
    (hc : w.kernel.numPagesAllocated ≤ w'.kernel.numPagesAllocated)
    (hslot : ∀ a i e, w'.PrivateSlot a i e → w.PrivateSlot a i e ∨
      ((w.kernel.numPagesAllocated : Int) ≤ e.physicalPage ∧
        e.physicalPage < (w'.kernel.numPagesAllocated : Int)))
    (hnew : ∀ a i e b j e', w'.PrivateSlot a i e → w'.PrivateSlot b j e' →
      (w.kernel.numPagesAllocated : Int) ≤ e.physicalPage →
      e.physicalPage = e'.physicalPage → a = b ∧ i = j) :
    w'.FramesIssued ∧ w'.NoPrivateAliasing := by
  have hc' : (w.kernel.numPagesAllocated : Int) ≤ (w'.kernel.numPagesAllocated : Int) := by
    exact_mod_cast hc
  constructor
  · intro a i e hs
    rcases hslot a i e hs with hold | hn
    · have := hI a i e hold
      omega
    · omega
  · intro a i e b j e' hs hs' heq
    by_cases hge : (w.kernel.numPagesAllocated : Int) ≤ e.physicalPage
    · exact hnew a i e b j e' hs hs' hge heq
    · rcases hslot a i e hs with hold | hn
      · rcases hslot b j e' hs' with hold' | hn'
        · exact hN a i e b j e' hold hold' heq
        · omega
      · omega

/-- The invariant when a space is added. -/
theorem inv_append (w : World) (sp : ProcessAddressSpace) (k' : Kernel)
    (hI : w.FramesIssued) (hN : w.NoPrivateAliasing)
    (hc : w.kernel.numPagesAllocated ≤ k'.numPagesAllocated)
    (hsp : ∀ (i : ℕ) (e : TranslationEntry), sp.KernelPageTable[i]? = some e →
      e.valid = true → e.shared = false →
      (w.kernel.numPagesAllocated : Int) ≤ e.physicalPage ∧
        e.physicalPage < (k'.numPagesAllocated : Int))
    (hinj : ∀ (i j : ℕ) (e e' : TranslationEntry), sp.KernelPageTable[i]? = some e →
      sp.KernelPageTable[j]? = some e' → e.valid = true → e.shared = false →
      e'.valid = true → e'.shared = false → e.physicalPage = e'.physicalPage → i = j) :
    World.FramesIssued { kernel := k', spaces := w.spaces ++ [sp] } ∧
    World.NoPrivateAliasing { kernel := k', spaces := w.spaces ++ [sp] } := by
  have hcase : ∀ a i e,
      World.PrivateSlot { kernel := k', spaces := w.spaces ++ [sp] } a i e →
      w.PrivateSlot a i e ∨
        (a = w.spaces.length ∧ sp.KernelPageTable[i]? = some e ∧ e.valid = true ∧
          e.shared = false) := by
    rintro a i e ⟨s, hs, he, hv, hsh⟩
    simp only at hs
    rw [List.getElem?_append] at hs
    by_cases hlt : a < w.spaces.length
    · rw [if_pos hlt] at hs
      exact Or.inl ⟨s, hs, he, hv, hsh⟩
    · rw [if_neg hlt] at hs
      have ha : a - w.spaces.length = 0 := by
        by_contra hne
        obtain ⟨m, hm⟩ := Nat.exists_eq_succ_of_ne_zero hne
        rw [hm] at hs
        simp at hs
      rw [ha] at hs
      simp at hs
      subst hs
      exact Or.inr ⟨by omega, he, hv, hsh⟩
  refine inv_transfer w _ hI hN hc ?_ ?_
  · intro a i e hs
    rcases hcase a i e hs with hold | ⟨_, he, hv, hsh⟩
    · exact Or.inl hold
    · exact Or.inr (hsp i e he hv hsh)
  · intro a i e b j e' hs hs' hge heq
    rcases hcase a i e hs with hold | ⟨ha, he, hv, hsh⟩
    · have := hI a i e hold
      omega
    · rcases hcase b j e' hs' with hold' | ⟨hb, he', hv', hsh'⟩
      · have := hI b j e' hold'
        omega
      · exact ⟨by omega, hinj i j e e' he he' hv hsh hv' hsh' heq⟩

/-- The invariant when a space is replaced by a later state of itself. -/
theorem inv_set (w : World) (a0 : Nat) (sp sp' : ProcessAddressSpace) (k' : Kernel)
    (hsp0 : w.spaces[a0]? = some sp)
    (hI : w.FramesIssued) (hN : w.NoPrivateAliasing)
    (hc : w.kernel.numPagesAllocated ≤ k'.numPagesAllocated)
    (hsp : ∀ (i : ℕ) (e : TranslationEntry), sp'.KernelPageTable[i]? = some e →
      e.valid = true → e.shared = false →
      sp.KernelPageTable[i]? = some e ∨
        ((w.kernel.numPagesAllocated : Int) ≤ e.physicalPage ∧
          e.physicalPage < (k'.numPagesAllocated : Int)))
    (hinj : ∀ (i j : ℕ) (e e' : TranslationEntry), sp'.KernelPageTable[i]? = some e →
      sp'.KernelPageTable[j]? = some e' → e.valid = true → e.shared = false →
      e'.valid = true → e'.shared = false →
      (w.kernel.numPagesAllocated : Int) ≤ e.physicalPage →
      e.physicalPage = e'.physicalPage → i = j) :
    World.FramesIssued { kernel := k', spaces := w.spaces.set a0 sp' } ∧
    World.NoPrivateAliasing { kernel := k', spaces := w.spaces.set a0 sp' } := by
  have ha0 : a0 < w.spaces.length := by
    rcases List.getElem?_eq_some.mp hsp0 with ⟨hl, _⟩
    exact hl
  have hcase : ∀ a i e,
      World.PrivateSlot { kernel := k', spaces := w.spaces.set a0 sp' } a i e →
      (a ≠ a0 ∧ w.PrivateSlot a i e) ∨
        (a = a0 ∧ sp'.KernelPageTable[i]? = some e ∧ e.valid = true ∧ e.shared = false) := by
    rintro a i e ⟨s, hs, he, hv, hsh⟩
    simp only at hs
    rw [List.getElem?_set] at hs
    by_cases heq : a0 = a
    · rw [if_pos heq, if_pos ha0] at hs
      cases hs
      exact Or.inr ⟨heq.symm, he, hv, hsh⟩
    · rw [if_neg heq] at hs
      exact Or.inl ⟨fun h => heq h.symm, s, hs, he, hv, hsh⟩
  refine inv_transfer w _ hI hN hc ?_ ?_
  · intro a i e hs
    rcases hcase a i e hs with ⟨_, hold⟩ | ⟨ha, he, hv, hsh⟩
    · exact Or.inl hold
    · rcases hsp i e he hv hsh with hold | hn
      · exact Or.inl ⟨sp, by rw [ha]; exact hsp0, hold, hv, hsh⟩
      · exact Or.inr hn
  · intro a i e b j e' hs hs' hge heq
    rcases hcase a i e hs with ⟨_, hold⟩ | ⟨ha, he, hv, hsh⟩
    · have := hI a i e hold
      omega
    · rcases hcase b j e' hs' with ⟨_, hold'⟩ | ⟨hb, he', hv', hsh'⟩
      · have := hI b j e' hold'
        omega
      · exact ⟨by omega, hinj i j e e' he he' hv hsh hv' hsh' hge heq⟩

theorem inv_create (cfg : Config) (w : World) (executable : OpenFile) (fileName : String)
    (fresh : Nat → TranslationEntry) (sp : ProcessAddressSpace) (k' : Kernel)
    (hI : w.FramesIssued) (hN : w.NoPrivateAliasing)
    (h : ProcessAddressSpace.ctorExecutable cfg w.kernel executable fileName fresh
      = .ok sp k') :
    World.FramesIssued { kernel := k', spaces := w.spaces ++ [sp] } ∧
    World.NoPrivateAliasing { kernel := k', spaces := w.spaces ++ [sp] } := by
  by_cases halgo : w.kernel.pageReplaceAlgo = 0
  · obtain ⟨_, _, table, mem2, mem3, htable, _, _, rfl, rfl⟩ :=
      ctorExecutable_eager_ok cfg w.kernel executable fileName fresh sp k' halgo h
    obtain ⟨hlen, hget⟩ := fillLoop_newTable _ fresh _ table htable
    have hphys : ∀ (i : ℕ) (e : TranslationEntry), table[i]? = some e →
        i < imagePages cfg (normaliseHeader cfg executable.noffH) ∧
        e.physicalPage = ((i + w.kernel.numPagesAllocated : ℕ) : ℤ) := by
      intro i e he
      have hi : i < imagePages cfg (normaliseHeader cfg executable.noffH) := by
        rw [← hlen]; exact getElem?_lt_length he
      rw [hget i hi] at he
      cases he
      exact ⟨hi, rfl⟩
    refine inv_append w _ _ hI hN (Nat.le_add_right _ _) ?_ ?_
    · intro i e he _ _
      obtain ⟨hi, hp⟩ := hphys i e he
      simp only at he ⊢
      rw [hp]
      push_cast
      have : (i : ℤ) < (imagePages cfg (normaliseHeader cfg executable.noffH) : ℤ) := by
        exact_mod_cast hi
      omega
    · intro i j e e' he he' _ _ _ _ heq
      obtain ⟨_, hp⟩ := hphys i e he
      obtain ⟨_, hp'⟩ := hphys j e' he'
      rw [hp, hp'] at heq
      have : i + w.kernel.numPagesAllocated = j + w.kernel.numPagesAllocated := by
        exact_mod_cast heq
      omega
  · obtain ⟨_, _, rfl, _, _, _, hlen, hget⟩ :=
      ctorExecutable_demand_ok cfg w.kernel executable fileName fresh sp k' halgo h
    have hinvalid : ∀ (i : ℕ) (e : TranslationEntry), sp.KernelPageTable[i]? = some e →
        e.valid = false := by
      intro i e he
      have hi : i < sp.numVirtualPages := by
        rw [← hlen]; exact getElem?_lt_length he
      rw [hget i hi] at he
      cases he
      rfl
    refine inv_append w _ _ hI hN (Nat.le_refl _) ?_ ?_
    · intro i e he hv _
      rw [hinvalid i e he] at hv
      cases hv
    · intro i j e e' he _ hv _ _ _ _
      rw [hinvalid i e he] at hv
      cases hv

/-- A child entry that is valid and not shared comes from a private parent entry
and holds the frame issued at its step. -/
theorem forkChild_private {frame : Nat} {p : TranslationEntry} {i : Nat}
    {e0 : TranslationEntry}
    (hv : (forkChild frame p i e0).valid = true) (hs : (forkChild frame p i e0).shared = false) :
    p.isPrivate = true ∧ (forkChild frame p i e0).physicalPage = (frame : ℤ) := by
  unfold forkChild at hv hs ⊢
  by_cases hc : p.valid = true ∧ p.shared = false
  · rw [if_pos hc]
    exact ⟨(isPrivate_iff p).mpr hc, rfl⟩
  · rw [if_neg hc] at hv hs
    exact absurd ⟨hv, hs⟩ hc

theorem privCount_lt_of_private (P : List TranslationEntry) (i j : Nat) (p : TranslationEntry)
    (hp : P[i]? = some p) (hpriv : p.isPrivate = true) (hij : i < j) :
    privCount P i < privCount P j := by
  have h1 := privCount_succ P i p hp
  rw [if_pos hpriv] at h1
  have h2 := privCount_mono P (show i + 1 ≤ j by omega)
  omega

theorem inv_fork (cfg : Config) (hcfg : cfg.wf) (w : World) (parentSpace : ProcessAddressSpace)
    (fresh : Nat → TranslationEntry) (child : ProcessAddressSpace) (k' : Kernel)
    (hI : w.FramesIssued) (hN : w.NoPrivateAliasing)
    (h : ProcessAddressSpace.ctorParent cfg w.kernel parentSpace fresh = .ok child k') :
    World.FramesIssued { kernel := k', spaces := w.spaces ++ [child] } ∧
    World.NoPrivateAliasing { kernel := k', spaces := w.spaces ++ [child] } := by
  obtain ⟨_, _, hlen, hdone, _, hcnt, _, _, _⟩ :=
    ctorParent_inv cfg hcfg w.kernel parentSpace fresh child k' h
  simp only at hlen hdone hcnt
  have hentry : ∀ (i : ℕ) (e : TranslationEntry), child.KernelPageTable[i]? = some e →
      e.valid = true → e.shared = false →
      i < parentSpace.numVirtualPages ∧
      ∃ p, parentSpace.KernelPageTable[i]? = some p ∧ p.isPrivate = true ∧
        e.physicalPage =
          ((w.kernel.numPagesAllocated + privCount parentSpace.KernelPageTable i : ℕ) : ℤ) := by
    intro i e he hv hs
    have hi : i < parentSpace.numVirtualPages := by
      rw [← hlen]; exact getElem?_lt_length he
    obtain ⟨p, hp, hc⟩ := hdone i hi
    rw [he] at hc
    cases hc
    obtain ⟨h1, h2⟩ := forkChild_private hv hs
    exact ⟨hi, p, hp, h1, h2⟩
  refine inv_append w _ _ hI hN (by rw [hcnt]; exact Nat.le_add_right _ _) ?_ ?_
  · intro i e he hv hs
    obtain ⟨hi, p, hp, hpriv, hpp⟩ := hentry i e he hv hs
    have h1 := privCount_succ parentSpace.KernelPageTable i p hp
    rw [if_pos hpriv] at h1
    have h2 := privCount_mono parentSpace.KernelPageTable
      (show i + 1 ≤ parentSpace.numVirtualPages by omega)
    rw [hpp, hcnt]
    push_cast
    omega
  · intro i j e e' he he' hv hs hv' hs' heq
    obtain ⟨_, p, hp, hpriv, hpp⟩ := hentry i e he hv hs
    obtain ⟨_, q, hq, hqriv, hqq⟩ := hentry j e' he' hv' hs'
    rw [hpp, hqq] at heq
    have hcount : privCount parentSpace.KernelPageTable i
        = privCount parentSpace.KernelPageTable j := by
      have : w.kernel.numPagesAllocated + privCount parentSpace.KernelPageTable i
          = w.kernel.numPagesAllocated + privCount parentSpace.KernelPageTable j := by
        exact_mod_cast heq
      omega
    rcases Nat.lt_trichotomy i j with hlt | heq' | hgt
    · have := privCount_lt_of_private _ i j p hp hpriv hlt
      omega
    · exact heq'
    · have := privCount_lt_of_private _ j i q hq hqriv hgt
      omega

theorem inv_allocateShared (cfg : Config) (w : World) (a0 : Nat) (sp : ProcessAddressSpace)
    (size : Int) (fresh : Nat → TranslationEntry) (ret : Nat) (sp' : ProcessAddressSpace)
    (k' : Kernel) (hsp0 : w.spaces[a0]? = some sp)
    (hI : w.FramesIssued) (hN : w.NoPrivateAliasing)
    (h : sp.AllocateSharedMemory cfg w.kernel size fresh = .ok (ret, sp') k') :
    World.FramesIssued { kernel := k', spaces := w.spaces.set a0 sp' } ∧
    World.NoPrivateAliasing { kernel := k', spaces := w.spaces.set a0 sp' } := by
  obtain ⟨_, hPR, _, _, _, _, _, hlen, hold, hnew, hk⟩ :=
    AllocateSharedMemory_ok cfg w.kernel sp size fresh ret sp' k' h
  have hcnt : k'.numPagesAllocated = w.kernel.numPagesAllocated
      + (requiredPages cfg sp.numVirtualPages size - sp.numVirtualPages) := by
    rw [hk]
  have hentry : ∀ (i : ℕ) (e : TranslationEntry), sp'.KernelPageTable[i]? = some e →
      e.valid = true → e.shared = false → sp.KernelPageTable[i]? = some e := by
    intro i e he _ hs
    have hi : i < requiredPages cfg sp.numVirtualPages size := by
      rw [← hlen]; exact getElem?_lt_length he
    by_cases hlt : i < sp.numVirtualPages
    · rw [← hold i hlt]; exact he
    · rw [hnew i (by omega) hi] at he
      cases he
      cases hs
  refine inv_set w a0 sp sp' k' hsp0 hI hN (by rw [hcnt]; exact Nat.le_add_right _ _) ?_ ?_
  · intro i e he hv hs
    exact Or.inl (hentry i e he hv hs)
  · intro i j e e' he _ hv hs _ _ hge _
    have := hI a0 i e ⟨sp, hsp0, hentry i e he hv hs, hv, hs⟩
    omega

theorem inv_demand (cfg : Config) (w : World) (a0 : Nat) (sp : ProcessAddressSpace)
    (vpaddress : Int) (ret : Bool) (sp' : ProcessAddressSpace) (k' : Kernel)
    (hsp0 : w.spaces[a0]? = some sp)
    (hI : w.FramesIssued) (hN : w.NoPrivateAliasing)
    (h : sp.DemandAllocation cfg w.kernel vpaddress = .ok (ret, sp') k') :
    World.FramesIssued { kernel := k', spaces := w.spaces.set a0 sp' } ∧
    World.NoPrivateAliasing { kernel := k', spaces := w.spaces.set a0 sp' } := by
  obtain ⟨f, e0, _, _, _, _, he0, _, rfl, hcnt⟩ :=
    DemandAllocation_ok cfg w.kernel sp vpaddress ret sp' k' h
  have hil : (Int.tdiv vpaddress cfg.PageSize).toNat < sp.KernelPageTable.length :=
    getElem?_lt_length he0
  have hentry : ∀ (i : ℕ) (e : TranslationEntry),
      (sp.KernelPageTable.set (Int.tdiv vpaddress cfg.PageSize).toNat
        { e0 with valid := true, dirty := false,
                  physicalPage := (w.kernel.numPagesAllocated : Int) })[i]? = some e →
      (i ≠ (Int.tdiv vpaddress cfg.PageSize).toNat ∧ sp.KernelPageTable[i]? = some e) ∨
      (i = (Int.tdiv vpaddress cfg.PageSize).toNat ∧
        e.physicalPage = (w.kernel.numPagesAllocated : Int)) := by
    intro i e he
    rw [List.getElem?_set] at he
    by_cases heq : (Int.tdiv vpaddress cfg.PageSize).toNat = i
    · rw [if_pos heq, if_pos hil] at he
      cases he
      exact Or.inr ⟨heq.symm, rfl⟩
    · rw [if_neg heq] at he
      exact Or.inl ⟨fun hh => heq hh.symm, he⟩
  refine inv_set w a0 sp _ k' hsp0 hI hN (by rw [hcnt]; exact Nat.le_succ _) ?_ ?_
  · intro i e he _ _
    rcases hentry i e he with ⟨_, hold⟩ | ⟨_, hp⟩
    · exact Or.inl hold
    · refine Or.inr ?_
      rw [hp, hcnt]
      push_cast
      omega
  · intro i j e e' he he' hv hs hv' hs' hge heq
    rcases hentry i e he with ⟨_, hold⟩ | ⟨hi, _⟩
    · have := hI a0 i e ⟨sp, hsp0, hold, hv, hs⟩
      omega
    · rcases hentry j e' he' with ⟨_, hold'⟩ | ⟨hj, _⟩
      · have := hI a0 j e' ⟨sp, hsp0, hold', hv', hs'⟩
        omega
      · omega

/-- Every operation that does not fail preserves the invariant. -/
theorem step_inv (cfg : Config) (hcfg : cfg.wf) (w w' : World) (op : Op)
    (hI : w.FramesIssued) (hN : w.NoPrivateAliasing) (h : step cfg w op = some w') :
    w'.FramesIssued ∧ w'.NoPrivateAliasing := by
  cases op with
  | configure a =>
    simp only [step] at h
    cases h
    exact ⟨fun a i e hs => hI a i e hs, fun a i e b j e' hs hs' => hN a i e b j e' hs hs'⟩
  | create executable fileName fresh =>
    simp only [step] at h
    split at h
    · rename_i sp k hc
      cases h
      exact inv_create cfg w executable fileName fresh sp k hI hN hc
    · cases h
  | fork parent fresh =>
    simp only [step] at h
    split at h
    · cases h
    · rename_i parentSpace hp
      split at h
      · rename_i child k hc
        cases h
        exact inv_fork cfg hcfg w parentSpace fresh child k hI hN hc
      · cases h
  | allocateShared space size fresh =>
    simp only [step] at h
    split at h
    · cases h
    · rename_i sp hsp
      split at h
      · rename_i r k hc
        cases h
        exact inv_allocateShared cfg w space sp size fresh r.1 r.2 k hsp hI hN hc
      · cases h
  | demand space vpaddress =>
    simp only [step] at h
    split at h
    · cases h
    · rename_i sp hsp
      split at h
      · rename_i r k hc
        cases h
        exact inv_demand cfg w space sp vpaddress r.1 r.2 k hsp hI hN hc
      · cases h

/-- Every sequence of operations in which none fails preserves the invariant. -/
theorem run_inv (cfg : Config) (hcfg : cfg.wf) (ops : List Op) (w w' : World)
    (hI : w.FramesIssued) (hN : w.NoPrivateAliasing) (h : run cfg w ops = some w') :
    w'.FramesIssued ∧ w'.NoPrivateAliasing := by
  induction ops generalizing w with
  | nil =>
    simp only [run, List.foldlM_nil] at h
    cases h
    exact ⟨hI, hN⟩
  | cons op rest ih =>
    simp only [run, List.foldlM_cons] at h
    cases hs : step cfg w op with
    | none => rw [hs] at h; cases h
    | some w1 =>
      rw [hs] at h
      obtain ⟨hI1, hN1⟩ := step_inv cfg hcfg w w1 op hI hN hs
      exact ih w1 hI1 hN1 h

/-- C10. Start with no address space, as at boot when no frame is issued, and run
any sequence of operations of the module (construction from an executable in either
mode, fork duplication, `AllocateSharedMemory`, `DemandAllocation`) in which no
operation fails. In the world reached, two distinct entries that are both valid and
not marked shared, of the same or of different address spaces, hold different
`physicalPage` values, and each of them holds a frame below the frame-issued
counter. -/
theorem C10_private_frames_not_aliased (cfg : Config) (k0 : Kernel) (ops : List Op)
    (w : World) (hcfg : cfg.wf)
    (h : run cfg { kernel := k0, spaces := [] } ops = some w) :
    (∀ (a i b j : ℕ) (sa sb : ProcessAddressSpace) (ea eb : TranslationEntry),
      w.spaces[a]? = some sa → w.spaces[b]? = some sb →
      sa.KernelPageTable[i]? = some ea → sb.KernelPageTable[j]? = some eb →
      ea.valid = true → ea.shared = false → eb.valid = true → eb.shared = false →
      (a ≠ b ∨ i ≠ j) → ea.physicalPage ≠ eb.physicalPage) ∧
    (∀ (a i : ℕ) (sa : ProcessAddressSpace) (ea : TranslationEntry),
      w.spaces[a]? = some sa → sa.KernelPageTable[i]? = some ea →
      ea.valid = true → ea.shared = false →
      0 ≤ ea.physicalPage ∧ ea.physicalPage < (w.kernel.numPagesAllocated : ℤ)) := by
  have hI0 : World.FramesIssued { kernel := k0, spaces := [] } := by
    rintro a i e ⟨s, hs, _⟩
    simp at hs
  have hN0 : World.NoPrivateAliasing { kernel := k0, spaces := [] } := by
    rintro a i e b j e' ⟨s, hs, _⟩
    simp at hs
  obtain ⟨hI, hN⟩ := run_inv cfg hcfg ops _ w hI0 hN0 h
  constructor
  · intro a i b j sa sb ea eb hsa hsb hea heb hva hsha hvb hshb hne heq
    obtain ⟨h1, h2⟩ := hN a i ea b j eb ⟨sa, hsa, hea, hva, hsha⟩ ⟨sb, hsb, heb, hvb, hshb⟩ heq
    rcases hne with hne | hne
    · exact hne h1
    · exact hne h2
  · intro a i sa ea hsa hea hva hsha
    exact hI a i ea ⟨sa, hsa, hea, hva, hsha⟩

/-- Witness of C10: the run `exampleOps` after boot, which ends with three address
spaces and 21 frames issued. -/
theorem C10_private_frames_not_aliased_witness :
    (bootKernel.numPagesAllocated = 0 ∧
      run stockConfig { kernel := bootKernel, spaces := [] } exampleOps = some exampleWorld ∧
      exampleWorld.spaces.length = 3 ∧ exampleWorld.kernel.numPagesAllocated = 21) ∧
    ((∀ (a i b j : ℕ) (sa sb : ProcessAddressSpace) (ea eb : TranslationEntry),
      exampleWorld.spaces[a]? = some sa → exampleWorld.spaces[b]? = some sb →
      sa.KernelPageTable[i]? = some ea → sb.KernelPageTable[j]? = some eb →
      ea.valid = true → ea.shared = false → eb.valid = true → eb.shared = false →
      (a ≠ b ∨ i ≠ j) → ea.physicalPage ≠ eb.physicalPage) ∧
    (∀ (a i : ℕ) (sa : ProcessAddressSpace) (ea : TranslationEntry),
      exampleWorld.spaces[a]? = some sa → sa.KernelPageTable[i]? = some ea →
      ea.valid = true → ea.shared = false →
      0 ≤ ea.physicalPage ∧ ea.physicalPage < (exampleWorld.kernel.numPagesAllocated : ℤ))) :=
  have h : run stockConfig { kernel := bootKernel, spaces := [] } exampleOps
      = some exampleWorld := rfl
  ⟨⟨rfl, h, rfl, rfl⟩,
    C10_private_frames_not_aliased stockConfig bootKernel exampleOps exampleWorld
      (by decide) h⟩

/-- C12. When construction from an executable runs in demand-paged mode
(`pageReplaceAlgo != 0`) and succeeds, the table has `numVirtualPages` entries, entry
`i` has `virtualPage == i`, `valid == false`, `physicalPage == -1`, `use == false`,
`dirty == false` and `readOnly == false`, and the kernel after the call is the kernel
before it: the frame-issued counter and every byte of physical memory are unchanged. -/
theorem C12_demand_construction (cfg : Config) (k : Kernel) (executable : OpenFile)
    (fileName : String) (fresh : Nat → TranslationEntry) (sp : ProcessAddressSpace)
    (k' : Kernel) (halgo : k.pageReplaceAlgo ≠ 0)
    (h : ProcessAddressSpace.ctorExecutable cfg k executable fileName fresh = .ok sp k') :
    sp.KernelPageTable.length = sp.numVirtualPages ∧
    (∀ i, i < sp.numVirtualPages →
      ∃ e, sp.KernelPageTable[i]? = some e ∧ e.virtualPage = i ∧ e.valid = false ∧
        e.physicalPage = -1 ∧ e.use = false ∧ e.dirty = false ∧ e.readOnly = false) ∧
    k'.numPagesAllocated = k.numPagesAllocated ∧
    (∀ a, k'.machine.mainMemory a = k.machine.mainMemory a) ∧ k' = k := by
  obtain ⟨_, _, hk, _, _, _, hlen, hget⟩ :=
    ctorExecutable_demand_ok cfg k executable fileName fresh sp k' halgo h
  subst hk
  exact ⟨hlen, fun i hi => ⟨_, hget i hi, rfl, rfl, rfl, rfl, rfl, rfl⟩, rfl, fun _ => rfl, rfl⟩

/-- Witness of C12: the small program is built in demand-paged mode after boot. -/
theorem C12_demand_construction_witness :
    (demandBoot.pageReplaceAlgo ≠ 0 ∧
      ProcessAddressSpace.ctorExecutable stockConfig demandBoot smallExe "small" zeroFresh
        = .ok demandSpace demandBoot) ∧
    (demandSpace.KernelPageTable.length = demandSpace.numVirtualPages ∧
    (∀ i, i < demandSpace.numVirtualPages →
      ∃ e, demandSpace.KernelPageTable[i]? = some e ∧ e.virtualPage = i ∧ e.valid = false ∧
        e.physicalPage = -1 ∧ e.use = false ∧ e.dirty = false ∧ e.readOnly = false) ∧
    demandBoot.numPagesAllocated = demandBoot.numPagesAllocated ∧
    (∀ a, demandBoot.machine.mainMemory a = demandBoot.machine.mainMemory a) ∧
    demandBoot = demandBoot) :=
  have h : ProcessAddressSpace.ctorExecutable stockConfig demandBoot smallExe "small" zeroFresh
      = .ok demandSpace demandBoot := rfl
  ⟨⟨by decide, h⟩,
    C12_demand_construction stockConfig demandBoot smallExe "small" zeroFresh demandSpace
      demandBoot (by decide) h⟩

/-- C13. After a successful eager construction the table has `numVirtualPages`
entries, entry `i` has `virtualPage == i`, `valid == true`, `readOnly == false`,
`use == false` and `dirty == false`, and the frame-issued counter is its value before
the call plus `numVirtualPages`. -/
theorem C13_eager_entries_and_counter (cfg : Config) (k : Kernel) (executable : OpenFile)
    (fileName : String) (fresh : Nat → TranslationEntry) (sp : ProcessAddressSpace)
    (k' : Kernel) (halgo : k.pageReplaceAlgo = 0)
    (h : ProcessAddressSpace.ctorExecutable cfg k executable fileName fresh = .ok sp k') :
    sp.KernelPageTable.length = sp.numVirtualPages ∧
    (∀ i, i < sp.numVirtualPages →
      ∃ e, sp.KernelPageTable[i]? = some e ∧ e.virtualPage = i ∧ e.valid = true ∧
        e.readOnly = false ∧ e.use = false ∧ e.dirty = false) ∧
    k'.numPagesAllocated = k.numPagesAllocated + sp.numVirtualPages := by
  obtain ⟨_, _, table, mem2, mem3, htable, _, _, rfl, rfl⟩ :=
    ctorExecutable_eager_ok cfg k executable fileName fresh sp k' halgo h
  obtain ⟨hlen, hget⟩ := fillLoop_newTable _ fresh _ table htable
  exact ⟨hlen, fun i hi => ⟨_, hget i hi, rfl, rfl, rfl, rfl, rfl⟩, rfl⟩

/-- Witness of C13: the small program loaded eagerly after boot. -/
theorem C13_eager_entries_and_counter_witness :
    (bootKernel.pageReplaceAlgo = 0 ∧
      ProcessAddressSpace.ctorExecutable stockConfig bootKernel smallExe "small" zeroFresh
        = .ok smallSpace smallKernel) ∧
    (smallSpace.KernelPageTable.length = smallSpace.numVirtualPages ∧
    (∀ i, i < smallSpace.numVirtualPages →
      ∃ e, smallSpace.KernelPageTable[i]? = some e ∧ e.virtualPage = i ∧ e.valid = true ∧
        e.readOnly = false ∧ e.use = false ∧ e.dirty = false) ∧
    smallKernel.numPagesAllocated = bootKernel.numPagesAllocated + smallSpace.numVirtualPages) :=
  have h : ProcessAddressSpace.ctorExecutable stockConfig bootKernel smallExe "small" zeroFresh
      = .ok smallSpace smallKernel := rfl
  ⟨⟨rfl, h⟩,
    C13_eager_entries_and_counter stockConfig bootKernel smallExe "small" zeroFresh smallSpace
      smallKernel rfl h⟩

theorem issueFrames_spec (hints : List Int) (k : Kernel) :
    (issueFrames k hints).1 = (List.range hints.length).map (fun i => k.numPagesAllocated + i) ∧
    (issueFrames k hints).2 =
      { k with numPagesAllocated := k.numPagesAllocated + hints.length } := by
  induction hints generalizing k with
  | nil => exact ⟨rfl, rfl⟩
  | cons hint rest ih =>
    obtain ⟨h1, h2⟩ := ih (GetNextFreePage k hint).2
    constructor
    · show (GetNextFreePage k hint).1 :: (issueFrames (GetNextFreePage k hint).2 rest).1 = _
      rw [h1, List.length_cons, List.range_succ_eq_map, List.map_cons, List.map_map]
      simp only [GetNextFreePage, Nat.add_zero]
      congr 1
      apply List.map_congr_left
      intro i _
      simp only [Function.comp]
      omega
    · show (issueFrames (GetNextFreePage k hint).2 rest).2 = _
      rw [h2]
      simp only [GetNextFreePage, List.length_cons]
      congr 1
      omega

/-- C16. For every hint and every value of `pageReplaceAlgo`, `GetNextFreePage`
returns the value the frame-issued counter had before the call and leaves the
kernel unchanged but for the counter, which grows by one. Hence two calls with
different hints from the same state return the same frame, and successive calls,
whatever their hints, return the frames `numPagesAllocated`,
`numPagesAllocated + 1`, ...: strictly increasing and pairwise distinct. -/
theorem C16_next_free_page (k : Kernel) (algo : Int) (hint hint' : Int) (hints : List Int) :
    (GetNextFreePage { k with pageReplaceAlgo := algo } hint).1 = k.numPagesAllocated ∧
    (GetNextFreePage { k with pageReplaceAlgo := algo } hint).2 =
      { k with pageReplaceAlgo := algo, numPagesAllocated := k.numPagesAllocated + 1 } ∧
    (GetNextFreePage k hint).1 = (GetNextFreePage k hint').1 ∧
    (issueFrames k hints).1.length = hints.length ∧
    (∀ i, i < hints.length → (issueFrames k hints).1[i]? = some (k.numPagesAllocated + i)) ∧
    (issueFrames k hints).1.Pairwise (fun x y => x < y) ∧
    (issueFrames k hints).1.Nodup ∧
    (issueFrames k hints).2.numPagesAllocated = k.numPagesAllocated + hints.length := by
  obtain ⟨h1, h2⟩ := issueFrames_spec hints k
  have hpw : (issueFrames k hints).1.Pairwise (fun x y => x < y) := by
    rw [h1, List.pairwise_map]
    exact (List.pairwise_lt_range hints.length).imp (fun hab => by omega)
  refine ⟨rfl, rfl, rfl, by rw [h1]; simp, ?_, hpw, ?_, by rw [h2]⟩
  · intro i hi
    rw [h1, List.getElem?_map, List.getElem?_range hi]
    rfl
  · exact hpw.imp (fun hab => Nat.ne_of_lt hab)

/-- C18. After a successful `AllocateSharedMemory` the page table and the page
table length published in the machine are the grown table of the address space and
its new `numVirtualPages`: the kernel is what `RestoreContextOnSwitch` of the grown
space leaves. `SaveContextOnSwitch` returns the kernel it is given. -/
theorem C18_growth_republishes_table (cfg : Config) (k : Kernel) (sp : ProcessAddressSpace)
    (size : Int) (fresh : Nat → TranslationEntry) (ret : Nat) (sp' : ProcessAddressSpace)
    (k' : Kernel)
    (h : sp.AllocateSharedMemory cfg k size fresh = .ok (ret, sp') k') :
    k'.machine.KernelPageTable = sp'.KernelPageTable ∧
    k'.machine.KernelPageTableSize = sp'.numVirtualPages ∧
    sp'.RestoreContextOnSwitch k' = k' ∧
    (∃ k1, k' = sp'.RestoreContextOnSwitch k1) ∧
    (∀ (s : ProcessAddressSpace) (k2 : Kernel), s.SaveContextOnSwitch k2 = k2) := by
  obtain ⟨_, _, _, _, _, _, _, _, _, _, hk⟩ :=
    AllocateSharedMemory_ok cfg k sp size fresh ret sp' k' h
  refine ⟨by rw [hk], by rw [hk], by rw [hk]; rfl, ⟨k', by rw [hk]; rfl⟩, fun _ _ => rfl⟩

/-- Witness of C18: the small address space grows by 200 shared bytes. -/
theorem C18_growth_republishes_table_witness :
    smallSpace.AllocateSharedMemory stockConfig smallKernel 200 zeroFresh
      = .ok (1152, sharedSpace) sharedKernel ∧
    (sharedKernel.machine.KernelPageTable = sharedSpace.KernelPageTable ∧
    sharedKernel.machine.KernelPageTableSize = sharedSpace.numVirtualPages ∧
    sharedSpace.RestoreContextOnSwitch sharedKernel = sharedKernel ∧
    (∃ k1, sharedKernel = sharedSpace.RestoreContextOnSwitch k1) ∧
    (∀ (s : ProcessAddressSpace) (k2 : Kernel), s.SaveContextOnSwitch k2 = k2)) :=
  have h : smallSpace.AllocateSharedMemory stockConfig smallKernel 200 zeroFresh
      = .ok (1152, sharedSpace) sharedKernel := rfl
  ⟨h, C18_growth_republishes_table stockConfig smallKernel smallSpace 200 zeroFresh 1152
    sharedSpace sharedKernel h⟩

/-- Witness of C16: three calls with the hints -1, 5 and 7 after the small program
was loaded return the frames 9, 10 and 11. -/
theorem C16_next_free_page_witness :
    (issueFrames smallKernel [-1, 5, 7]).1 = [9, 10, 11] ∧
    ((GetNextFreePage { smallKernel with pageReplaceAlgo := 3 } 5).1
        = smallKernel.numPagesAllocated ∧
    (GetNextFreePage { smallKernel with pageReplaceAlgo := 3 } 5).2 =
      { smallKernel with pageReplaceAlgo := 3,
                         numPagesAllocated := smallKernel.numPagesAllocated + 1 } ∧
    (GetNextFreePage smallKernel 5).1 = (GetNextFreePage smallKernel 7).1 ∧
    (issueFrames smallKernel [-1, 5, 7]).1.length = [-1, 5, 7].length ∧
    (∀ i, i < [-1, 5, 7].length →
      (issueFrames smallKernel [-1, 5, 7]).1[i]? = some (smallKernel.numPagesAllocated + i)) ∧
    (issueFrames smallKernel [-1, 5, 7]).1.Pairwise (fun x y => x < y) ∧
    (issueFrames smallKernel [-1, 5, 7]).1.Nodup ∧
    (issueFrames smallKernel [-1, 5, 7]).2.numPagesAllocated
      = smallKernel.numPagesAllocated + [-1, 5, 7].length) :=
  ⟨by decide, C16_next_free_page smallKernel 3 5 7 [-1, 5, 7]⟩

/-! ## Registers -/

theorem getElem?_append_one {α : Type} {l : List α} {x y : α} {a : Nat}
    (h : (l ++ [x])[a]? = some y) : l[a]? = some y ∨ (a = l.length ∧ y = x) := by
  rw [List.getElem?_append] at h
  by_cases hlt : a < l.length
  · rw [if_pos hlt] at h
    exact Or.inl h
  · rw [if_neg hlt] at h
    have ha : a - l.length = 0 := by
      by_contra hne
      obtain ⟨m, hm⟩ := Nat.exists_eq_succ_of_ne_zero hne
      rw [hm] at h
      simp at h
    rw [ha] at h
    simp at h
    exact Or.inr ⟨by omega, h.symm⟩

theorem getElem?_set_cases {α : Type} {l : List α} {x y : α} {a0 a : Nat}
    (h : (l.set a0 x)[a]? = some y) : (a ≠ a0 ∧ l[a]? = some y) ∨ (a = a0 ∧ y = x) := by
  rw [List.getElem?_set] at h
  by_cases heq : a0 = a
  · rw [if_pos heq] at h
    split at h
    · exact Or.inr ⟨heq.symm, (Option.some.inj h).symm⟩
    · cases h
  · rw [if_neg heq] at h
    exact Or.inl ⟨fun hh => heq hh.symm, h⟩

/-- Every operation that does not fail keeps `numVirtualPages <= NumPhysPages` for
every address space: each constructor and `AllocateSharedMemory` assert it. -/
theorem step_pages_le (cfg : Config) (w w' : World) (op : Op)
    (hinv : ∀ (a : ℕ) (sp : ProcessAddressSpace), w.spaces[a]? = some sp →
      sp.numVirtualPages ≤ cfg.NumPhysPages)
    (h : step cfg w op = some w') :
    ∀ (a : ℕ) (sp : ProcessAddressSpace), w'.spaces[a]? = some sp →
      sp.numVirtualPages ≤ cfg.NumPhysPages := by
  cases op with
  | configure v =>
    simp only [step] at h
    cases h
    exact hinv
  | create executable fileName fresh =>
    simp only [step] at h
    split at h
    · rename_i sp k hc
      cases h
      intro a s hs
      rcases getElem?_append_one hs with hold | ⟨_, rfl⟩
      · exact hinv a s hold
      · by_cases halgo : w.kernel.pageReplaceAlgo = 0
        · obtain ⟨_, hcap, _, _, _, _, _, _, rfl, _⟩ :=
            ctorExecutable_eager_ok cfg w.kernel executable fileName fresh s k halgo hc
          simp only
          omega
        · obtain ⟨_, hcap, _, _, _, hn, _⟩ :=
            ctorExecutable_demand_ok cfg w.kernel executable fileName fresh s k halgo hc
          omega
    · cases h
  | fork parent fresh =>
    simp only [step] at h
    split at h
    · cases h
    · rename_i parentSpace hp
      split at h
      · rename_i child k hc
        cases h
        intro a s hs
        rcases getElem?_append_one hs with hold | ⟨_, rfl⟩
        · exact hinv a s hold
        · obtain ⟨_, _, hcap, _, hn, _⟩ := ctorParent_ok cfg w.kernel parentSpace fresh s k hc
          omega
      · cases h
  | allocateShared space size fresh =>
    simp only [step] at h
    split at h
    · cases h
    · rename_i sp hsp
      split at h
      · rename_i r k hc
        cases h
        intro a s hs
        rcases getElem?_set_cases hs with ⟨_, hold⟩ | ⟨_, rfl⟩
        · exact hinv a s hold
        · obtain ⟨hcap, _, _, _, hn, _⟩ :=
            AllocateSharedMemory_ok cfg w.kernel sp size fresh r.1 r.2 k hc
          omega
      · cases h
  | demand space vpaddress =>
    simp only [step] at h
    split at h
    · cases h
    · rename_i sp hsp
      split at h
      · rename_i r k hc
        cases h
        intro a s hs
        rcases getElem?_set_cases hs with ⟨_, hold⟩ | ⟨_, rfl⟩
        · exact hinv a s hold
        · obtain ⟨_, _, _, _, _, _, _, _, hsp', _⟩ :=
            DemandAllocation_ok cfg w.kernel sp vpaddress r.1 r.2 k hc
          rw [hsp']
          exact hinv space sp hsp
      · cases h

/-- In every world reached from a start without address spaces, every address
space has `numVirtualPages <= NumPhysPages`. -/
theorem run_pages_le (cfg : Config) (ops : List Op) (w w' : World)
    (hinv : ∀ (a : ℕ) (sp : ProcessAddressSpace), w.spaces[a]? = some sp →
      sp.numVirtualPages ≤ cfg.NumPhysPages)
    (h : run cfg w ops = some w') :
    ∀ (a : ℕ) (sp : ProcessAddressSpace), w'.spaces[a]? = some sp →
      sp.numVirtualPages ≤ cfg.NumPhysPages := by
  induction ops generalizing w with
  | nil =>
    simp only [run, List.foldlM_nil] at h
    cases h
    exact hinv
  | cons op rest ih =>
    simp only [run, List.foldlM_cons] at h
    cases hs : step cfg w op with
    | none => rw [hs] at h; cases h
    | some w1 =>
      rw [hs] at h
      exact ih w1 (step_pages_le cfg w w1 op hinv hs) h

/-- The loop of lines 308-309 zeroes the registers below `NumTotalRegs` and leaves
the rest of the machine as it is. -/
theorem zeroLoop (n : Nat) (m : Machine) :
    ∃ m0, forLoop 0 n zeroRegister m = some m0 ∧
      (∀ r, m0.registers r = if r < n then 0 else m.registers r) ∧
      m0.mainMemory = m.mainMemory ∧ m0.KernelPageTable = m.KernelPageTable ∧
      m0.KernelPageTableSize = m.KernelPageTableSize := by
  refine forLoop_total
    (fun i (m0 : Machine) =>
      (∀ r, m0.registers r = if r < i then 0 else m.registers r) ∧
      m0.mainMemory = m.mainMemory ∧ m0.KernelPageTable = m.KernelPageTable ∧
      m0.KernelPageTableSize = m.KernelPageTableSize)
    0 n zeroRegister m (Nat.zero_le _) ⟨fun r => by simp, rfl, rfl, rfl⟩ ?_
  intro i t _ _ hinv
  obtain ⟨hr, h1, h2, h3⟩ := hinv
  refine ⟨t.WriteRegister i 0, rfl, ?_, h1, h2, h3⟩
  intro r
  simp only [Machine.WriteRegister]
  by_cases hri : r = i
  · subst hri
    rw [Function.update_same, if_pos (Nat.lt_succ_self r)]
  · rw [Function.update_noteq hri, hr r]
    by_cases hlt : r < i
    · rw [if_pos hlt, if_pos (by omega)]
    · rw [if_neg hlt, if_neg (by omega)]

/-- C17. Let `sp` be an address space of a world that a run of the module reaches
from a start without address spaces. `InitUserModeCPURegisters` returns, and
afterwards the program-counter register holds 0, the next-program-counter register
holds 4, the stack register holds `numVirtualPages * PageSize - 16`, and every other
register below `NumTotalRegs` holds 0. -/
theorem C17_init_user_registers (cfg : Config) (rc : RegConfig) (k0 : Kernel)
    (ops : List Op) (w : World) (a : ℕ) (sp : ProcessAddressSpace) (k : Kernel)
    (hcfg : cfg.wf) (hrc : rc.wf)
    (hrun : run cfg { kernel := k0, spaces := [] } ops = some w)
    (hsp : w.spaces[a]? = some sp) :
    ∃ k', sp.InitUserModeCPURegisters cfg rc k = .ok () k' ∧
      k'.machine.registers rc.PCReg = 0 ∧
      k'.machine.registers rc.NextPCReg = 4 ∧
      k'.machine.registers rc.StackReg
        = (sp.numVirtualPages : ℤ) * (cfg.PageSize : ℤ) - 16 ∧
      ∀ r, r < rc.NumTotalRegs → r ≠ rc.PCReg → r ≠ rc.NextPCReg → r ≠ rc.StackReg →
        k'.machine.registers r = 0 := by
  have hle : sp.numVirtualPages ≤ cfg.NumPhysPages :=
    run_pages_le cfg ops _ w (fun a s hs => by simp at hs) hrun a sp hsp
  obtain ⟨m0, hm0, hreg, _⟩ := zeroLoop rc.NumTotalRegs k.machine
  obtain ⟨_, _, _, h1, h2, h3⟩ := hrc
  have hmul : sp.numVirtualPages * cfg.PageSize ≤ cfg.NumPhysPages * cfg.PageSize :=
    Nat.mul_le_mul_right _ hle
  have hM : cfg.NumPhysPages * cfg.PageSize < 2147483648 := hcfg.2.1
  have hstack : toInt32 (((sp.numVirtualPages * cfg.PageSize % 4294967296 : ℕ) : ℤ) - 16)
      = (sp.numVirtualPages : ℤ) * (cfg.PageSize : ℤ) - 16 := by
    rw [Nat.mod_eq_of_lt (by omega)]
    unfold toInt32
    push_cast
    have : (0 : ℤ) ≤ (sp.numVirtualPages : ℤ) * (cfg.PageSize : ℤ) := by positivity
    have : (sp.numVirtualPages : ℤ) * (cfg.PageSize : ℤ) < 2147483648 := by
      have : ((sp.numVirtualPages * cfg.PageSize : ℕ) : ℤ) < 2147483648 := by
        exact_mod_cast (by omega : sp.numVirtualPages * cfg.PageSize < 2147483648)
      simpa using this
    omega
  have hcall : sp.InitUserModeCPURegisters cfg rc k =
      .ok () { k with machine :=
        (Machine.WriteRegister ((m0.WriteRegister rc.PCReg 0).WriteRegister rc.NextPCReg 4)
          rc.StackReg
          (toInt32 (((sp.numVirtualPages * cfg.PageSize % 4294967296 : ℕ) : ℤ) - 16))) } := by
    unfold ProcessAddressSpace.InitUserModeCPURegisters
    rw [hm0]
  refine ⟨_, hcall, ?_, ?_, ?_, ?_⟩
  · simp only [Machine.WriteRegister]
    rw [Function.update_noteq (Ne.symm h1), Function.update_noteq h3, Function.update_same]
  · simp only [Machine.WriteRegister]
    rw [Function.update_noteq (Ne.symm h2), Function.update_same]
  · simp only [Machine.WriteRegister]
    rw [Function.update_same, hstack]
  · intro r hr hp hn hs
    simp only [Machine.WriteRegister]
    rw [Function.update_noteq hs, Function.update_noteq hn, Function.update_noteq hp, hreg r,
      if_pos hr]

/-- Witness of C17: the first address space of the world that `exampleOps` reaches
from boot, the small program grown to 11 pages. -/
theorem C17_init_user_registers_witness :
    (stockConfig.wf ∧ stockRegs.wf ∧
      run stockConfig { kernel := bootKernel, spaces := [] } exampleOps = some exampleWorld ∧
      exampleWorld.spaces[0]? = some sharedSpace) ∧
    (∃ k', sharedSpace.InitUserModeCPURegisters stockConfig stockRegs exampleWorld.kernel
        = .ok () k' ∧
      k'.machine.registers stockRegs.PCReg = 0 ∧
      k'.machine.registers stockRegs.NextPCReg = 4 ∧
      k'.machine.registers stockRegs.StackReg
        = (sharedSpace.numVirtualPages : ℤ) * (stockConfig.PageSize : ℤ) - 16 ∧
      ∀ r, r < stockRegs.NumTotalRegs → r ≠ stockRegs.PCReg → r ≠ stockRegs.NextPCReg →
        r ≠ stockRegs.StackReg → k'.machine.registers r = 0) :=
  have hrun : run stockConfig { kernel := bootKernel, spaces := [] } exampleOps
      = some exampleWorld := rfl
  have hsp : exampleWorld.spaces[0]? = some sharedSpace := rfl
  ⟨⟨by decide, by decide, hrun, hsp⟩,
    C17_init_user_registers stockConfig stockRegs bootKernel exampleOps exampleWorld 0
      sharedSpace exampleWorld.kernel (by decide) (by decide) hrun hsp⟩

/-- C19. A successful fork duplication started with `B` frames issued leaves every
byte below `B * PageSize`, and every byte outside the frames it issues, as it was;
it advances the counter by the number of parent entries that are valid and not
shared; and as an operation on the world it appends the child and leaves every
address space that existed, the parent with its page table included, as it was. -/
theorem C19_fork_frame_effect (cfg : Config) (k : Kernel) (parentSpace : ProcessAddressSpace)
    (fresh : Nat → TranslationEntry) (child : ProcessAddressSpace) (k' : Kernel)
    (hcfg : cfg.wf)
    (h : ProcessAddressSpace.ctorParent cfg k parentSpace fresh = .ok child k') :
    (∀ a, a < k.numPagesAllocated * cfg.PageSize →
      k'.machine.mainMemory a = k.machine.mainMemory a) ∧
    (∀ a, ¬ (k.numPagesAllocated * cfg.PageSize ≤ a ∧
        a < k'.numPagesAllocated * cfg.PageSize) →
      k'.machine.mainMemory a = k.machine.mainMemory a) ∧
    k'.numPagesAllocated = k.numPagesAllocated +
      (parentSpace.KernelPageTable.take parentSpace.numVirtualPages).countP
        (fun e => e.valid && !e.shared) ∧
    (∀ (w : World) (i : ℕ), w.kernel = k → w.spaces[i]? = some parentSpace →
      ∃ w', step cfg w (.fork i fresh) = some w' ∧ w'.kernel = k' ∧
        w'.spaces[i]? = some parentSpace ∧
        ∀ (j : ℕ) (s : ProcessAddressSpace), w.spaces[j]? = some s →
          w'.spaces[j]? = some s) := by
  obtain ⟨_, _, _, _, _, hcnt, _, hframe, _⟩ :=
    ctorParent_inv cfg hcfg k parentSpace fresh child k' h
  simp only at hcnt hframe
  have hkeep : ∀ (w : World) (j : ℕ) (s : ProcessAddressSpace), w.spaces[j]? = some s →
      (w.spaces ++ [child])[j]? = some s := by
    intro w j s hs
    have hj : j < w.spaces.length := by
      rcases List.getElem?_eq_some.mp hs with ⟨hl, _⟩
      exact hl
    rw [List.getElem?_append_left hj]
    exact hs
  refine ⟨fun a ha => hframe a (by omega), ?_, hcnt, ?_⟩
  · intro a ha
    rw [hcnt] at ha
    exact hframe a ha
  · intro w i hk hp
    subst hk
    refine ⟨{ kernel := k', spaces := w.spaces ++ [child] }, ?_, rfl, hkeep w i _ hp,
      fun j s hs => hkeep w j s hs⟩
    simp only [step, hp, h]

/-- Witness of C19: the grown small address space (nine private pages, two shared
pages) is forked with 11 frames issued. -/
theorem C19_fork_frame_effect_witness :
    (stockConfig.wf ∧
      ProcessAddressSpace.ctorParent stockConfig sharedKernel sharedSpace zeroFresh
        = .ok sharedChild sharedChildKernel ∧ sharedChildKernel.numPagesAllocated = 20) ∧
    ((∀ a, a < sharedKernel.numPagesAllocated * stockConfig.PageSize →
      sharedChildKernel.machine.mainMemory a = sharedKernel.machine.mainMemory a) ∧
    (∀ a, ¬ (sharedKernel.numPagesAllocated * stockConfig.PageSize ≤ a ∧
        a < sharedChildKernel.numPagesAllocated * stockConfig.PageSize) →
      sharedChildKernel.machine.mainMemory a = sharedKernel.machine.mainMemory a) ∧
    sharedChildKernel.numPagesAllocated = sharedKernel.numPagesAllocated +
      (sharedSpace.KernelPageTable.take sharedSpace.numVirtualPages).countP
        (fun e => e.valid && !e.shared) ∧
    (∀ (w : World) (i : ℕ), w.kernel = sharedKernel → w.spaces[i]? = some sharedSpace →
      ∃ w', step stockConfig w (.fork i zeroFresh) = some w' ∧ w'.kernel = sharedChildKernel ∧
        w'.spaces[i]? = some sharedSpace ∧
        ∀ (j : ℕ) (s : ProcessAddressSpace), w.spaces[j]? = some s →
          w'.spaces[j]? = some s)) :=
  have h : ProcessAddressSpace.ctorParent stockConfig sharedKernel sharedSpace zeroFresh
      = .ok sharedChild sharedChildKernel := rfl
  ⟨⟨by decide, h, rfl⟩,
    C19_fork_frame_effect stockConfig sharedKernel sharedSpace zeroFresh sharedChild
      sharedChildKernel (by decide) h⟩

/-! ## The memory image of eager construction -/

/-- A segment load of eager construction: the segment is empty and memory is left
alone, or its first page is a page of the table and the file is read to
`B * PageSize + virtualAddr`. -/
theorem loadSegment_eager (cfg : Config) (hcfg : cfg.wf) (executable : OpenFile)
    (table : List TranslationEntry) (n B : Nat) (seg : Segment) (mem mem' : Nat → Nat)
    (hcap : n + B ≤ cfg.NumPhysPages)
    (hphys : ∀ (j : ℕ) (e : TranslationEntry), table[j]? = some e →
      j < n ∧ e.physicalPage = ((j + B : ℕ) : ℤ))
    (h : loadSegment cfg executable table seg mem = some mem') :
    (seg.size = 0 ∧ mem' = mem) ∨
    (0 < seg.size ∧ seg.virtualAddr / cfg.PageSize < n ∧
      mem' = executable.ReadAt mem (B * cfg.PageSize + seg.virtualAddr) seg.size
        seg.inFileAddr) := by
  unfold loadSegment at h
  by_cases hs : seg.size > 0
  · rw [if_pos hs] at h
    simp only [] at h
    split at h
    · cases h
    · rename_i entry he
      obtain ⟨hvpn, hpp⟩ := hphys _ entry he
      split at h
      · cases h
        refine Or.inr ⟨hs, hvpn, ?_⟩
        have hPS := hcfg.1
        have hM : cfg.NumPhysPages * cfg.PageSize < 2147483648 := hcfg.2.1
        have hN : cfg.NumPhysPages ≤ cfg.NumPhysPages * cfg.PageSize :=
          Nat.le_mul_of_pos_right _ hPS
        have h6 : seg.virtualAddr / cfg.PageSize + B < 4294967296 := by omega
        have e1 : (entry.physicalPage % 4294967296).toNat
            = seg.virtualAddr / cfg.PageSize + B := by
          rw [hpp]
          have e0 : ((seg.virtualAddr / cfg.PageSize + B : ℕ) : ℤ) % 4294967296
              = ((seg.virtualAddr / cfg.PageSize + B : ℕ) : ℤ) :=
            Int.emod_eq_of_lt (Int.natCast_nonneg _) (by exact_mod_cast h6)
          rw [e0, Int.toNat_ofNat]
        have hlt : seg.virtualAddr / cfg.PageSize + B < cfg.NumPhysPages := by omega
        have h1 : (seg.virtualAddr / cfg.PageSize + B) * cfg.PageSize + cfg.PageSize
            ≤ cfg.NumPhysPages * cfg.PageSize := mul_succ_le_of_lt hlt
        have h3 : (seg.virtualAddr / cfg.PageSize + B) * cfg.PageSize
            = seg.virtualAddr / cfg.PageSize * cfg.PageSize + B * cfg.PageSize :=
          Nat.add_mul _ _ _
        have h4 : cfg.PageSize * (seg.virtualAddr / cfg.PageSize)
            + seg.virtualAddr % cfg.PageSize = seg.virtualAddr := Nat.div_add_mod _ _
        have h5 : seg.virtualAddr / cfg.PageSize * cfg.PageSize
            = cfg.PageSize * (seg.virtualAddr / cfg.PageSize) := Nat.mul_comm _ _
        have hmod : seg.virtualAddr % cfg.PageSize < cfg.PageSize := Nat.mod_lt _ hPS
        have e2 : ((seg.virtualAddr / cfg.PageSize + B) * cfg.PageSize
            + seg.virtualAddr % cfg.PageSize) % 4294967296
            = B * cfg.PageSize + seg.virtualAddr := by
          rw [Nat.mod_eq_of_lt (by omega)]
          omega
        rw [e1, e2]
      · cases h
  · rw [if_neg hs] at h
    cases h
    exact Or.inl ⟨by omega, rfl⟩

/-- The bytes a positioned read leaves outside its target range are unchanged. -/
theorem ReadAt_outside (f : OpenFile) (mem : Nat → Nat) (into numBytes position a : Nat)
    (h : ¬ (into ≤ a ∧ a < into + numBytes)) :
    f.ReadAt mem into numBytes position a = mem a := by
  unfold OpenFile.ReadAt
  have hb : f.bytesRead numBytes position ≤ numBytes := by
    unfold OpenFile.bytesRead; exact Nat.min_le_left _ _
  rw [if_neg (by omega)]

/-- The bytes a positioned read stores when the file holds the whole range. -/
theorem ReadAt_inside (f : OpenFile) (mem : Nat → Nat) (into numBytes position a : Nat)
    (hfile : position + numBytes ≤ f.data.length) (h : into ≤ a ∧ a < into + numBytes) :
    f.data[position + (a - into)]? = some (f.ReadAt mem into numBytes position a) := by
  unfold OpenFile.ReadAt
  have hb : f.bytesRead numBytes position = numBytes := by
    unfold OpenFile.bytesRead; omega
  rw [hb, if_pos h, List.getD_eq_getElem?_getD]
  have hlt : position + (a - into) < f.data.length := by omega
  rw [List.getElem?_eq_getElem hlt]
  rfl

/-- The memory a successful eager construction leaves, as two positioned reads over
the zeroed image. -/
theorem eager_memory (cfg : Config) (hcfg : cfg.wf) (k : Kernel) (executable : OpenFile)
    (fileName : String) (fresh : Nat → TranslationEntry) (sp : ProcessAddressSpace)
    (k' : Kernel) (halgo : k.pageReplaceAlgo = 0)
    (h : ProcessAddressSpace.ctorExecutable cfg k executable fileName fresh = .ok sp k') :
    sp.numVirtualPages = imagePages cfg (normaliseHeader cfg executable.noffH) ∧
    sp.numVirtualPages + k.numPagesAllocated ≤ cfg.NumPhysPages ∧
    ∃ mem2,
      ((normaliseHeader cfg executable.noffH).code.size = 0 ∧
          mem2 = bzero k.machine.mainMemory (k.numPagesAllocated * cfg.PageSize)
            (sp.numVirtualPages * cfg.PageSize) ∨
        0 < (normaliseHeader cfg executable.noffH).code.size ∧
          (normaliseHeader cfg executable.noffH).code.virtualAddr / cfg.PageSize
            < sp.numVirtualPages ∧
          mem2 = executable.ReadAt
            (bzero k.machine.mainMemory (k.numPagesAllocated * cfg.PageSize)
              (sp.numVirtualPages * cfg.PageSize))
            (k.numPagesAllocated * cfg.PageSize
              + (normaliseHeader cfg executable.noffH).code.virtualAddr)
            (normaliseHeader cfg executable.noffH).code.size
            (normaliseHeader cfg executable.noffH).code.inFileAddr) ∧
      ((normaliseHeader cfg executable.noffH).initData.size = 0 ∧
          k'.machine.mainMemory = mem2 ∨
        0 < (normaliseHeader cfg executable.noffH).initData.size ∧
          (normaliseHeader cfg executable.noffH).initData.virtualAddr / cfg.PageSize
            < sp.numVirtualPages ∧
          k'.machine.mainMemory = executable.ReadAt mem2
            (k.numPagesAllocated * cfg.PageSize
              + (normaliseHeader cfg executable.noffH).initData.virtualAddr)
            (normaliseHeader cfg executable.noffH).initData.size
            (normaliseHeader cfg executable.noffH).initData.inFileAddr) := by
  obtain ⟨_, hcap, table, mem2, mem3, htable, hm2, hm3, rfl, rfl⟩ :=
    ctorExecutable_eager_ok cfg k executable fileName fresh sp k' halgo h
  obtain ⟨hlen, hget⟩ := fillLoop_newTable _ fresh _ table htable
  have hphys : ∀ (j : ℕ) (e : TranslationEntry), table[j]? = some e →
      j < imagePages cfg (normaliseHeader cfg executable.noffH) ∧
      e.physicalPage = ((j + k.numPagesAllocated : ℕ) : ℤ) := by
    intro j e he
    have hj : j < imagePages cfg (normaliseHeader cfg executable.noffH) := by
      rw [← hlen]; exact getElem?_lt_length he
    rw [hget j hj] at he
    cases he
    exact ⟨hj, rfl⟩
  have hM : cfg.NumPhysPages * cfg.PageSize < 2147483648 := hcfg.2.1
  have h1 : (imagePages cfg (normaliseHeader cfg executable.noffH) + k.numPagesAllocated)
      * cfg.PageSize ≤ cfg.NumPhysPages * cfg.PageSize := Nat.mul_le_mul_right _ hcap
  have h2 : (imagePages cfg (normaliseHeader cfg executable.noffH) + k.numPagesAllocated)
      * cfg.PageSize = imagePages cfg (normaliseHeader cfg executable.noffH) * cfg.PageSize
        + k.numPagesAllocated * cfg.PageSize := Nat.add_mul _ _ _
  have hz : imagePages cfg (normaliseHeader cfg executable.noffH) * cfg.PageSize % 4294967296
      = imagePages cfg (normaliseHeader cfg executable.noffH) * cfg.PageSize :=
    Nat.mod_eq_of_lt (by omega)
  rw [hz] at hm2
  have hc := loadSegment_eager cfg hcfg executable table _ _ _ _ _ hcap hphys hm2
  have hd := loadSegment_eager cfg hcfg executable table _ _ _ _ _ hcap hphys hm3
  refine ⟨rfl, hcap, mem2, hc, ?_⟩
  rcases hd with ⟨hd0, hd1⟩ | ⟨hd0, hd1, hd2⟩
  · exact Or.inl ⟨hd0, hd1⟩
  · exact Or.inr ⟨hd0, hd1, hd2⟩

/-- C14. After a successful eager construction with `B` frames issued before, let
the code segment and the initialised-data segment share no offset and be held in
full by the file (`inFileAddr + size` is at most the file length); they may, in
particular, lie inside the image. For every offset `a` below
`numVirtualPages * PageSize`, `mainMemory[B * PageSize + a]` is the file byte at
`code.inFileAddr + (a - code.virtualAddr)` when `a` is in the code segment, the file
byte at `initData.inFileAddr + (a - initData.virtualAddr)` when `a` is in the
initialised-data segment, and 0 otherwise. -/
theorem C14_eager_memory_image (cfg : Config) (k : Kernel) (executable : OpenFile)
    (fileName : String) (fresh : Nat → TranslationEntry) (sp : ProcessAddressSpace)
    (k' : Kernel) (hcfg : cfg.wf) (halgo : k.pageReplaceAlgo = 0)
    (h : ProcessAddressSpace.ctorExecutable cfg k executable fileName fresh = .ok sp k')
    (hdisj : ∀ a, ¬ ((normaliseHeader cfg executable.noffH).code.covers a ∧
      (normaliseHeader cfg executable.noffH).initData.covers a))
    (hcfile : (normaliseHeader cfg executable.noffH).code.inFileAddr
      + (normaliseHeader cfg executable.noffH).code.size ≤ executable.data.length)
    (hdfile : (normaliseHeader cfg executable.noffH).initData.inFileAddr
      + (normaliseHeader cfg executable.noffH).initData.size ≤ executable.data.length) :
    ∀ a, a < sp.numVirtualPages * cfg.PageSize →
      ((normaliseHeader cfg executable.noffH).code.covers a →
        executable.data[(normaliseHeader cfg executable.noffH).code.inFileAddr
            + (a - (normaliseHeader cfg executable.noffH).code.virtualAddr)]?
          = some (k'.machine.mainMemory (k.numPagesAllocated * cfg.PageSize + a))) ∧
      ((normaliseHeader cfg executable.noffH).initData.covers a →
        executable.data[(normaliseHeader cfg executable.noffH).initData.inFileAddr
            + (a - (normaliseHeader cfg executable.noffH).initData.virtualAddr)]?
          = some (k'.machine.mainMemory (k.numPagesAllocated * cfg.PageSize + a))) ∧
      (¬ (normaliseHeader cfg executable.noffH).code.covers a →
        ¬ (normaliseHeader cfg executable.noffH).initData.covers a →
        k'.machine.mainMemory (k.numPagesAllocated * cfg.PageSize + a) = 0) := by
  obtain ⟨_, _, mem2, hc, hd⟩ := eager_memory cfg hcfg k executable fileName fresh sp k' halgo h
  generalize normaliseHeader cfg executable.noffH = H at *
  intro a ha
  unfold Segment.covers at *
  -- the memory after the code segment was loaded
  have hmem2_code : H.code.virtualAddr ≤ a ∧ a < H.code.virtualAddr + H.code.size →
      executable.data[H.code.inFileAddr + (a - H.code.virtualAddr)]?
        = some (mem2 (k.numPagesAllocated * cfg.PageSize + a)) := by
    intro hin
    rcases hc with ⟨h0, _⟩ | ⟨_, _, hm⟩
    · omega
    · have := ReadAt_inside executable
        (bzero k.machine.mainMemory (k.numPagesAllocated * cfg.PageSize)
          (sp.numVirtualPages * cfg.PageSize))
        (k.numPagesAllocated * cfg.PageSize + H.code.virtualAddr) H.code.size
        H.code.inFileAddr (k.numPagesAllocated * cfg.PageSize + a) hcfile (by omega)
      rw [hm]
      have e : k.numPagesAllocated * cfg.PageSize + a
          - (k.numPagesAllocated * cfg.PageSize + H.code.virtualAddr)
          = a - H.code.virtualAddr := by omega
      rw [e] at this
      exact this
  have hmem2_zero : ¬ (H.code.virtualAddr ≤ a ∧ a < H.code.virtualAddr + H.code.size) →
      mem2 (k.numPagesAllocated * cfg.PageSize + a) = 0 := by
    intro hout
    have hz : bzero k.machine.mainMemory (k.numPagesAllocated * cfg.PageSize)
        (sp.numVirtualPages * cfg.PageSize) (k.numPagesAllocated * cfg.PageSize + a) = 0 := by
      unfold bzero
      rw [if_pos ⟨by omega, by omega⟩]
    rcases hc with ⟨_, hm⟩ | ⟨_, _, hm⟩
    · rw [hm]; exact hz
    · rw [hm, ReadAt_outside _ _ _ _ _ _ (by omega)]
      exact hz
  have hfinal_out : ¬ (H.initData.virtualAddr ≤ a ∧
        a < H.initData.virtualAddr + H.initData.size) →
      k'.machine.mainMemory (k.numPagesAllocated * cfg.PageSize + a)
        = mem2 (k.numPagesAllocated * cfg.PageSize + a) := by
    intro hout
    rcases hd with ⟨_, hm⟩ | ⟨_, _, hm⟩
    · rw [hm]
    · rw [hm, ReadAt_outside _ _ _ _ _ _ (by omega)]
  refine ⟨?_, ?_, ?_⟩
  · intro hin
    rw [hfinal_out (fun hd' => hdisj a ⟨hin, hd'⟩)]
    exact hmem2_code hin
  · intro hin
    rcases hd with ⟨h0, _⟩ | ⟨_, _, hm⟩
    · omega
    · have := ReadAt_inside executable mem2
        (k.numPagesAllocated * cfg.PageSize + H.initData.virtualAddr) H.initData.size
        H.initData.inFileAddr (k.numPagesAllocated * cfg.PageSize + a) hdfile (by omega)
      rw [hm]
      have e : k.numPagesAllocated * cfg.PageSize + a
          - (k.numPagesAllocated * cfg.PageSize + H.initData.virtualAddr)
          = a - H.initData.virtualAddr := by omega
      rw [e] at this
      exact this
  · intro hnc hnd
    rw [hfinal_out hnd]
    exact hmem2_zero hnc

/-- C20. Let the code segment and the initialised-data segment satisfy
`virtualAddr + size <= numVirtualPages * PageSize`. A successful eager construction
with `B` frames issued before indexes the page table only at positions below
`numVirtualPages`, and every byte of physical memory outside
`[B * PageSize, (B + numVirtualPages) * PageSize)` is the same after the call as
before. -/
theorem C20_eager_write_confinement (cfg : Config) (k : Kernel) (executable : OpenFile)
    (fileName : String) (fresh : Nat → TranslationEntry) (sp : ProcessAddressSpace)
    (k' : Kernel) (hcfg : cfg.wf) (halgo : k.pageReplaceAlgo = 0)
    (h : ProcessAddressSpace.ctorExecutable cfg k executable fileName fresh = .ok sp k')
    (hcode : (normaliseHeader cfg executable.noffH).code.virtualAddr
      + (normaliseHeader cfg executable.noffH).code.size ≤ sp.numVirtualPages * cfg.PageSize)
    (hdata : (normaliseHeader cfg executable.noffH).initData.virtualAddr
      + (normaliseHeader cfg executable.noffH).initData.size
        ≤ sp.numVirtualPages * cfg.PageSize) :
    (∀ i, i ∈ eagerTableIndexes cfg (normaliseHeader cfg executable.noffH) →
      i < sp.numVirtualPages) ∧
    (∀ a, ¬ (k.numPagesAllocated * cfg.PageSize ≤ a ∧
        a < (k.numPagesAllocated + sp.numVirtualPages) * cfg.PageSize) →
      k'.machine.mainMemory a = k.machine.mainMemory a) := by
  obtain ⟨hn, _, mem2, hc, hd⟩ :=
    eager_memory cfg hcfg k executable fileName fresh sp k' halgo h
  have hsum : (k.numPagesAllocated + sp.numVirtualPages) * cfg.PageSize
      = k.numPagesAllocated * cfg.PageSize + sp.numVirtualPages * cfg.PageSize :=
    Nat.add_mul _ _ _
  constructor
  · intro i hi
    unfold eagerTableIndexes at hi
    rw [← hn] at hi
    rcases List.mem_append.mp hi with hi1 | hi2
    · rcases List.mem_append.mp hi1 with hr | hcd
      · exact List.mem_range.mp hr
      · split at hcd
        · rename_i hpos
          rw [List.mem_singleton.mp hcd]
          exact Nat.div_lt_of_lt_mul (by rw [Nat.mul_comm]; omega)
        · cases hcd
    · split at hi2
      · rename_i hpos
        rw [List.mem_singleton.mp hi2]
        exact Nat.div_lt_of_lt_mul (by rw [Nat.mul_comm]; omega)
      · cases hi2
  · intro a ha
    rw [hsum] at ha
    have hz : bzero k.machine.mainMemory (k.numPagesAllocated * cfg.PageSize)
        (sp.numVirtualPages * cfg.PageSize) a = k.machine.mainMemory a := by
      unfold bzero
      rw [if_neg (by omega)]
    have hm2 : mem2 a = k.machine.mainMemory a := by
      rcases hc with ⟨_, hm⟩ | ⟨_, _, hm⟩
      · rw [hm]; exact hz
      · rw [hm, ReadAt_outside _ _ _ _ _ _ (by omega)]
        exact hz
    rcases hd with ⟨_, hm⟩ | ⟨_, _, hm⟩
    · rw [hm]; exact hm2
    · rw [hm, ReadAt_outside _ _ _ _ _ _ (by omega)]
      exact hm2

/-- The header of the small program is in native order. -/
theorem smallExe_normalised : normaliseHeader stockConfig smallExe.noffH = smallHeader := by
  decide

/-- Witness of C14: the small program loaded eagerly after boot; its code segment is
`[0, 16)` and its initialised data `[16, 24)`. -/
theorem C14_eager_memory_image_witness :
    (stockConfig.wf ∧ bootKernel.pageReplaceAlgo = 0 ∧
      ProcessAddressSpace.ctorExecutable stockConfig bootKernel smallExe "small" zeroFresh
        = .ok smallSpace smallKernel ∧
      (∀ a, ¬ ((normaliseHeader stockConfig smallExe.noffH).code.covers a ∧
        (normaliseHeader stockConfig smallExe.noffH).initData.covers a)) ∧
      (normaliseHeader stockConfig smallExe.noffH).code.inFileAddr
        + (normaliseHeader stockConfig smallExe.noffH).code.size ≤ smallExe.data.length ∧
      (normaliseHeader stockConfig smallExe.noffH).initData.inFileAddr
        + (normaliseHeader stockConfig smallExe.noffH).initData.size
          ≤ smallExe.data.length) ∧
    (∀ a, a < smallSpace.numVirtualPages * stockConfig.PageSize →
      ((normaliseHeader stockConfig smallExe.noffH).code.covers a →
        smallExe.data[(normaliseHeader stockConfig smallExe.noffH).code.inFileAddr
            + (a - (normaliseHeader stockConfig smallExe.noffH).code.virtualAddr)]?
          = some (smallKernel.machine.mainMemory
              (bootKernel.numPagesAllocated * stockConfig.PageSize + a))) ∧
      ((normaliseHeader stockConfig smallExe.noffH).initData.covers a →
        smallExe.data[(normaliseHeader stockConfig smallExe.noffH).initData.inFileAddr
            + (a - (normaliseHeader stockConfig smallExe.noffH).initData.virtualAddr)]?
          = some (smallKernel.machine.mainMemory
              (bootKernel.numPagesAllocated * stockConfig.PageSize + a))) ∧
      (¬ (normaliseHeader stockConfig smallExe.noffH).code.covers a →
        ¬ (normaliseHeader stockConfig smallExe.noffH).initData.covers a →
        smallKernel.machine.mainMemory
          (bootKernel.numPagesAllocated * stockConfig.PageSize + a) = 0)) :=
  have h : ProcessAddressSpace.ctorExecutable stockConfig bootKernel smallExe "small" zeroFresh
      = .ok smallSpace smallKernel := rfl
  have hdisj : ∀ a, ¬ ((normaliseHeader stockConfig smallExe.noffH).code.covers a ∧
      (normaliseHeader stockConfig smallExe.noffH).initData.covers a) := by
    intro a
    rw [smallExe_normalised]
    unfold Segment.covers
    simp only [smallHeader]
    omega
  ⟨⟨by decide, rfl, h, hdisj, by decide, by decide⟩,
    C14_eager_memory_image stockConfig bootKernel smallExe "small" zeroFresh smallSpace
      smallKernel (by decide) rfl h hdisj (by decide) (by decide)⟩

/-- Witness of C20: the small program loaded eagerly with nine frames issued. -/
theorem C20_eager_write_confinement_witness :
    (stockConfig.wf ∧ smallKernel.pageReplaceAlgo = 0 ∧
      ProcessAddressSpace.ctorExecutable stockConfig smallKernel smallExe "small" zeroFresh
        = .ok secondSpace secondKernel ∧
      (normaliseHeader stockConfig smallExe.noffH).code.virtualAddr
        + (normaliseHeader stockConfig smallExe.noffH).code.size
          ≤ secondSpace.numVirtualPages * stockConfig.PageSize ∧
      (normaliseHeader stockConfig smallExe.noffH).initData.virtualAddr
        + (normaliseHeader stockConfig smallExe.noffH).initData.size
          ≤ secondSpace.numVirtualPages * stockConfig.PageSize) ∧
    ((∀ i, i ∈ eagerTableIndexes stockConfig (normaliseHeader stockConfig smallExe.noffH) →
      i < secondSpace.numVirtualPages) ∧
    (∀ a, ¬ (smallKernel.numPagesAllocated * stockConfig.PageSize ≤ a ∧
        a < (smallKernel.numPagesAllocated + secondSpace.numVirtualPages)
          * stockConfig.PageSize) →
      secondKernel.machine.mainMemory a = smallKernel.machine.mainMemory a)) :=
  have h : ProcessAddressSpace.ctorExecutable stockConfig smallKernel smallExe "small" zeroFresh
      = .ok secondSpace secondKernel := rfl
  ⟨⟨by decide, rfl, h, by decide, by decide⟩,
    C20_eager_write_confinement stockConfig smallKernel smallExe "small" zeroFresh secondSpace
      secondKernel (by decide) rfl h (by decide) (by decide)⟩

/-! ## Capacity and growth -/

/-- The two constructors keep the frame-issued counter within the capacity they
assert. -/
theorem constructors_keep_capacity (cfg : Config) (hcfg : cfg.wf) (k : Kernel)
    (executable : OpenFile) (fileName : String) (fresh : Nat → TranslationEntry)
    (parentSpace sp : ProcessAddressSpace) (k' : Kernel) :
    (ProcessAddressSpace.ctorExecutable cfg k executable fileName fresh = .ok sp k' →
      k.numPagesAllocated ≤ cfg.NumPhysPages ∧ k'.numPagesAllocated ≤ cfg.NumPhysPages) ∧
    (ProcessAddressSpace.ctorParent cfg k parentSpace fresh = .ok sp k' →
      k.numPagesAllocated ≤ cfg.NumPhysPages ∧ k'.numPagesAllocated ≤ cfg.NumPhysPages) := by
  constructor
  · intro h
    by_cases halgo : k.pageReplaceAlgo = 0
    · obtain ⟨_, hcap, _, _, _, _, _, _, _, rfl⟩ :=
        ctorExecutable_eager_ok cfg k executable fileName fresh sp k' halgo h
      exact ⟨by omega, by simp only; omega⟩
    · obtain ⟨_, hcap, rfl, _⟩ :=
        ctorExecutable_demand_ok cfg k executable fileName fresh sp k' halgo h
      exact ⟨by omega, by omega⟩
  · intro h
    obtain ⟨_, hcap, _, _, _, hcnt, _⟩ := ctorParent_inv cfg hcfg k parentSpace fresh sp k' h
    simp only at hcnt
    have := privCount_le parentSpace.KernelPageTable parentSpace.numVirtualPages
    exact ⟨by omega, by omega⟩

/-- The only assertion that can stop `DemandAllocation` is the magic check: no
assertion of it looks at the frame-issued counter. -/
theorem DemandAllocation_fatal_only_magic (cfg : Config) (k : Kernel)
    (sp : ProcessAddressSpace) (vpaddress : Int)
    (h : (sp.DemandAllocation cfg k vpaddress).isFatal = true) :
    ∃ f, k.fileSystem sp.fileName = some f ∧ ¬ magicCheckPasses cfg f.noffH := by
  unfold ProcessAddressSpace.DemandAllocation at h
  simp only [] at h
  split at h
  · cases h
  · split at h
    · cases h
    · rename_i f hf
      split at h
      · rename_i hm
        exact ⟨f, hf, by simpa [magicCheckPasses] using hm⟩
      · split at h
        · cases h
        · split at h
          · cases h
          · cases h

/-- Every `AllocateSharedMemory` that returns has appended: `numVirtualPages` did not
decrease and the entries below the old `numVirtualPages` are the old entries. -/
theorem AllocateSharedMemory_appends (cfg : Config) (k : Kernel) (sp : ProcessAddressSpace)
    (size : Int) (fresh : Nat → TranslationEntry) (ret : Nat) (sp' : ProcessAddressSpace)
    (k' : Kernel)
    (h : sp.AllocateSharedMemory cfg k size fresh = .ok (ret, sp') k') :
    sp.numVirtualPages ≤ sp'.numVirtualPages ∧
    ∀ i, i < sp.numVirtualPages →
      ∃ e, sp.KernelPageTable[i]? = some e ∧ sp'.KernelPageTable[i]? = some e := by
  obtain ⟨_, hPR, hlen, _, hnvp, _, _, _, hold, _⟩ :=
    AllocateSharedMemory_ok cfg k sp size fresh ret sp' k' h
  refine ⟨by rw [hnvp]; exact hPR, fun i hi => ?_⟩
  have hil : i < sp.KernelPageTable.length := by omega
  exact ⟨sp.KernelPageTable[i], List.getElem?_eq_getElem hil,
    by rw [hold i hi]; exact List.getElem?_eq_getElem hil⟩

/-- C11, the code at the failing inputs. With all 32 frames issued, so with
`numPagesAllocated <= NumPhysPages`, `GetNextFreePage` returns frame 32 and leaves
the counter at 33; `DemandAllocation(0)` on the small demand-paged space does not end
in a failed assertion: it goes on to zero `mainMemory[32 * 128 ..]`, past the end of
the memory array, where the model has no defined behaviour; and
`AllocateSharedMemory(128)` on the 9-page space returns with the counter at 33 and
page 9 bound to frame 32. -/
theorem C11_counter_past_capacity :
    (exhaustedKernel.numPagesAllocated ≤ stockConfig.NumPhysPages ∧
      (GetNextFreePage exhaustedKernel (-1)).1 = 32 ∧
      (GetNextFreePage exhaustedKernel (-1)).2.numPagesAllocated = 33) ∧
    (fullKernel.numPagesAllocated ≤ stockConfig.NumPhysPages ∧
      ((run stockConfig { kernel := demandBoot, spaces := [] } faultOps).map
        fun w => (w.kernel.numPagesAllocated, w.spaces.map fun sp => sp.numVirtualPages))
        = some (fullKernel.numPagesAllocated, [demandSpace.numVirtualPages]) ∧
      (demandSpace.DemandAllocation stockConfig fullKernel 0).isFatal = false ∧
      demandSpace.DemandAllocation stockConfig fullKernel 0 = .undef) ∧
    (((smallSpace.AllocateSharedMemory stockConfig exhaustedKernel 128 zeroFresh).kernel?.map
        fun k => k.numPagesAllocated) = some 33 ∧
      ((smallSpace.AllocateSharedMemory stockConfig exhaustedKernel 128 zeroFresh).val?.bind
        fun r => r.2.KernelPageTable[9]?.map fun e => e.physicalPage) = some 32) :=
  ⟨⟨by decide, rfl, rfl⟩, ⟨by decide, by decide, rfl, rfl⟩, ⟨by decide, by decide⟩⟩

/-- C15, the code at the failing input. For `AllocateSharedMemory(-128)` on the
9-page small space, `divRoundUp(-128, 128)` is -1 and `numRequiredPages` is 8: the
assertion `8 <= 32` passes, so the call does not end in a failed assertion; the new
table has 8 entries, fewer than `numVirtualPages`, and the copy loop assigns
`newPageTable[8]`, past its end, where the model has no defined behaviour. -/
theorem C15_negative_size_shrinks :
    divRoundUpInt (-128) stockConfig.PageSize = -1 ∧
    requiredPages stockConfig smallSpace.numVirtualPages (-128) = 8 ∧
    requiredPages stockConfig smallSpace.numVirtualPages (-128) ≤ stockConfig.NumPhysPages ∧
    requiredPages stockConfig smallSpace.numVirtualPages (-128) < smallSpace.numVirtualPages ∧
    (newTable zeroFresh (requiredPages stockConfig smallSpace.numVirtualPages (-128))).length
      = 8 ∧
    (smallSpace.AllocateSharedMemory stockConfig smallKernel (-128) zeroFresh).isFatal = false ∧
    smallSpace.AllocateSharedMemory stockConfig smallKernel (-128) zeroFresh = .undef :=
  ⟨by decide, by decide, by decide, by decide, by decide, rfl, rfl⟩

end NachOS
